import Mathlib

/-!
# freetype/truetype: the TrueType parser and its queries

A shallow embedding of `src/freetype/truetype/truetype.go`.

Conventions of the embedding

* A Go `[]byte` is a `List Byte` with `Byte = Fin 256`; a sub-slice `b[lo:hi]`
  is the corresponding sub-list (the code never writes through a slice, so
  aliasing is unobservable).
* Go `int` is taken to be 64 bits wide (amd64, arm64).  Every `int` the parser
  computes is then a small combination of 16- and 32-bit fields and buffer
  lengths, so no `int` operation wraps and `int` is embedded as `Int`.
  Unsigned 16/32-bit values are `Nat`, reduced explicitly where Go wraps.
* An index or slice expression that is out of range makes Go panic.  The
  embedding keeps that outcome apart from a normal return: `Exec.panic`.
* Loops whose trip count is not structurally evident run on a step budget;
  `Exec.diverge` is the outcome "budget exhausted" and has no Go counterpart.
-/

namespace truetype

set_option linter.dupNamespace false
set_option maxRecDepth 100000

/-- One byte of a Go byte slice. -/
abbrev Byte := Fin 256

/-- Outcome of running a piece of Go code. -/
inductive Exec (α : Type) where
  /-- normal return -/
  | ret (a : α) : Exec α
  /-- run-time panic: index or slice bounds out of range -/
  | panic : Exec α
  /-- the step budget of the embedding ran out -/
  | diverge : Exec α
  deriving DecidableEq, Repr

/-- Sequencing of Go statements: a panic (or exhaustion) aborts what follows. -/
def Exec.bind {α β : Type} (m : Exec α) (k : α → Exec β) : Exec β :=
  match m with
  | .ret a => k a
  | .panic => .panic
  | .diverge => .diverge

instance : Monad Exec where
  pure := Exec.ret
  bind := Exec.bind

/-- Go `error` values produced by the package (`nil` is `none : Option Error`). -/
inductive Error where
  | FormatError (msg : String) : Error
  | UnsupportedError (msg : String) : Error
  deriving DecidableEq, Repr

/-- The method `Error()` of both error types. -/
def Error.Error : Error → String
  | .FormatError e => "freetype: invalid TrueType format: " ++ e
  | .UnsupportedError e => "freetype: unsupported TrueType feature: " ++ e

/-- The index expression `b[i]`, widened to an unsigned integer. -/
def byteAt (b : List Byte) (i : Int) : Exec Nat :=
  if i < 0 then .panic
  else
    match b[i.toNat]? with
    | some x => .ret x.val
    | none => .panic

/-- The slice expression `b[lo:hi]`. -/
def slice (b : List Byte) (lo hi : Int) : Exec (List Byte) :=
  if 0 ≤ lo ∧ lo ≤ hi ∧ hi ≤ (b.length : Int) then
    .ret ((b.drop lo.toNat).take (hi - lo).toNat)
  else .panic

/-- The slice expression `b[lo:]`. -/
def sliceFrom (b : List Byte) (lo : Int) : Exec (List Byte) :=
  slice b lo b.length

/-- Source `u32`: the big-endian uint32 at `b[i:]`. -/
def u32 (b : List Byte) (i : Int) : Exec Nat := do
  let b0 ← byteAt b i
  let b1 ← byteAt b (i + 1)
  let b2 ← byteAt b (i + 2)
  let b3 ← byteAt b (i + 3)
  pure (b0 <<< 24 ||| b1 <<< 16 ||| b2 <<< 8 ||| b3)

/-- Source `u16`: the big-endian uint16 at `b[i:]`. -/
def u16 (b : List Byte) (i : Int) : Exec Nat := do
  let b0 ← byteAt b i
  let b1 ← byteAt b (i + 1)
  pure (b0 <<< 8 ||| b1)

/-- The conversion `int16(v)` of a uint16 value. -/
def toInt16 (v : Nat) : Int :=
  if v % 65536 < 32768 then ((v % 65536 : Nat) : Int) else ((v % 65536 : Nat) : Int) - 65536

/-- The conversion `uint16(x)` of a signed integer. -/
def toUint16 (x : Int) : Nat := (x % 65536).toNat

/-- The conversion `uint32(x)` of a signed integer. -/
def toUint32 (x : Int) : Nat := (x % 4294967296).toNat

/-- The verb `%d` of `fmt.Sprintf` on a signed integer. -/
def fmtD (x : Int) : String := toString x

/-- The verb `%04x` of `fmt.Sprintf` on an unsigned integer. -/
def fmtX04 (v : Nat) : String :=
  let ds := Nat.toDigits 16 v
  String.mk (List.replicate (4 - ds.length) '0' ++ ds)

/-- Source `readTable`: the slice of the TTF data given by a directory entry. -/
def readTable (ttf offsetLength : List Byte) : Exec (List Byte × Option Error) := do
  let offset : Int := ((← u32 offsetLength 0 : Nat) : Int)
  if offset < 0 then
    pure ([], some (.FormatError ("offset too large: " ++ fmtD (toUint32 offset))))
  else do
    let length : Int := ((← u32 offsetLength 4 : Nat) : Int)
    if length < 0 then
      pure ([], some (.FormatError ("length too large: " ++ fmtD (toUint32 length))))
    else
      let ed := offset + length
      if ed < 0 ∨ ed > (ttf.length : Int) then
        pure ([], some (.FormatError ("offset + length too large: " ++
          fmtD ((toUint32 offset + toUint32 length) % 4294967296 : Nat))))
      else do
        let t ← slice ttf offset ed
        pure (t, none)

def locaOffsetFormatUnknown : Int := 0
def locaOffsetFormatShort : Int := 1
def locaOffsetFormatLong : Int := 2

/-- Source `Bounds`: four int16 values. -/
structure Bounds where
  XMin : Int
  YMin : Int
  XMax : Int
  YMax : Int
  deriving DecidableEq, Repr

/-- Source `HMetric`: a uint16 and an int16. -/
structure HMetric where
  AdvanceWidth : Nat
  LeftSideBearing : Int
  deriving DecidableEq, Repr

/-- Source `cm`: a parsed cmap entry (four uint16 fields; `end_` is the field `end`). -/
structure cm where
  start : Nat
  end_ : Nat
  delta : Nat
  offset : Nat
  deriving DecidableEq, Repr

/-- Source `Font`. -/
structure Font where
  cmap : List Byte
  glyf : List Byte
  head : List Byte
  hhea : List Byte
  hmtx : List Byte
  kern : List Byte
  loca : List Byte
  maxp : List Byte
  cmapIndexes : List Byte
  cm : List cm
  locaOffsetFormat : Int
  nGlyph : Int
  nHMetric : Int
  nKern : Int
  unitsPerEm : Int
  bounds : Bounds
  maxTwilightPoints : Nat
  maxStorage : Nat
  maxFunctionDefs : Nat
  maxStackElements : Nat
  deriving DecidableEq, Repr

/-- The zero value `new(Font)`. -/
def Font.new : Font :=
  { cmap := [], glyf := [], head := [], hhea := [], hmtx := [], kern := [], loca := [],
    maxp := [], cmapIndexes := [], cm := [], locaOffsetFormat := 0, nGlyph := 0,
    nHMetric := 0, nKern := 0, unitsPerEm := 0, bounds := ⟨0, 0, 0, 0⟩,
    maxTwilightPoints := 0, maxStorage := 0, maxFunctionDefs := 0, maxStackElements := 0 }

def cmapFormat4 : Nat := 4
def languageIndependent : Nat := 0
def unicodeEncoding : Nat := 0x00000003
def microsoftEncoding : Nat := 0x00030001

/-- The encoding-record loop of `parseCmap`: `k` iterations remain, `x` is the read
position, `(offset, found)` the choice so far. -/
def parseCmap.scan (cmap : List Byte) : Nat → Int → Int → Bool → Exec (Int × Bool)
  | 0, _, offset, found => .ret (offset, found)
  | k + 1, x, offset, found => do
    let pidPsid ← u32 cmap x
    let o ← u32 cmap (x + 4)
    if pidPsid = unicodeEncoding then
      pure ((o : Int), true)
    else if pidPsid = microsoftEncoding then
      parseCmap.scan cmap k (x + 8) (o : Int) true
    else
      parseCmap.scan cmap k (x + 8) offset found

/-- One of the four segment loops of `parseCmap`: for `i` up to `segCount`, store a
uint16 read at `offset` into a field of `f.cm[i]` (through `upd`) and advance by 2.
`k` iterations remain. -/
def parseCmap.fill (cmap : List Byte) (upd : cm → Nat → cm) :
    Nat → Nat → List cm → Int → Exec (List cm × Int)
  | 0, _, cms, offset => .ret (cms, offset)
  | k + 1, i, cms, offset => do
    let v ← u16 cmap offset
    match cms[i]? with
    | some s => parseCmap.fill cmap upd k (i + 1) (cms.set i (upd s v)) (offset + 2)
    | none => .panic

/-- Source `(*Font).parseCmap`. -/
def Font.parseCmap (f : Font) : Exec (Font × Option Error) :=
  if f.cmap.length < 4 then
    pure (f, some (.FormatError "cmap too short"))
  else do
    let nsubtab ← u16 f.cmap 2
    if (f.cmap.length : Int) < 8 * (nsubtab : Int) + 4 then
      pure (f, some (.FormatError "cmap too short"))
    else do
      let (offset, found) ← parseCmap.scan f.cmap nsubtab 4 0 false
      if !found then
        pure (f, some (.UnsupportedError "cmap encoding"))
      else if offset ≤ 0 ∨ offset > (f.cmap.length : Int) then
        pure (f, some (.FormatError "bad cmap offset"))
      else do
        let cmapFormat ← u16 f.cmap offset
        if cmapFormat ≠ cmapFormat4 then
          pure (f, some (.UnsupportedError ("cmap format: " ++ fmtD cmapFormat)))
        else do
          let language ← u16 f.cmap (offset + 4)
          if language ≠ languageIndependent then
            pure (f, some (.UnsupportedError ("language: " ++ fmtD language)))
          else do
            let segCountX2 ← u16 f.cmap (offset + 6)
            if segCountX2 % 2 = 1 then
              pure (f, some (.FormatError ("bad segCountX2: " ++ fmtD segCountX2)))
            else do
              let segCount := segCountX2 / 2
              let offset := offset + 14
              let cms := List.replicate segCount (⟨0, 0, 0, 0⟩ : truetype.cm)
              let (cms, offset) ←
                parseCmap.fill f.cmap (fun s v => { s with end_ := v }) segCount 0 cms offset
              let offset := offset + 2
              let (cms, offset) ←
                parseCmap.fill f.cmap (fun s v => { s with start := v }) segCount 0 cms offset
              let (cms, offset) ←
                parseCmap.fill f.cmap (fun s v => { s with delta := v }) segCount 0 cms offset
              let (cms, offset) ←
                parseCmap.fill f.cmap (fun s v => { s with offset := v }) segCount 0 cms offset
              let rest ← sliceFrom f.cmap offset
              pure ({ f with cm := cms, cmapIndexes := rest }, none)

/-- Source `(*Font).parseHead`. -/
def Font.parseHead (f : Font) : Exec (Font × Option Error) :=
  if f.head.length ≠ 54 then
    pure (f, some (.FormatError ("bad head length: " ++ fmtD f.head.length)))
  else do
    let upe ← u16 f.head 18
    let xmin ← u16 f.head 36
    let ymin ← u16 f.head 38
    let xmax ← u16 f.head 40
    let ymax ← u16 f.head 42
    let f := { f with unitsPerEm := (upe : Int),
                      bounds := ⟨toInt16 xmin, toInt16 ymin, toInt16 xmax, toInt16 ymax⟩ }
    let i ← u16 f.head 50
    if i = 0 then
      pure ({ f with locaOffsetFormat := locaOffsetFormatShort }, none)
    else if i = 1 then
      pure ({ f with locaOffsetFormat := locaOffsetFormatLong }, none)
    else
      pure (f, some (.FormatError ("bad indexToLocFormat: " ++ fmtD i)))

/-- Source `(*Font).parseHhea`. -/
def Font.parseHhea (f : Font) : Exec (Font × Option Error) :=
  if f.hhea.length ≠ 36 then
    pure (f, some (.FormatError ("bad hhea length: " ++ fmtD f.hhea.length)))
  else do
    let n ← u16 f.hhea 34
    let f := { f with nHMetric := (n : Int) }
    if 4 * f.nHMetric + 2 * (f.nGlyph - f.nHMetric) ≠ (f.hmtx.length : Int) then
      pure (f, some (.FormatError ("bad hmtx length: " ++ fmtD f.hmtx.length)))
    else
      pure (f, none)

/-- Source `(*Font).parseKern`. -/
def Font.parseKern (f : Font) : Exec (Font × Option Error) :=
  if f.kern.length = 0 then
    if f.nKern ≠ 0 then
      pure (f, some (.FormatError "bad kern table length"))
    else
      pure (f, none)
  else if f.kern.length < 18 then
    pure (f, some (.FormatError "kern data too short"))
  else do
    let version ← u16 f.kern 0
    let offset : Int := 2
    if version ≠ 0 then
      pure (f, some (.UnsupportedError ("kern version: " ++ fmtD version)))
    else do
      let n ← u16 f.kern offset
      let offset := offset + 2
      if n ≠ 1 then
        pure (f, some (.UnsupportedError ("kern nTables: " ++ fmtD n)))
      else do
        let offset := offset + 2
        let length : Int := ((← u16 f.kern offset : Nat) : Int)
        let offset := offset + 2
        let coverage ← u16 f.kern offset
        let offset := offset + 2
        if coverage ≠ 0x0001 then
          pure (f, some (.UnsupportedError ("kern coverage: 0x" ++ fmtX04 coverage)))
        else do
          let nk ← u16 f.kern offset
          let f := { f with nKern := (nk : Int) }
          if 6 * f.nKern ≠ length - 14 then
            pure (f, some (.FormatError "bad kern table length"))
          else
            pure (f, none)

/-- Source `(*Font).parseMaxp`. -/
def Font.parseMaxp (f : Font) : Exec (Font × Option Error) :=
  if f.maxp.length ≠ 32 then
    pure (f, some (.FormatError ("bad maxp length: " ++ fmtD f.maxp.length)))
  else do
    let ng ← u16 f.maxp 4
    let tw ← u16 f.maxp 16
    let st ← u16 f.maxp 18
    let fd ← u16 f.maxp 20
    let se ← u16 f.maxp 24
    pure ({ f with nGlyph := (ng : Int), maxTwilightPoints := tw, maxStorage := st,
                   maxFunctionDefs := fd, maxStackElements := se }, none)

/-- Source `(*Font).Bounds`. -/
def Font.Bounds (f : Font) : Bounds := f.bounds

/-- Source `(*Font).UnitsPerEm`. -/
def Font.UnitsPerEm (f : Font) : Int := f.unitsPerEm

/-- The segment loop of `Index`, entered at position `i` with the segments
`f.cm[i:]` still to visit; `c` is the truncated rune. -/
def Font.indexFrom (f : Font) (c : Nat) : List truetype.cm → Nat → Exec Nat
  | [], _ => .ret 0
  | s :: rest, i =>
    if s.start ≤ c ∧ c ≤ s.end_ then
      if s.offset = 0 then
        .ret ((c + s.delta) % 65536)
      else
        let n : Int := f.cm.length
        let offset : Int := (s.offset : Int) + 2 * ((i : Int) - n + ((c + 65536 - s.start) % 65536 : Nat))
        u16 f.cmapIndexes offset
    else
      Font.indexFrom f c rest (i + 1)

/-- Source `(*Font).Index`: a Font's index for the rune `x`. -/
def Font.Index (f : Font) (x : Int) : Exec Nat :=
  Font.indexFrom f (toUint16 x) f.cm 0

/-- Source `(*Font).HMetric`: the horizontal metrics of glyph `i`. -/
def Font.HMetric (f : Font) (i : Nat) : Exec HMetric :=
  let j : Int := i
  if j ≥ f.nGlyph then
    pure ⟨0, 0⟩
  else if j ≥ f.nHMetric then do
    let p := 4 * (f.nHMetric - 1)
    let aw ← u16 f.hmtx p
    let lsb ← u16 f.hmtx (p + 2 * (j - f.nHMetric) + 4)
    pure ⟨aw, toInt16 lsb⟩
  else do
    let aw ← u16 f.hmtx (4 * j)
    let lsb ← u16 f.hmtx (4 * j + 2)
    pure ⟨aw, toInt16 lsb⟩

/-- The binary-search loop of `Kerning` on a step budget. -/
def Font.kerningLoop (f : Font) (g : Nat) : Nat → Int → Int → Exec Int
  | 0, _, _ => .diverge
  | fuel + 1, lo, hi =>
    if lo < hi then do
      let i := (lo + hi) / 2
      let ig ← u32 f.kern (18 + 6 * i)
      if ig < g then
        Font.kerningLoop f g fuel (i + 1) hi
      else if ig > g then
        Font.kerningLoop f g fuel lo i
      else do
        let v ← u16 f.kern (22 + 6 * i)
        pure (toInt16 v)
    else
      pure 0

/-- Source `(*Font).Kerning`: the kerning for the glyph pair `(i0, i1)`.  The loop
halves `hi - lo ≤ nKern` at every step, so `nKern + 1` steps are enough. -/
def Font.Kerning (f : Font) (i0 i1 : Nat) : Exec Int :=
  if f.nKern = 0 then
    pure 0
  else
    let g := i0 <<< 16 ||| i1
    Font.kerningLoop f g (f.nKern.toNat + 1) 0 f.nKern

/-- A four-letter table tag as bytes. -/
def tag (s : String) : List Byte := s.toList.map (fun c => Fin.ofNat c.toNat)

/-- The directory loop of `parse`: `k` iterations remain, `i` is the loop counter. -/
def parse.tables (ttf : List Byte) : Nat → Int → Font → Exec (Font × Option Error)
  | 0, _, f => .ret (f, none)
  | k + 1, i, f => do
    let x := 16 * i + 12
    let t ← slice ttf x (x + 4)
    let (f, err) ←
      if t = tag "cmap" then do
        let (b, err) ← readTable ttf (← slice ttf (x + 8) (x + 16))
        pure ({ f with cmap := b }, err)
      else if t = tag "glyf" then do
        let (b, err) ← readTable ttf (← slice ttf (x + 8) (x + 16))
        pure ({ f with glyf := b }, err)
      else if t = tag "head" then do
        let (b, err) ← readTable ttf (← slice ttf (x + 8) (x + 16))
        pure ({ f with head := b }, err)
      else if t = tag "hhea" then do
        let (b, err) ← readTable ttf (← slice ttf (x + 8) (x + 16))
        pure ({ f with hhea := b }, err)
      else if t = tag "hmtx" then do
        let (b, err) ← readTable ttf (← slice ttf (x + 8) (x + 16))
        pure ({ f with hmtx := b }, err)
      else if t = tag "kern" then do
        let (b, err) ← readTable ttf (← slice ttf (x + 8) (x + 16))
        pure ({ f with kern := b }, err)
      else if t = tag "loca" then do
        let (b, err) ← readTable ttf (← slice ttf (x + 8) (x + 16))
        pure ({ f with loca := b }, err)
      else if t = tag "maxp" then do
        let (b, err) ← readTable ttf (← slice ttf (x + 8) (x + 16))
        pure ({ f with maxp := b }, err)
      else
        pure (f, (none : Option Error))
    match err with
    | some e => pure (f, some e)
    | none => parse.tables ttf k (i + 1) f

/-- The tail of `parse` after the directory loop: the five sub-parsers in order.
The result is Go's pair `(font, err)`. -/
def parse.check (f : Font) : Exec (Option Font × Option Error) := do
  let (f, err) ← f.parseHead
  match err with
  | some e => pure (none, some e)
  | none => do
    let (f, err) ← f.parseMaxp
    match err with
    | some e => pure (none, some e)
    | none => do
      let (f, err) ← f.parseCmap
      match err with
      | some e => pure (none, some e)
      | none => do
        let (f, err) ← f.parseKern
        match err with
        | some e => pure (none, some e)
        | none => do
          let (f, err) ← f.parseHhea
          match err with
          | some e => pure (none, some e)
          | none => pure (some f, none)

/-- Source `parse`, with the depth of the recursion as a step budget. -/
def parseFuel : Nat → List Byte → Int → Exec (Option Font × Option Error)
  | 0, _, _ => .diverge
  | fuel + 1, ttf, offset =>
    if (ttf.length : Int) - offset < 12 then
      pure (none, some (.FormatError "TTF data is too short"))
    else do
      let originalOffset := offset
      let magic ← u32 ttf offset
      let offset := offset + 4
      if magic = 0x00010000 then do
        let n : Int := ((← u16 ttf offset : Nat) : Int)
        if (ttf.length : Int) < 16 * n + 12 then
          pure (none, some (.FormatError "TTF data is too short"))
        else do
          let (f, err) ← parse.tables ttf n.toNat 0 Font.new
          match err with
          | some e => pure (none, some e)
          | none => parse.check f
      else if magic = 0x74746366 then
        if originalOffset ≠ 0 then
          pure (none, some (.FormatError "recursive TTC"))
        else do
          let ttcVersion ← u32 ttf offset
          let offset := offset + 4
          if ttcVersion ≠ 0x00010000 then
            pure (none, some (.FormatError "bad TTC version"))
          else do
            let numFonts : Int := ((← u32 ttf offset : Nat) : Int)
            let offset := offset + 4
            if numFonts ≤ 0 then
              pure (none, some (.FormatError "bad number of TTC fonts"))
            else do
              let tl ← sliceFrom ttf offset
              if (tl.length : Int) / 4 < numFonts then
                pure (none, some (.FormatError "TTC offset table is too short"))
              else do
                let offset : Int := ((← u32 ttf offset : Nat) : Int)
                if offset ≤ 0 ∨ offset > (ttf.length : Int) then
                  pure (none, some (.FormatError "bad TTC offset"))
                else
                  parseFuel fuel ttf offset
      else
        pure (none, some (.FormatError "bad TTF version"))

/-- Source `parse`: the recursion is entered at most once (a nested call has
`offset > 0` and rejects a second collection header), so depth 2 is enough. -/
def parse (ttf : List Byte) (offset : Int) : Exec (Option Font × Option Error) :=
  parseFuel 2 ttf offset

/-- Source `Parse`: a new Font for the given TTF or TTC data. -/
def Parse (ttf : List Byte) : Exec (Option Font × Option Error) :=
  parse ttf 0

/-! ## Predicates and spec-side readings used in the statements -/

/-- Spec-side reading of "the big-endian 16-bit value at byte `p` of `b`". -/
def bigEndian16 (b : List Byte) (p : Nat) : Nat :=
  256 * (b.getD p 0).val + (b.getD (p + 1) 0).val

/-- A returned Go pair `(font, err)` has exactly one non-nil component. -/
def Exclusive (r : Exec (Option Font × Option Error)) : Prop :=
  ∀ font err, r = .ret (font, err) → (font = none ↔ err ≠ none)

/-- The run ends in Go terms: it returns or panics, the budget was not exhausted. -/
def Halts {α : Type} (r : Exec α) : Prop := r ≠ .diverge

/-- Spec-side reading of "a 16-bit value interpreted as two's-complement signed". -/
def twosComplement16 (v : Nat) : Int :=
  if v < 32768 then (v : Int) else (v : Int) - 65536

/-- Spec-side reading of "the big-endian 32-bit value at byte `p` of `b`": the 16-bit
value at `p` in the high half, the one at `p + 2` in the low half. -/
def bigEndian32 (b : List Byte) (p : Nat) : Nat :=
  65536 * bigEndian16 b p + bigEndian16 b (p + 2)

/-- Spec-side: the 32-bit key `left<<16 | right` of kern pair record `i` (the record
starts at byte 18 + 6*i; left glyph at +0, right glyph at +2). -/
def kernKey (kern : List Byte) (i : Nat) : Nat := bigEndian32 kern (18 + 6 * i)

/-- Spec-side: the signed 16-bit value field of kern pair record `i` (at +4). -/
def kernValue (kern : List Byte) (i : Nat) : Int :=
  twosComplement16 (bigEndian16 kern (22 + 6 * i))

/-- Every value the run returns satisfies `P` (nothing is said when it panics). -/
def Returns {α : Type} (r : Exec α) (P : α → Prop) : Prop := ∀ a, r = .ret a → P a

/-- The error is one that `parseHhea` words: a bad hhea length or a bad hmtx length. -/
def isHheaError (e : Error) : Prop :=
  ∃ n : Int, e = .FormatError ("bad hhea length: " ++ fmtD n) ∨
    e = .FormatError ("bad hmtx length: " ++ fmtD n)

/-- Spec-side: the 32-bit platform key of encoding record `i` of a cmap table (the
records start at byte 4 and are 8 bytes long). -/
def encKey (cmap : List Byte) (i : Nat) : Nat := bigEndian32 cmap (4 + 8 * i)

/-- Spec-side: the 32-bit subtable offset of encoding record `i` of a cmap table. -/
def encOffset (cmap : List Byte) (i : Nat) : Nat := bigEndian32 cmap (8 + 8 * i)

/-- The eight table tags that `parse` recognises. -/
def recognizedTags : List (List Byte) :=
  [tag "cmap", tag "glyf", tag "head", tag "hhea", tag "hmtx", tag "kern", tag "loca",
   tag "maxp"]

/-- Spec-side: the 4-byte tag of directory entry `i` of a plain sfnt buffer. -/
def entryTag (ttf : List Byte) (i : Nat) : List Byte := (ttf.drop (12 + 16 * i)).take 4

/-- Spec-side: the offset field of directory entry `i`. -/
def entryOffset (ttf : List Byte) (i : Nat) : Nat := bigEndian32 ttf (12 + 16 * i + 8)

/-- Spec-side: the length field of directory entry `i`. -/
def entryLength (ttf : List Byte) (i : Nat) : Nat := bigEndian32 ttf (12 + 16 * i + 12)

/-- Two buffers of the same length that differ at most in the bytes `lo .. hi-1`. -/
def sameOutside (a b : List Byte) (lo hi : Nat) : Prop :=
  a.length = b.length ∧ a.take lo = b.take lo ∧ a.drop hi = b.drop hi

/-- The run makes no out-of-range access: it does not end in a panic. -/
def InBounds {α : Type} (r : Exec α) : Prop := r ≠ .panic

/-- Spec-side: `Parse ttf` gets through the header (for a collection also through the
TTC header and the redirection to the first font, at `o`) and through the directory
loop without error, and so arrives at the sub-parsers with the Font `f0`. -/
def ReachesCheck (ttf : List Byte) (f0 : Font) : Prop :=
  ∃ o : Nat,
    (o = 0 ∨
      (bigEndian32 ttf 0 = 0x74746366 ∧ bigEndian32 ttf 4 = 0x00010000 ∧
        1 ≤ bigEndian32 ttf 8 ∧ bigEndian32 ttf 8 ≤ (ttf.length - 12) / 4 ∧
        o = bigEndian32 ttf 12 ∧ 0 < o)) ∧
    o + 12 ≤ ttf.length ∧ bigEndian32 ttf o = 0x00010000 ∧
    16 * bigEndian16 ttf (o + 4) + 12 ≤ ttf.length ∧
    parse.tables ttf (bigEndian16 ttf (o + 4)) 0 Font.new = .ret (f0, none)

/-! ## Concrete font files and fonts used as inputs -/

/-- Big-endian bytes of a 16-bit value. -/
def be16 (v : Nat) : List Byte := [Fin.ofNat (v / 256), Fin.ofNat v]

/-- Big-endian bytes of a 32-bit value. -/
def be32 (v : Nat) : List Byte :=
  [Fin.ofNat (v / 16777216), Fin.ofNat (v / 65536), Fin.ofNat (v / 256), Fin.ofNat v]

/-- A run of `n` zero bytes. -/
def zeros (n : Nat) : List Byte := List.replicate n 0

/-- A 16-byte table directory entry: tag, checksum (0), offset, length. -/
def dirEntry (t : String) (offset length : Nat) : List Byte :=
  tag t ++ be32 0 ++ be32 offset ++ be32 length

/-- The 12-byte sfnt header: magic 0x00010000, table count, three search fields. -/
def sfntHeader (n : Nat) : List Byte := be32 0x00010000 ++ be16 n ++ zeros 6

/-- Directory entries for tables laid out back to back from byte `off`. -/
def sfntDir : List (String × List Byte) → Nat → List Byte
  | [], _ => []
  | (t, b) :: rest, off => dirEntry t off b.length ++ sfntDir rest (off + b.length)

/-- A plain sfnt file: header, directory, then the tables back to back. -/
def sfnt (tables : List (String × List Byte)) : List Byte :=
  sfntHeader tables.length ++ sfntDir tables (12 + 16 * tables.length) ++
    tables.flatMap Prod.snd

/-- A head table: 54 bytes, unitsPerEm 2048 at 18, indexToLocFormat 0 at 50. -/
def headTable : List Byte := zeros 18 ++ be16 2048 ++ zeros 34

/-- A maxp table: 32 bytes, glyph count at 4. -/
def maxpTable (nGlyph : Nat) : List Byte := zeros 4 ++ be16 nGlyph ++ zeros 26

/-- An hhea table: 36 bytes, number of long metrics at 34. -/
def hheaTable (nHMetric : Nat) : List Byte := zeros 34 ++ be16 nHMetric

/-- A cmap header with one encoding record: Unicode, subtable at `offset`. -/
def cmapHeader (offset : Nat) : List Byte := be16 0 ++ be16 1 ++ be32 3 ++ be32 offset

/-- A format-4 subtable with one segment and the given glyph index array bytes. -/
def cmapSubtable (s : cm) (glyphs : List Byte) : List Byte :=
  be16 4 ++ be16 (24 + glyphs.length) ++ be16 0 ++ be16 2 ++ zeros 6 ++
  be16 s.end_ ++ be16 0 ++ be16 s.start ++ be16 s.delta ++ be16 s.offset ++ glyphs

/-- A format-4 subtable without segments. -/
def cmapSubtableEmpty : List Byte :=
  be16 4 ++ be16 16 ++ be16 0 ++ be16 0 ++ zeros 6 ++ be16 0

/-- A cmap table (28 bytes) whose format-4 subtable has no segment. -/
def cmapEmpty : List Byte := cmapHeader 12 ++ cmapSubtableEmpty

/-- A cmap table (36 bytes) with the one segment A..Z, delta 0, idRangeOffset 2, and
no glyph index array after the segment arrays. -/
def cmapAZNoArray : List Byte := cmapHeader 12 ++ cmapSubtable ⟨0x41, 0x5A, 0, 2⟩ []

/-- A kern table of 18 bytes: version 0, one subtable, declared subtable length 20,
coverage 1, one pair declared, and no room for the pair record. -/
def kernDeclaredOnly : List Byte :=
  be16 0 ++ be16 1 ++ be16 0 ++ be16 20 ++ be16 1 ++ be16 1 ++ zeros 6

/-- A font file (158 bytes) of three tables whose cmap is the 12-byte header alone, the
encoding record pointing at the very end of the table (offset 12 of 12 bytes). -/
def ttfCmapOffsetAtEnd : List Byte :=
  sfnt [("head", headTable), ("maxp", maxpTable 0), ("cmap", cmapHeader 12)]

/-- A font file that parses: one glyph, one long metric, cmap `cmapAZNoArray`. -/
def ttfIndex : List Byte :=
  sfnt [("head", headTable), ("maxp", maxpTable 1), ("cmap", cmapAZNoArray),
        ("hhea", hheaTable 1), ("hmtx", zeros 4)]

/-- The Font that `Parse ttfIndex` returns. -/
def fontIndex : Font :=
  { Font.new with
    head := headTable, maxp := maxpTable 1, cmap := cmapAZNoArray,
    hhea := hheaTable 1, hmtx := zeros 4,
    cm := [⟨0x41, 0x5A, 0, 2⟩], cmapIndexes := [],
    locaOffsetFormat := locaOffsetFormatShort, nGlyph := 1, nHMetric := 1,
    unitsPerEm := 2048 }

/-- A font file that parses: one glyph, hhea declaring no long metric (nHMetric = 0),
hmtx of 2 = 4*0 + 2*(1 - 0) bytes. -/
def ttfNoLongMetric : List Byte :=
  sfnt [("head", headTable), ("maxp", maxpTable 1), ("cmap", cmapEmpty),
        ("hhea", hheaTable 0), ("hmtx", zeros 2)]

/-- The Font that `Parse ttfNoLongMetric` returns. -/
def fontNoLongMetric : Font :=
  { Font.new with
    head := headTable, maxp := maxpTable 1, cmap := cmapEmpty,
    hhea := hheaTable 0, hmtx := zeros 2,
    locaOffsetFormat := locaOffsetFormatShort, nGlyph := 1, nHMetric := 0,
    unitsPerEm := 2048 }

/-- A font file that parses, with the kern table `kernDeclaredOnly`. -/
def ttfKern : List Byte :=
  sfnt [("head", headTable), ("maxp", maxpTable 1), ("cmap", cmapEmpty),
        ("hhea", hheaTable 1), ("hmtx", zeros 4), ("kern", kernDeclaredOnly)]

/-- The Font that `Parse ttfKern` returns. -/
def fontKern : Font :=
  { Font.new with
    head := headTable, maxp := maxpTable 1, cmap := cmapEmpty,
    hhea := hheaTable 1, hmtx := zeros 4, kern := kernDeclaredOnly,
    locaOffsetFormat := locaOffsetFormatShort, nGlyph := 1, nHMetric := 1, nKern := 1,
    unitsPerEm := 2048 }

/-- A font file without any table (the 12-byte header alone). -/
def ttfNoTables : List Byte := sfnt []

/-- Font of the overlapping-segment example: the second and the third segment both
contain 'A'. -/
def fontOverlap : Font :=
  { Font.new with
    cm := [⟨0x30, 0x39, 7, 0⟩, ⟨0x41, 0x5A, 65500, 0⟩, ⟨0x00, 0xFFFF, 1, 0⟩] }

/-- Font of the scenario of the spec: one segment A..Z, delta 0, idRangeOffset 2,
and the glyph index array 1, 2, ..., 26. -/
def fontAZ : Font :=
  { Font.new with
    cm := [⟨0x41, 0x5A, 0, 2⟩],
    cmapIndexes := (List.range 26).flatMap (fun k => be16 (k + 1)) }

/-- A font with three glyphs, one long metric (advance 600, bearing 10) and the
trailing bearings -5 and 7. -/
def fontMono : Font :=
  { Font.new with
    hmtx := be16 600 ++ be16 10 ++ be16 65531 ++ be16 7,
    nGlyph := 3, nHMetric := 1 }

/-- A kern table with three pair records sorted by key: (1,2) ↦ -50, (1,5) ↦ 30,
(4,1) ↦ -7. -/
def kernThree : List Byte :=
  be16 0 ++ be16 1 ++ be16 0 ++ be16 32 ++ be16 1 ++ be16 3 ++ zeros 6 ++
  (be16 1 ++ be16 2 ++ be16 65486) ++ (be16 1 ++ be16 5 ++ be16 30) ++
  (be16 4 ++ be16 1 ++ be16 65529)

/-- A font whose kern table is `kernThree`. -/
def fontKernThree : Font := { Font.new with kern := kernThree, nKern := 3 }

/-- The header of a TrueType collection: "ttcf", version 1.0, the font count and the
offset table. -/
def ttcHeader (offsets : List Nat) : List Byte :=
  tag "ttcf" ++ be32 0x00010000 ++ be32 offsets.length ++ offsets.flatMap be32

/-- An sfnt font placed at byte `base` of a file: as `sfnt`, with the table offsets of
the directory counted from the start of the file. -/
def sfntAt (base : Nat) (tables : List (String × List Byte)) : List Byte :=
  sfntHeader tables.length ++ sfntDir tables (base + 12 + 16 * tables.length) ++
    tables.flatMap Prod.snd

/-- The tables of a small well-formed font: one glyph, one long metric, a cmap
without segments. -/
def tablesPlain : List (String × List Byte) :=
  [("head", headTable), ("maxp", maxpTable 1), ("cmap", cmapEmpty),
   ("hhea", hheaTable 1), ("hmtx", zeros 4)]

/-- The font `tablesPlain` as a plain sfnt file. -/
def ttfPlain : List Byte := sfnt tablesPlain

/-- The Font that `Parse ttfPlain` returns. -/
def fontPlain : Font :=
  { Font.new with
    head := headTable, maxp := maxpTable 1, cmap := cmapEmpty,
    hhea := hheaTable 1, hmtx := zeros 4,
    locaOffsetFormat := locaOffsetFormatShort, nGlyph := 1, nHMetric := 1,
    unitsPerEm := 2048 }

/-- A collection of two fonts, both offsets pointing at byte 20, where the font
`tablesPlain` is stored (header 20..32, directory 32..112, tables from 112). -/
def ttcTwoFonts : List Byte := ttcHeader [20, 20] ++ sfntAt 20 tablesPlain

/-- A collection whose first font offset (20) points at another collection header. -/
def ttcNested : List Byte := ttcHeader [20, 20] ++ ttcHeader [0]

/-- A 16-byte collection header with version field 0. -/
def ttcVersionZero : List Byte := tag "ttcf" ++ be32 0 ++ be32 1 ++ be32 16

/-- A 12-byte buffer starting with "OTTO". -/
def ttfOtto : List Byte := tag "OTTO" ++ be16 0 ++ zeros 6

/-- A cmap table without any encoding record. -/
def cmapNoEncoding : List Byte := be16 0 ++ be16 0

/-- The tables of a font whose hhea declares 3 long metrics for 1 glyph over an hmtx of
4 bytes (the formula asks for 4*3 + 2*(1 - 3) = 8). -/
def tablesHmtxMismatch : List (String × List Byte) :=
  [("head", headTable), ("maxp", maxpTable 1), ("cmap", cmapEmpty),
   ("hhea", hheaTable 3), ("hmtx", zeros 4)]

/-- The font `tablesHmtxMismatch` as a plain sfnt file. -/
def ttfHmtxMismatch : List Byte := sfnt tablesHmtxMismatch

/-- The Font left by the directory loop on `ttfHmtxMismatch`. -/
def fontHmtxMismatchDir : Font :=
  { Font.new with
    head := headTable, maxp := maxpTable 1, cmap := cmapEmpty,
    hhea := hheaTable 3, hmtx := zeros 4 }

/-- The same font with a cmap that has no encoding record. -/
def ttfHmtxMismatchNoEncoding : List Byte :=
  sfnt [("head", headTable), ("maxp", maxpTable 1), ("cmap", cmapNoEncoding),
        ("hhea", hheaTable 3), ("hmtx", zeros 4)]

/-- The Font left by the directory loop on `ttfHmtxMismatchNoEncoding`. -/
def fontHmtxMismatchNoEncodingDir : Font :=
  { Font.new with
    head := headTable, maxp := maxpTable 1, cmap := cmapNoEncoding,
    hhea := hheaTable 3, hmtx := zeros 4 }

/-- A font file whose head table is 10 bytes long, the other tables as in
`tablesPlain`. -/
def ttfShortHead : List Byte :=
  sfnt [("head", zeros 10), ("maxp", maxpTable 1), ("cmap", cmapEmpty),
        ("hhea", hheaTable 1), ("hmtx", zeros 4)]

/-- The Font left by the directory loop on `ttfShortHead`. -/
def fontShortHeadDir : Font :=
  { Font.new with
    head := zeros 10, maxp := maxpTable 1, cmap := cmapEmpty,
    hhea := hheaTable 1, hmtx := zeros 4 }

/-- A font file that parses although hhea declares 3 long metrics for 1 glyph: hmtx
has the 8 = 4*3 + 2*(1 - 3) bytes that the length check asks for. -/
def ttfMoreMetricsThanGlyphs : List Byte :=
  sfnt [("head", headTable), ("maxp", maxpTable 1), ("cmap", cmapEmpty),
        ("hhea", hheaTable 3), ("hmtx", zeros 8)]

/-- The Font that `Parse ttfMoreMetricsThanGlyphs` returns. -/
def fontMoreMetricsThanGlyphs : Font :=
  { Font.new with
    head := headTable, maxp := maxpTable 1, cmap := cmapEmpty,
    hhea := hheaTable 3, hmtx := zeros 8,
    locaOffsetFormat := locaOffsetFormatShort, nGlyph := 1, nHMetric := 3,
    unitsPerEm := 2048 }

/-- A font file that parses and whose head table is all zero (unitsPerEm 0). -/
def ttfZeroHead : List Byte :=
  sfnt [("head", zeros 54), ("maxp", maxpTable 1), ("cmap", cmapEmpty),
        ("hhea", hheaTable 1), ("hmtx", zeros 4)]

/-- The Font that `Parse ttfZeroHead` returns. -/
def fontZeroHead : Font :=
  { Font.new with
    head := zeros 54, maxp := maxpTable 1, cmap := cmapEmpty,
    hhea := hheaTable 1, hmtx := zeros 4,
    locaOffsetFormat := locaOffsetFormatShort, nGlyph := 1, nHMetric := 1 }

/-- A head table with unitsPerEm 1000, bounds (-100, -200, 900, 800) and
indexToLocFormat 1. -/
def headTableLong : List Byte :=
  zeros 18 ++ be16 1000 ++ zeros 16 ++ be16 65436 ++ be16 65336 ++ be16 900 ++ be16 800 ++
    zeros 6 ++ be16 1 ++ zeros 2

/-- A cmap table with two Unicode encoding records: the first points at a format-4
subtable without segments (bytes 20..36), the second at one with the segment A..Z
(bytes 36..60). -/
def cmapTwoUnicode : List Byte :=
  be16 0 ++ be16 2 ++ (be32 3 ++ be32 20) ++ (be32 3 ++ be32 36) ++
  cmapSubtableEmpty ++ cmapSubtable ⟨0x41, 0x5A, 0, 0⟩ []

/-- A cmap table with a Microsoft encoding record (subtable at 20, no segment) followed
by a Unicode one (subtable at 36, segment A..Z). -/
def cmapMicrosoftThenUnicode : List Byte :=
  be16 0 ++ be16 2 ++ (be32 0x00030001 ++ be32 20) ++ (be32 3 ++ be32 36) ++
  cmapSubtableEmpty ++ cmapSubtable ⟨0x41, 0x5A, 0, 0⟩ []

/-- A cmap table whose only encoding record has the Macintosh key 0x00010000. -/
def cmapMacOnly : List Byte := be16 0 ++ be16 1 ++ be32 0x00010000 ++ be32 12 ++ cmapSubtableEmpty

/-- A cmap table with one Unicode encoding record and a format-4 subtable at 12 with
the two segments 0..9 (delta 7) and A..Z (delta 65500), followed by the glyph index
array bytes 0, 9, 0, 8. -/
def cmapTwoSegments : List Byte :=
  cmapHeader 12 ++
  be16 4 ++ be16 36 ++ be16 0 ++ be16 4 ++ zeros 6 ++
  (be16 0x39 ++ be16 0x5A) ++ be16 0 ++ (be16 0x30 ++ be16 0x41) ++
  (be16 7 ++ be16 65500) ++ (be16 0 ++ be16 0) ++ (be16 9 ++ be16 8)

/-- The Font that `parseCmap` leaves on `cmapTwoSegments`. -/
def fontTwoSegments : Font :=
  { Font.new with
    cmap := cmapTwoSegments,
    cm := [⟨0x30, 0x39, 7, 0⟩, ⟨0x41, 0x5A, 65500, 0⟩],
    cmapIndexes := be16 9 ++ be16 8 }

/-- A plain font file with six directory entries: an entry with the unrecognised tag
"DSIG", whose offset and length fields are the 8 bytes `fields` (bytes 20..28 of the
file), followed by the entries of `tablesPlain`; the tables stand behind the directory
(from byte 108). -/
def ttfExtraEntry (fields : List Byte) : List Byte :=
  sfntHeader 6 ++ (tag "DSIG" ++ be32 0 ++ fields) ++ sfntDir tablesPlain 108 ++
    tablesPlain.flatMap Prod.snd

/-- A plain font file whose "head" entry locates the head table at bytes 0..54 of the
file, over the header and the directory; the second entry has the unrecognised tag
"DSIG" and its offset and length fields, the 8 bytes `fields`, are bytes 36..44 of the
file and so the four bounds fields of that head table. -/
def ttfAliasedHead (fields : List Byte) : List Byte :=
  sfntHeader 6 ++ dirEntry "head" 0 54 ++ (tag "DSIG" ++ be32 0 ++ fields) ++
    dirEntry "maxp" 108 32 ++ dirEntry "cmap" 140 28 ++ dirEntry "hhea" 168 36 ++
    dirEntry "hmtx" 204 4 ++
    maxpTable 1 ++ cmapEmpty ++ hheaTable 1 ++ zeros 4

/-- The Font that `Parse (ttfAliasedHead fields)` returns when the fields decode to the
bounds `b`. -/
def fontAliasedHead (fields : List Byte) (b : Bounds) : Font :=
  { Font.new with
    head := (ttfAliasedHead fields).take 54, maxp := maxpTable 1, cmap := cmapEmpty,
    hhea := hheaTable 1, hmtx := zeros 4,
    locaOffsetFormat := locaOffsetFormatShort, nGlyph := 1, nHMetric := 1,
    unitsPerEm := 0, bounds := b }

/-- A cmap table with two Microsoft encoding records and no Unicode one: the first
points at a format-4 subtable without segments (bytes 20..36), the second at one with
the segment A..Z (bytes 36..60). -/
def cmapTwoMicrosoft : List Byte :=
  be16 0 ++ be16 2 ++ (be32 0x00030001 ++ be32 20) ++ (be32 0x00030001 ++ be32 36) ++
  cmapSubtableEmpty ++ cmapSubtable ⟨0x41, 0x5A, 0, 0⟩ []

/-- A cmap table whose Unicode record points at a subtable header (at 12) with the
given format, language and segCountX2 fields. -/
def cmapWithHeader (format language segCountX2 : Nat) : List Byte :=
  cmapHeader 12 ++ be16 format ++ be16 16 ++ be16 language ++ be16 segCountX2 ++ zeros 8

/-- A kern table header of 18 bytes with the given version, subtable count, declared
subtable length, coverage and pair count. -/
def kernHeader (version nTables length coverage nPairs : Nat) : List Byte :=
  be16 version ++ be16 nTables ++ be16 0 ++ be16 length ++ be16 coverage ++ be16 nPairs ++
    zeros 6

/-- A Font state with nHMetric = 0 and nGlyph = 1 that passes the hhea length check
(hmtx has 4*0 + 2*(1 - 0) = 2 bytes). -/
def fontNoLongMetricState : Font :=
  { Font.new with hhea := hheaTable 0, hmtx := zeros 2, nGlyph := 1 }

/-! ## Basic facts about the execution monad and the byte readers -/

theorem bind_def {α β : Type} (m : Exec α) (k : α → Exec β) : (m >>= k) = Exec.bind m k := rfl

theorem pure_def {α : Type} (a : α) : (pure a : Exec α) = Exec.ret a := rfl

theorem Exec.bind_eq_ret {α β : Type} {m : Exec α} {k : α → Exec β} {r : β}
    (h : m.bind k = .ret r) : ∃ a, m = .ret a ∧ k a = .ret r := by
  cases m <;> simp_all [Exec.bind]

theorem shl8_or (a b : Nat) (hb : b < 256) : a <<< 8 ||| b = 256 * a + b := by
  rw [Nat.shiftLeft_eq, Nat.mul_comm]
  exact (Nat.mul_add_lt_is_or (i := 8) hb a).symm

theorem byteAt_of_lt (b : List Byte) (p : Nat) (h : p < b.length) :
    byteAt b (p : Int) = .ret (b.getD p 0).val := by
  unfold byteAt
  have h0 : ¬ ((p : Int) < 0) := by omega
  simp [h0, List.getD, List.getElem?_eq_getElem h]

theorem u16_of_le (b : List Byte) (p : Int) (h0 : 0 ≤ p) (h1 : p + 2 ≤ (b.length : Int)) :
    u16 b p = .ret (bigEndian16 b p.toNat) := by
  obtain ⟨n, rfl⟩ := Int.eq_ofNat_of_zero_le h0
  have hn : n < b.length := by omega
  have hn1 : n + 1 < b.length := by omega
  have e1 : ((n : Int) + 1) = ((n + 1 : Nat) : Int) := by push_cast; rfl
  unfold u16
  rw [e1, bind_def, byteAt_of_lt b n hn]
  simp only [Exec.bind, bind_def, byteAt_of_lt b (n + 1) hn1, pure_def, Int.toNat_ofNat,
    bigEndian16]
  rw [shl8_or _ _ (b.getD (n + 1) 0).isLt]


/-! ## Index -/

/-- The segment loop, entered at position `k` on the segments `l`: when `s = l[i]`
is the first segment of `l` containing `c`, the loop returns what the body computes
for `s` at position `k + i`. -/
theorem indexFrom_first (f : Font) (c : Nat) :
    ∀ (l : List cm) (k i : Nat) (s : cm), l[i]? = some s →
      (s.start ≤ c ∧ c ≤ s.end_) →
      (∀ j t, j < i → l[j]? = some t → ¬ (t.start ≤ c ∧ c ≤ t.end_)) →
      f.indexFrom c l k =
        if s.offset = 0 then .ret ((c + s.delta) % 65536)
        else u16 f.cmapIndexes ((s.offset : Int) +
          2 * (((k + i : Nat) : Int) - (f.cm.length : Int) +
            ((c + 65536 - s.start) % 65536 : Nat))) := by
  intro l
  induction l with
  | nil => intro k i s hs; simp at hs
  | cons t rest ih =>
    intro k i s hs hin hfirst
    cases i with
    | zero =>
      simp only [List.getElem?_cons_zero, Option.some.injEq] at hs
      subst hs
      simp [Font.indexFrom, hin]
    | succ i =>
      simp only [List.getElem?_cons_succ] at hs
      have ht : ¬ (t.start ≤ c ∧ c ≤ t.end_) :=
        hfirst 0 t (Nat.succ_pos i) (by simp)
      have hrest : ∀ j u, j < i → rest[j]? = some u → ¬ (u.start ≤ c ∧ c ≤ u.end_) :=
        fun j u hj hu => hfirst (j + 1) u (Nat.succ_lt_succ hj) (by simpa using hu)
      have e : k + (i + 1) = k + 1 + i := by omega
      rw [Font.indexFrom, if_neg ht, ih (k + 1) i s hs hin hrest, e]

/-- The segment loop returns 0 when no segment of `l` contains `c`. -/
theorem indexFrom_none (f : Font) (c : Nat) :
    ∀ (l : List cm) (k : Nat), (∀ s ∈ l, ¬ (s.start ≤ c ∧ c ≤ s.end_)) →
      f.indexFrom c l k = .ret 0 := by
  intro l
  induction l with
  | nil => intro k _; rfl
  | cons t rest ih =>
    intro k h
    have ht : ¬ (t.start ≤ c ∧ c ≤ t.end_) := h t (List.mem_cons_self t rest)
    rw [Font.indexFrom, if_neg ht]
    exact ih (k + 1) (fun s hs => h s (List.mem_cons_of_mem t hs))

theorem toUint16_lt (x : Int) : toUint16 x < 65536 := by
  unfold toUint16
  omega

/-- C6: if the first stored segment that contains the truncated codepoint has offset 0,
Index returns (c + delta) mod 65536, whatever later segments contain c. -/
theorem Index_first_segment_delta (f : Font) (x : Int) (i : Nat) (s : cm)
    (hs : f.cm[i]? = some s)
    (hin : s.start ≤ toUint16 x ∧ toUint16 x ≤ s.end_)
    (hfirst : ∀ j t, j < i → f.cm[j]? = some t →
      ¬ (t.start ≤ toUint16 x ∧ toUint16 x ≤ t.end_))
    (hoff : s.offset = 0) :
    f.Index x = .ret ((toUint16 x + s.delta) % 65536) := by
  unfold Font.Index
  rw [indexFrom_first f (toUint16 x) f.cm 0 i s hs hin hfirst, if_pos hoff]

theorem Index_first_segment_delta_witness :
    fontOverlap.Index 0x10041 = .ret 29 :=
  Index_first_segment_delta fontOverlap 0x10041 1 ⟨0x41, 0x5A, 65500, 0⟩ (by decide)
    (by decide)
    (by
      intro j t hj ht
      have hj0 : j = 0 := by omega
      subst hj0
      have : t = ⟨0x30, 0x39, 7, 0⟩ := by
        simpa [fontOverlap] using ht.symm
      subst this
      decide)
    rfl

/-- C7: if the first stored segment containing the truncated codepoint c is segment i
and has a nonzero offset, and p = offset + 2*(i - segCount + (c - start)) lies within
the glyph index array (0 ≤ p, p + 2 ≤ len), Index returns the big-endian 16-bit value
at byte p of that array; with the single segment A..Z (delta 0, offset 2) over the
array 1..26, Index('A') = 1 and Index('Z') = 26. -/
theorem Index_first_segment_offset (f : Font) (x : Int) (i : Nat) (s : cm) (p : Int)
    (hs : f.cm[i]? = some s)
    (hin : s.start ≤ toUint16 x ∧ toUint16 x ≤ s.end_)
    (hfirst : ∀ j t, j < i → f.cm[j]? = some t →
      ¬ (t.start ≤ toUint16 x ∧ toUint16 x ≤ t.end_))
    (hoff : s.offset ≠ 0)
    (hp : p = (s.offset : Int) +
      2 * ((i : Int) - (f.cm.length : Int) + ((toUint16 x : Int) - (s.start : Int))))
    (hp0 : 0 ≤ p) (hp1 : p + 2 ≤ (f.cmapIndexes.length : Int)) :
    f.Index x = .ret (bigEndian16 f.cmapIndexes p.toNat) ∧
    fontAZ.Index 0x41 = .ret 1 ∧ fontAZ.Index 0x5A = .ret 26 := by
  refine ⟨?_, by decide, by decide⟩
  unfold Font.Index
  rw [indexFrom_first f (toUint16 x) f.cm 0 i s hs hin hfirst, if_neg hoff]
  have hc := toUint16_lt x
  have e : (((toUint16 x + 65536 - s.start) % 65536 : Nat) : Int)
      = (toUint16 x : Int) - (s.start : Int) := by
    have : (toUint16 x + 65536 - s.start) % 65536 = toUint16 x - s.start := by omega
    rw [this]
    omega
  rw [e, Nat.zero_add, ← hp]
  exact u16_of_le f.cmapIndexes p hp0 hp1

theorem Index_first_segment_offset_witness :
    fontAZ.Index 0x42 = .ret (bigEndian16 fontAZ.cmapIndexes 2) ∧
    fontAZ.Index 0x41 = .ret 1 ∧ fontAZ.Index 0x5A = .ret 26 :=
  Index_first_segment_offset fontAZ 0x42 0 ⟨0x41, 0x5A, 0, 2⟩ 2 (by decide) (by decide)
    (by intro j t hj; omega) (by decide) (by decide) (by decide) (by decide)

/-- C8: Index returns 0 when the truncated codepoint lies in no stored segment, and so
for every codepoint when there is no segment. -/
theorem Index_no_segment (f : Font) (x : Int)
    (h : ∀ s ∈ f.cm, ¬ (s.start ≤ toUint16 x ∧ toUint16 x ≤ s.end_)) :
    f.Index x = .ret 0 ∧ (f.cm = [] → ∀ y : Int, f.Index y = .ret 0) := by
  refine ⟨indexFrom_none f (toUint16 x) f.cm 0 h, ?_⟩
  intro hnil y
  unfold Font.Index
  rw [hnil]
  rfl

theorem Index_no_segment_witness : fontAZ.Index 0x61 = .ret 0 :=
  (Index_no_segment fontAZ 0x61 (by
    intro s hs
    have : s = ⟨0x41, 0x5A, 0, 2⟩ := by simpa [fontAZ] using hs
    subst this
    decide)).1

/-- C9: Index depends only on the low 16 bits of its argument. -/
theorem Index_low16 (f : Font) (x y : Int) (h : x % 65536 = y % 65536) :
    f.Index x = f.Index y := by
  unfold Font.Index toUint16
  rw [h]

theorem Index_low16_witness :
    (-65471 : Int) % 65536 = 0x10041 % 65536 ∧
    fontAZ.Index (-65471) = fontAZ.Index 0x10041 :=
  ⟨by decide, Index_low16 fontAZ (-65471) 0x10041 (by decide)⟩

/-- C10: for a glyph index i ≥ nGlyph, HMetric returns the zero metric, and it does so
whatever hmtx holds (also when hmtx is empty, where any read would panic): no byte of
hmtx is read. -/
theorem HMetric_beyond_nGlyph (f : Font) (i : Nat) (h : (i : Int) ≥ f.nGlyph) :
    f.HMetric i = .ret ⟨0, 0⟩ ∧
    ∀ b : List Byte, ({ f with hmtx := b } : Font).HMetric i = .ret ⟨0, 0⟩ := by
  constructor
  · unfold Font.HMetric
    simp only [h, if_true]
    rfl
  · intro b
    unfold Font.HMetric
    simp only [h, if_true]
    rfl


theorem HMetric_beyond_nGlyph_witness :
    fontIndex.HMetric 1 = .ret ⟨0, 0⟩ ∧
    ({ fontIndex with hmtx := [] } : Font).HMetric 1 = .ret ⟨0, 0⟩ :=
  ⟨(HMetric_beyond_nGlyph fontIndex 1 (by decide)).1,
   (HMetric_beyond_nGlyph fontIndex 1 (by decide)).2 []⟩

/-! ## Parse returns a Font or an error, never both, never neither -/

theorem exclusive_err (e : Error) : Exclusive (.ret (none, some e)) := by
  intro font err h
  cases h
  simp

theorem exclusive_font (f : Font) : Exclusive (.ret (some f, none)) := by
  intro font err h
  cases h
  simp

theorem exclusive_bind {α : Type} (m : Exec α) (k : α → Exec (Option Font × Option Error))
    (h : ∀ a, Exclusive (k a)) : Exclusive (m.bind k) := by
  intro font err hr
  obtain ⟨a, _, ha⟩ := Exec.bind_eq_ret hr
  exact h a font err ha

theorem exclusive_diverge : Exclusive .diverge := by
  intro font err h
  cases h

theorem parse_check_exclusive (f : Font) : Exclusive (parse.check f) := by
  unfold parse.check
  simp only [bind_def, pure_def]
  repeat' first
    | exact exclusive_err _
    | exact exclusive_font _
    | (apply exclusive_bind; intro)
    | split

theorem parseFuel_exclusive : ∀ (fuel : Nat) (ttf : List Byte) (offset : Int),
    Exclusive (parseFuel fuel ttf offset) := by
  intro fuel
  induction fuel with
  | zero => intro ttf offset; exact exclusive_diverge
  | succ n ih =>
    intro ttf offset
    unfold parseFuel
    simp only [bind_def, pure_def]
    repeat' first
      | exact exclusive_err _
      | exact parse_check_exclusive _
      | exact ih _ _
      | (apply exclusive_bind; intro)
      | split

/-! ## The step budgets are never exhausted -/

theorem halts_ret {α : Type} (a : α) : Halts (Exec.ret a) := by
  intro h; cases h

theorem halts_panic {α : Type} : Halts (Exec.panic : Exec α) := by
  intro h; cases h

theorem halts_bind {α β : Type} {m : Exec α} {k : α → Exec β}
    (hm : Halts m) (hk : ∀ a, Halts (k a)) : Halts (m.bind k) := by
  cases m with
  | ret a => exact hk a
  | panic => exact halts_panic
  | diverge => exact absurd rfl hm

theorem byteAt_halts (b : List Byte) (i : Int) : Halts (byteAt b i) := by
  unfold byteAt
  repeat' first
    | exact halts_ret _
    | exact halts_panic
    | split

theorem u16_halts (b : List Byte) (i : Int) : Halts (u16 b i) := by
  unfold u16
  simp only [bind_def, pure_def]
  repeat' first
    | exact halts_ret _
    | exact byteAt_halts _ _
    | refine halts_bind ?_ (fun _ => ?_)

theorem u32_halts (b : List Byte) (i : Int) : Halts (u32 b i) := by
  unfold u32
  simp only [bind_def, pure_def]
  repeat' first
    | exact halts_ret _
    | exact byteAt_halts _ _
    | refine halts_bind ?_ (fun _ => ?_)

theorem slice_halts (b : List Byte) (lo hi : Int) : Halts (slice b lo hi) := by
  unfold slice
  split
  · exact halts_ret _
  · exact halts_panic

theorem sliceFrom_halts (b : List Byte) (lo : Int) : Halts (sliceFrom b lo) :=
  slice_halts b lo _

theorem readTable_halts (ttf ol : List Byte) : Halts (readTable ttf ol) := by
  unfold readTable
  simp only [bind_def, pure_def]
  repeat' first
    | exact halts_ret _
    | exact u32_halts _ _
    | exact slice_halts _ _ _
    | refine halts_bind ?_ (fun _ => ?_)
    | split

theorem scan_halts (cmap : List Byte) : ∀ (k : Nat) (x offset : Int) (found : Bool),
    Halts (parseCmap.scan cmap k x offset found) := by
  intro k
  induction k with
  | zero => intro x offset found; exact halts_ret _
  | succ k ih =>
    intro x offset found
    unfold parseCmap.scan
    simp only [bind_def, pure_def]
    repeat' first
      | exact halts_ret _
      | exact u32_halts _ _
      | exact ih _ _ _
      | refine halts_bind ?_ (fun _ => ?_)
      | split

theorem fill_halts (cmap : List Byte) (upd : cm → Nat → cm) :
    ∀ (k i : Nat) (cms : List cm) (offset : Int),
      Halts (parseCmap.fill cmap upd k i cms offset) := by
  intro k
  induction k with
  | zero => intro i cms offset; exact halts_ret _
  | succ k ih =>
    intro i cms offset
    unfold parseCmap.fill
    simp only [bind_def, pure_def]
    repeat' first
      | exact halts_ret _
      | exact halts_panic
      | exact u16_halts _ _
      | exact ih _ _ _
      | refine halts_bind ?_ (fun _ => ?_)
      | split

theorem parseCmap_halts (f : Font) : Halts f.parseCmap := by
  unfold Font.parseCmap
  simp only [bind_def, pure_def]
  repeat' first
    | exact halts_ret _
    | exact u16_halts _ _
    | exact scan_halts _ _ _ _ _
    | exact fill_halts _ _ _ _ _ _
    | exact sliceFrom_halts _ _
    | refine halts_bind ?_ (fun _ => ?_)
    | split

theorem parseHead_halts (f : Font) : Halts f.parseHead := by
  unfold Font.parseHead
  simp only [bind_def, pure_def]
  repeat' first
    | exact halts_ret _
    | exact u16_halts _ _
    | refine halts_bind ?_ (fun _ => ?_)
    | split

theorem parseMaxp_halts (f : Font) : Halts f.parseMaxp := by
  unfold Font.parseMaxp
  simp only [bind_def, pure_def]
  repeat' first
    | exact halts_ret _
    | exact u16_halts _ _
    | refine halts_bind ?_ (fun _ => ?_)
    | split

theorem parseHhea_halts (f : Font) : Halts f.parseHhea := by
  unfold Font.parseHhea
  simp only [bind_def, pure_def]
  repeat' first
    | exact halts_ret _
    | exact u16_halts _ _
    | refine halts_bind ?_ (fun _ => ?_)
    | split

theorem parseKern_halts (f : Font) : Halts f.parseKern := by
  unfold Font.parseKern
  simp only [bind_def, pure_def]
  repeat' first
    | exact halts_ret _
    | exact u16_halts _ _
    | refine halts_bind ?_ (fun _ => ?_)
    | split

theorem tables_halts (ttf : List Byte) : ∀ (k : Nat) (i : Int) (f : Font),
    Halts (parse.tables ttf k i f) := by
  intro k
  induction k with
  | zero => intro i f; exact halts_ret _
  | succ k ih =>
    intro i f
    unfold parse.tables
    simp only [bind_def, pure_def]
    repeat' first
      | exact halts_ret _
      | exact slice_halts _ _ _
      | exact readTable_halts _ _
      | exact ih _ _
      | refine halts_bind ?_ (fun _ => ?_)
      | split

theorem check_halts (f : Font) : Halts (parse.check f) := by
  unfold parse.check
  simp only [bind_def, pure_def]
  repeat' first
    | exact halts_ret _
    | exact parseHead_halts _
    | exact parseMaxp_halts _
    | exact parseCmap_halts _
    | exact parseKern_halts _
    | exact parseHhea_halts _
    | refine halts_bind ?_ (fun _ => ?_)
    | split

/-- A nested call of `parse` (one with `offset ≠ 0`) does not recurse. -/
theorem parseFuel_nested_halts (fuel : Nat) (ttf : List Byte) (offset : Int)
    (h : offset ≠ 0) : Halts (parseFuel (fuel + 1) ttf offset) := by
  unfold parseFuel
  simp only [bind_def, pure_def, h, ne_eq, not_false_eq_true, if_true]
  repeat' first
    | exact halts_ret _
    | exact u32_halts _ _
    | exact u16_halts _ _
    | exact tables_halts _ _ _ _
    | exact check_halts _
    | refine halts_bind ?_ (fun _ => ?_)
    | split

/-- Recursion depth 2 is enough for `parse` at any offset. -/
theorem parse_halts (ttf : List Byte) (offset : Int) : Halts (parse ttf offset) := by
  unfold parse parseFuel
  simp only [bind_def, pure_def]
  repeat' first
    | exact halts_ret _
    | exact u32_halts _ _
    | exact u16_halts _ _
    | exact sliceFrom_halts _ _
    | exact tables_halts _ _ _ _
    | exact check_halts _
    | refine halts_bind ?_ (fun _ => ?_)
    | split
  rename_i hoff
  exact parseFuel_nested_halts 0 ttf _ (by omega)

/-- Source `Parse` always ends: it returns or panics. -/
theorem Parse_halts (ttf : List Byte) : Halts (Parse ttf) := parse_halts ttf 0

/-- The binary search of `Kerning` ends within `hi - lo + 1` steps. -/
theorem kerningLoop_halts (f : Font) (g : Nat) : ∀ (fuel : Nat) (lo hi : Int),
    hi - lo ≤ (fuel : Int) → Halts (f.kerningLoop g (fuel + 1) lo hi) := by
  intro fuel
  induction fuel with
  | zero =>
    intro lo hi h
    unfold Font.kerningLoop
    split
    · omega
    · exact halts_ret _
  | succ n ih =>
    intro lo hi h
    unfold Font.kerningLoop
    simp only [bind_def, pure_def]
    split
    · rename_i hlt
      refine halts_bind (u32_halts _ _) (fun ig => ?_)
      split
      · exact ih _ _ (by omega)
      · split
        · exact ih _ _ (by omega)
        · exact halts_bind (u16_halts _ _) (fun v => halts_ret _)
    · exact halts_ret _

/-- Source `Kerning` always ends: it returns or panics. -/
theorem Kerning_halts (f : Font) (i0 i1 : Nat) : Halts (f.Kerning i0 i1) := by
  unfold Font.Kerning
  split
  · exact halts_ret _
  · exact kerningLoop_halts f _ _ 0 f.nKern (by omega)


/-! ## Reads out of range -/

/-- C1 (fails on the code): on the 158-byte file `ttfCmapOffsetAtEnd`, whose cmap
encoding record points at the end of the 12-byte cmap table, Parse does not return: the
read of the subtable format at `cmap[12]` is out of range and panics. -/
theorem Parse_panics_on_cmap_offset_at_end :
    ttfCmapOffsetAtEnd.length = 158 ∧ Parse ttfCmapOffsetAtEnd = .panic := by
  decide

/-- C2 (fails on the code): Parse accepts `ttfIndex`, whose segment A..Z has
idRangeOffset 2 and no glyph index array behind it; on the returned Font, Index('A')
reads `cmapIndexes[0]` of an empty slice and panics. -/
theorem Index_panics_on_parsed_font :
    Parse ttfIndex = .ret (some fontIndex, none) ∧
    fontIndex.cmapIndexes = [] ∧ fontIndex.Index 0x41 = .panic := by
  decide

/-- C3 (fails on the code): Parse accepts `ttfNoLongMetric` (nGlyph = 1, nHMetric = 0,
hmtx of 2 bytes); on the returned Font, HMetric(0) reads `hmtx[-4]` and panics. -/
theorem HMetric_panics_on_parsed_font :
    Parse ttfNoLongMetric = .ret (some fontNoLongMetric, none) ∧
    fontNoLongMetric.nGlyph = 1 ∧ fontNoLongMetric.nHMetric = 0 ∧
    fontNoLongMetric.HMetric 0 = .panic := by
  decide

/-- C4 (fails on the code): Parse accepts `ttfKern`, whose 18-byte kern table declares
one pair and a subtable length of 20; the returned Font has nKern = 1 with
18 + 6*nKern = 24 > 18 = len(kern), and Kerning(0, 0) reads `kern[18]` and panics. -/
theorem Kerning_panics_on_parsed_font :
    Parse ttfKern = .ret (some fontKern, none) ∧
    fontKern.nKern = 1 ∧ fontKern.kern.length = 18 ∧
    ¬ (18 + 6 * fontKern.nKern ≤ (fontKern.kern.length : Int)) ∧
    fontKern.Kerning 0 0 = .panic := by
  decide

/-! ## Horizontal metrics, kerning, the order of the sub-parsers, collections -/

theorem bigEndian16_lt (b : List Byte) (p : Nat) : bigEndian16 b p < 65536 := by
  unfold bigEndian16
  have h0 := (b.getD p 0).isLt
  have h1 := (b.getD (p + 1) 0).isLt
  omega

theorem toInt16_bigEndian16 (b : List Byte) (p : Nat) :
    toInt16 (bigEndian16 b p) = twosComplement16 (bigEndian16 b p) := by
  unfold toInt16 twosComplement16
  rw [Nat.mod_eq_of_lt (bigEndian16_lt b p)]

theorem u16_nat (b : List Byte) (p : Nat) (h : p + 2 ≤ b.length) :
    u16 b (p : Int) = .ret (bigEndian16 b p) := by
  have := u16_of_le b (p : Int) (by omega) (by omega)
  simpa using this

theorem shl_or4 (b0 b1 b2 b3 : Nat) (h1 : b1 < 256) (h2 : b2 < 256) (h3 : b3 < 256) :
    b0 <<< 24 ||| b1 <<< 16 ||| b2 <<< 8 ||| b3
      = 65536 * (256 * b0 + b1) + (256 * b2 + b3) := by
  simp only [Nat.shiftLeft_eq]
  have e1 : b0 * 2 ^ 24 ||| b1 * 2 ^ 16 = 2 ^ 16 * (256 * b0 + b1) := by
    have : b0 * 2 ^ 24 = 2 ^ 24 * b0 := Nat.mul_comm _ _
    rw [this, ← Nat.mul_add_lt_is_or (i := 24) (by omega) b0]
    omega
  have e2 : 2 ^ 16 * (256 * b0 + b1) ||| b2 * 2 ^ 8
      = 2 ^ 8 * (256 * (256 * b0 + b1) + b2) := by
    rw [← Nat.mul_add_lt_is_or (i := 16) (by omega) (256 * b0 + b1)]
    omega
  rw [e1, e2, ← Nat.mul_add_lt_is_or (i := 8) (by omega) _]
  omega

theorem u32_nat (b : List Byte) (p : Nat) (h : p + 4 ≤ b.length) :
    u32 b (p : Int) = .ret (bigEndian32 b p) := by
  have e1 : ((p : Int) + 1) = ((p + 1 : Nat) : Int) := by push_cast; rfl
  have e2 : ((p : Int) + 2) = ((p + 2 : Nat) : Int) := by push_cast; rfl
  have e3 : ((p : Int) + 3) = ((p + 3 : Nat) : Int) := by push_cast; rfl
  unfold u32
  rw [e1, e2, e3, bind_def, byteAt_of_lt b p (by omega)]
  simp only [Exec.bind, bind_def, byteAt_of_lt b (p + 1) (by omega),
    byteAt_of_lt b (p + 2) (by omega), byteAt_of_lt b (p + 3) (by omega), pure_def]
  rw [shl_or4 _ _ _ _ (b.getD (p + 1) 0).isLt (b.getD (p + 2) 0).isLt
    (b.getD (p + 2 + 1) 0).isLt]
  rfl

theorem u16_at (b : List Byte) (p : Int) (q : Nat) (hp : p = (q : Int))
    (h : q + 2 ≤ b.length) : u16 b p = .ret (bigEndian16 b q) := by
  subst hp
  exact u16_nat b q h

theorem u32_at (b : List Byte) (p : Int) (q : Nat) (hp : p = (q : Int))
    (h : q + 4 ≤ b.length) : u32 b p = .ret (bigEndian32 b q) := by
  subst hp
  exact u32_nat b q h

/-- C11: for i < nGlyph and i < nHMetric with hmtx of at least 4*i + 4 bytes, HMetric(i)
returns the big-endian unsigned 16-bit value at hmtx byte 4*i as AdvanceWidth and the
big-endian 16-bit value at byte 4*i + 2, read as two's-complement signed, as
LeftSideBearing. -/
theorem HMetric_long_metric (f : Font) (i : Nat)
    (hg : (i : Int) < f.nGlyph) (hm : (i : Int) < f.nHMetric)
    (hlen : 4 * i + 4 ≤ f.hmtx.length) :
    f.HMetric i = .ret ⟨bigEndian16 f.hmtx (4 * i),
      twosComplement16 (bigEndian16 f.hmtx (4 * i + 2))⟩ := by
  unfold Font.HMetric
  simp only [ge_iff_le, not_le.mpr hg, not_le.mpr hm, if_false, bind_def, pure_def]
  rw [u16_at f.hmtx _ (4 * i) (by omega) (by omega),
    u16_at f.hmtx _ (4 * i + 2) (by omega) (by omega)]
  simp only [Exec.bind, toInt16_bigEndian16]

theorem HMetric_long_metric_witness :
    fontKern.HMetric 0 = .ret ⟨bigEndian16 fontKern.hmtx (4 * 0),
      twosComplement16 (bigEndian16 fontKern.hmtx (4 * 0 + 2))⟩ :=
  HMetric_long_metric fontKern 0 (by decide) (by decide) (by decide)

/-- C12: with nHMetric ≥ 1, nHMetric ≤ i < nGlyph and hmtx of length
4*nHMetric + 2*(nGlyph - nHMetric), HMetric(i) returns the unsigned 16-bit value at hmtx
byte 4*(nHMetric - 1) as AdvanceWidth and the signed 16-bit value at byte
4*nHMetric + 2*(i - nHMetric) as LeftSideBearing. -/
theorem HMetric_short_metric (f : Font) (i nH : Nat)
    (hnH : f.nHMetric = (nH : Int)) (h1 : 1 ≤ nH) (hi : nH ≤ i)
    (hg : (i : Int) < f.nGlyph)
    (hlen : (f.hmtx.length : Int) = 4 * f.nHMetric + 2 * (f.nGlyph - f.nHMetric)) :
    f.HMetric i = .ret ⟨bigEndian16 f.hmtx (4 * (nH - 1)),
      twosComplement16 (bigEndian16 f.hmtx (4 * nH + 2 * (i - nH)))⟩ := by
  unfold Font.HMetric
  have hm : f.nHMetric ≤ (i : Int) := by omega
  simp only [ge_iff_le, not_le.mpr hg, if_false, hm, if_true, bind_def, pure_def]
  rw [u16_at f.hmtx _ (4 * (nH - 1)) (by omega) (by omega),
    u16_at f.hmtx _ (4 * nH + 2 * (i - nH)) (by omega) (by omega)]
  simp only [Exec.bind, toInt16_bigEndian16]

theorem HMetric_short_metric_witness : fontMono.HMetric 1 = .ret ⟨600, -5⟩ :=
  HMetric_short_metric fontMono 1 1 rfl (by decide) (by decide) (by decide) (by decide)

theorem shl16_or (a b : Nat) (hb : b < 65536) : a <<< 16 ||| b = 65536 * a + b := by
  rw [Nat.shiftLeft_eq, Nat.mul_comm]
  exact (Nat.mul_add_lt_is_or (i := 16) hb a).symm

/-- The binary search on records that are in bounds and sorted: if the key occurs in
`[lo, hi)`, the loop returns the value of a record with that key. -/
theorem kerningLoop_found (f : Font) (g n : Nat) (hlen : 18 + 6 * n ≤ f.kern.length)
    (hsorted : ∀ i j, i ≤ j → j < n → kernKey f.kern i ≤ kernKey f.kern j) :
    ∀ (fuel lo hi : Nat), hi ≤ n → hi - lo ≤ fuel →
      (∃ k, lo ≤ k ∧ k < hi ∧ kernKey f.kern k = g) →
      ∃ k, k < n ∧ kernKey f.kern k = g ∧
        f.kerningLoop g (fuel + 1) (lo : Int) (hi : Int) = .ret (kernValue f.kern k) := by
  intro fuel
  induction fuel with
  | zero =>
    intro lo hi _ hfuel ⟨k, hk1, hk2, _⟩
    omega
  | succ fuel ih =>
    intro lo hi hhi hfuel ⟨k, hk1, hk2, hk⟩
    have hlt : (lo : Int) < (hi : Int) := by omega
    have hm : ((lo : Int) + (hi : Int)) / 2 = (((lo + hi) / 2 : Nat) : Int) := by omega
    have hmn : (lo + hi) / 2 < n := by omega
    unfold Font.kerningLoop
    simp only [hlt, if_true, bind_def, pure_def, hm]
    rw [u32_at f.kern _ (18 + 6 * ((lo + hi) / 2)) (by omega) (by omega)]
    simp only [Exec.bind]
    by_cases h1 : kernKey f.kern ((lo + hi) / 2) < g
    · have hk3 : (lo + hi) / 2 + 1 ≤ k := by
        by_contra hc
        have := hsorted k ((lo + hi) / 2) (by omega) hmn
        omega
      have e : ((((lo + hi) / 2 : Nat) : Int) + 1) = (((lo + hi) / 2 + 1 : Nat) : Int) := by
        push_cast; rfl
      have h1' : bigEndian32 f.kern (18 + 6 * ((lo + hi) / 2)) < g := h1
      simp only [h1', if_true, e]
      exact ih ((lo + hi) / 2 + 1) hi hhi (by omega) ⟨k, hk3, hk2, hk⟩
    · by_cases h2 : kernKey f.kern ((lo + hi) / 2) > g
      · have hk3 : k < (lo + hi) / 2 := by
          by_contra hc
          have := hsorted ((lo + hi) / 2) k (by omega) (by omega)
          omega
        have h1' : ¬ bigEndian32 f.kern (18 + 6 * ((lo + hi) / 2)) < g := h1
        have h2' : bigEndian32 f.kern (18 + 6 * ((lo + hi) / 2)) > g := h2
        simp only [h1', if_false, h2', if_true]
        exact ih lo ((lo + hi) / 2) (by omega) (by omega) ⟨k, hk1, hk3, hk⟩
      · have h1' : ¬ bigEndian32 f.kern (18 + 6 * ((lo + hi) / 2)) < g := h1
        have h2' : ¬ bigEndian32 f.kern (18 + 6 * ((lo + hi) / 2)) > g := h2
        simp only [h1', if_false, h2']
        rw [u16_at f.kern _ (22 + 6 * ((lo + hi) / 2)) (by omega) (by omega)]
        refine ⟨(lo + hi) / 2, hmn, ?_, ?_⟩
        · omega
        · simp only [toInt16_bigEndian16, kernValue]

/-- The binary search on records that are in bounds: if no record has the key, the
loop returns 0 (sorted or not). -/
theorem kerningLoop_absent (f : Font) (g n : Nat) (hlen : 18 + 6 * n ≤ f.kern.length)
    (habs : ∀ k, k < n → kernKey f.kern k ≠ g) :
    ∀ (fuel lo hi : Nat), hi ≤ n → hi - lo ≤ fuel →
      f.kerningLoop g (fuel + 1) (lo : Int) (hi : Int) = .ret 0 := by
  intro fuel
  induction fuel with
  | zero =>
    intro lo hi _ hfuel
    have hlt : ¬ ((lo : Int) < (hi : Int)) := by omega
    unfold Font.kerningLoop
    simp only [hlt, if_false, pure_def]
  | succ fuel ih =>
    intro lo hi hhi hfuel
    unfold Font.kerningLoop
    by_cases hlt : (lo : Int) < (hi : Int)
    · have hm : ((lo : Int) + (hi : Int)) / 2 = (((lo + hi) / 2 : Nat) : Int) := by omega
      have hmn : (lo + hi) / 2 < n := by omega
      simp only [hlt, if_true, bind_def, pure_def, hm]
      rw [u32_at f.kern _ (18 + 6 * ((lo + hi) / 2)) (by omega) (by omega)]
      simp only [Exec.bind]
      have hne : bigEndian32 f.kern (18 + 6 * ((lo + hi) / 2)) ≠ g := habs _ hmn
      by_cases h1 : bigEndian32 f.kern (18 + 6 * ((lo + hi) / 2)) < g
      · have e : ((((lo + hi) / 2 : Nat) : Int) + 1) = (((lo + hi) / 2 + 1 : Nat) : Int) := by
          push_cast; rfl
        simp only [h1, if_true, e]
        exact ih ((lo + hi) / 2 + 1) hi hhi (by omega)
      · have h2 : bigEndian32 f.kern (18 + 6 * ((lo + hi) / 2)) > g := by omega
        simp only [h1, if_false, h2, if_true]
        exact ih lo ((lo + hi) / 2) (by omega) (by omega)
    · simp only [hlt, if_false, pure_def]

/-- Kerning on in-bounds sorted records, key present. -/
theorem Kerning_found (f : Font) (n i0 i1 : Nat) (hn : f.nKern = (n : Int))
    (hlen : 18 + 6 * n ≤ f.kern.length) (h1 : i1 < 65536)
    (hsorted : ∀ i j, i ≤ j → j < n → kernKey f.kern i ≤ kernKey f.kern j)
    (hex : ∃ k, k < n ∧ kernKey f.kern k = 65536 * i0 + i1) :
    ∃ k, k < n ∧ kernKey f.kern k = 65536 * i0 + i1 ∧
      f.Kerning i0 i1 = .ret (kernValue f.kern k) := by
  obtain ⟨k, hk, hkey⟩ := hex
  have hn0 : f.nKern ≠ 0 := by omega
  unfold Font.Kerning
  rw [if_neg hn0]
  simp only [shl16_or i0 i1 h1, hn, Int.toNat_ofNat]
  have := kerningLoop_found f (65536 * i0 + i1) n hlen hsorted n 0 n (le_refl n) (by omega)
    ⟨k, by omega, hk, hkey⟩
  simpa using this

/-- Kerning on in-bounds records, key absent. -/
theorem Kerning_absent (f : Font) (n i0 i1 : Nat) (hn : f.nKern = (n : Int))
    (hlen : 18 + 6 * n ≤ f.kern.length) (h1 : i1 < 65536)
    (habs : ∀ k, k < n → kernKey f.kern k ≠ 65536 * i0 + i1) :
    f.Kerning i0 i1 = .ret 0 := by
  unfold Font.Kerning
  by_cases hn0 : f.nKern = 0
  · rw [if_pos hn0]
    rfl
  · rw [if_neg hn0]
    simp only [shl16_or i0 i1 h1, hn, Int.toNat_ofNat]
    have := kerningLoop_absent f (65536 * i0 + i1) n hlen habs n 0 n (le_refl n) (by omega)
    simpa using this

/-- C13: when the kern table holds nKern in-bounds pair records sorted ascending by key
and some record has the key i0<<16 | i1, Kerning(i0, i1) returns the signed value field
of a record with exactly that key; when the keys are strictly ascending it is the value
of every (hence the unique) record with that key. -/
theorem Kerning_sorted_present (f : Font) (n i0 i1 : Nat) (hn : f.nKern = (n : Int))
    (hlen : 18 + 6 * n ≤ f.kern.length) (_h0 : i0 < 65536) (h1 : i1 < 65536)
    (hsorted : ∀ i j, i ≤ j → j < n → kernKey f.kern i ≤ kernKey f.kern j)
    (hex : ∃ k, k < n ∧ kernKey f.kern k = 65536 * i0 + i1) :
    (∃ k, k < n ∧ kernKey f.kern k = 65536 * i0 + i1 ∧
      f.Kerning i0 i1 = .ret (kernValue f.kern k)) ∧
    ((∀ i j, i < j → j < n → kernKey f.kern i < kernKey f.kern j) →
      ∀ k, k < n → kernKey f.kern k = 65536 * i0 + i1 →
        f.Kerning i0 i1 = .ret (kernValue f.kern k)) := by
  have hfound := Kerning_found f n i0 i1 hn hlen h1 hsorted hex
  refine ⟨hfound, ?_⟩
  intro hstrict k hk hkey
  obtain ⟨k', hk', hkey', hres⟩ := hfound
  have hkk : k' = k := by
    rcases Nat.lt_trichotomy k' k with h | h | h
    · have := hstrict k' k h hk; omega
    · exact h
    · have := hstrict k k' h hk'; omega
  rw [hres, hkk]

theorem returns_ret {α : Type} {P : α → Prop} (a : α) (h : P a) : Returns (Exec.ret a) P := by
  intro b hb
  cases hb
  exact h

theorem returns_panic {α : Type} {P : α → Prop} : Returns (Exec.panic : Exec α) P := by
  intro b hb
  cases hb

theorem returns_bind {α β : Type} {P : β → Prop} {m : Exec α} {k : α → Exec β}
    (hk : ∀ a, m = .ret a → Returns (k a) P) : Returns (m.bind k) P := by
  intro b hb
  obtain ⟨a, ha, hka⟩ := Exec.bind_eq_ret hb
  exact hk a ha b hka

/-- `parseHead` writes unitsPerEm, bounds and locaOffsetFormat only. -/
theorem parseHead_frame (f : Font) :
    Returns f.parseHead (fun r => r.1 = { f with
      unitsPerEm := r.1.unitsPerEm, bounds := r.1.bounds,
      locaOffsetFormat := r.1.locaOffsetFormat }) := by
  unfold Font.parseHead
  simp only [bind_def, pure_def]
  repeat' first
    | exact returns_ret _ rfl
    | refine returns_bind (fun _ _ => ?_)
    | split

/-- `parseMaxp` writes nGlyph and the four hinting limits only. -/
theorem parseMaxp_frame (f : Font) :
    Returns f.parseMaxp (fun r => r.1 = { f with
      nGlyph := r.1.nGlyph,
      maxTwilightPoints := r.1.maxTwilightPoints, maxStorage := r.1.maxStorage,
      maxFunctionDefs := r.1.maxFunctionDefs, maxStackElements := r.1.maxStackElements }) := by
  unfold Font.parseMaxp
  simp only [bind_def, pure_def]
  repeat' first
    | exact returns_ret _ rfl
    | refine returns_bind (fun _ _ => ?_)
    | split

/-- `parseCmap` writes cm and cmapIndexes only. -/
theorem parseCmap_frame (f : Font) :
    Returns f.parseCmap (fun r => r.1 = { f with
      cm := r.1.cm, cmapIndexes := r.1.cmapIndexes }) := by
  unfold Font.parseCmap
  simp only [bind_def, pure_def]
  repeat' first
    | exact returns_ret _ rfl
    | refine returns_bind (fun _ _ => ?_)
    | split

/-- `parseKern` writes nKern only. -/
theorem parseKern_frame (f : Font) :
    Returns f.parseKern (fun r => r.1 = { f with nKern := r.1.nKern }) := by
  unfold Font.parseKern
  simp only [bind_def, pure_def]
  repeat' first
    | exact returns_ret _ rfl
    | refine returns_bind (fun _ _ => ?_)
    | split

/-- `parseHhea` writes nHMetric only. -/
theorem parseHhea_frame (f : Font) :
    Returns f.parseHhea (fun r => r.1 = { f with nHMetric := r.1.nHMetric }) := by
  unfold Font.parseHhea
  simp only [bind_def, pure_def]
  repeat' first
    | exact returns_ret _ rfl
    | refine returns_bind (fun _ _ => ?_)
    | split

theorem ret_bind {α β : Type} (a : α) (k : α → Exec β) : (Exec.ret a).bind k = k a := rfl

/-- The directory loop writes the eight table slices only. -/
theorem tables_frame (ttf : List Byte) : ∀ (k : Nat) (i : Int) (f : Font),
    Returns (parse.tables ttf k i f) (fun r => r.1 = { f with
      cmap := r.1.cmap, glyf := r.1.glyf, head := r.1.head, hhea := r.1.hhea,
      hmtx := r.1.hmtx, kern := r.1.kern, loca := r.1.loca, maxp := r.1.maxp }) := by
  intro k
  induction k with
  | zero => intro i f; exact returns_ret _ rfl
  | succ k ih =>
    intro i f
    unfold parse.tables
    simp only [bind_def, pure_def, ret_bind]
    repeat' first
      | exact returns_ret _ rfl
      | exact ih _ _
      | refine returns_bind (fun _ _ => ?_)
      | split

theorem parseMaxp_eq (f : Font) :
    f.parseMaxp =
      if f.maxp.length ≠ 32 then
        .ret (f, some (.FormatError ("bad maxp length: " ++ fmtD f.maxp.length)))
      else
        .ret ({ f with
          nGlyph := (bigEndian16 f.maxp 4 : Nat),
          maxTwilightPoints := bigEndian16 f.maxp 16,
          maxStorage := bigEndian16 f.maxp 18,
          maxFunctionDefs := bigEndian16 f.maxp 20,
          maxStackElements := bigEndian16 f.maxp 24 }, none) := by
  unfold Font.parseMaxp
  split
  · rfl
  · rename_i h
    have hlen : f.maxp.length = 32 := by omega
    simp only [bind_def, pure_def]
    rw [u16_at f.maxp 4 4 (by norm_num) (by omega), ret_bind,
      u16_at f.maxp 16 16 (by norm_num) (by omega), ret_bind,
      u16_at f.maxp 18 18 (by norm_num) (by omega), ret_bind,
      u16_at f.maxp 20 20 (by norm_num) (by omega), ret_bind,
      u16_at f.maxp 24 24 (by norm_num) (by omega), ret_bind]

theorem parseHhea_eq (f : Font) :
    f.parseHhea =
      if f.hhea.length ≠ 36 then
        .ret (f, some (.FormatError ("bad hhea length: " ++ fmtD f.hhea.length)))
      else if 4 * (bigEndian16 f.hhea 34 : Int) + 2 * (f.nGlyph - (bigEndian16 f.hhea 34 : Int))
          ≠ (f.hmtx.length : Int) then
        .ret ({ f with nHMetric := (bigEndian16 f.hhea 34 : Nat) },
          some (.FormatError ("bad hmtx length: " ++ fmtD f.hmtx.length)))
      else
        .ret ({ f with nHMetric := (bigEndian16 f.hhea 34 : Nat) }, none) := by
  unfold Font.parseHhea
  split
  · rfl
  · rename_i h
    have hlen : f.hhea.length = 36 := by omega
    simp only [bind_def, pure_def]
    rw [u16_at f.hhea 34 34 (by norm_num) (by omega), ret_bind]

theorem parseHead_eq (f : Font) :
    f.parseHead =
      if f.head.length ≠ 54 then
        .ret (f, some (.FormatError ("bad head length: " ++ fmtD f.head.length)))
      else if bigEndian16 f.head 50 = 0 then
        .ret ({ f with
          unitsPerEm := (bigEndian16 f.head 18 : Nat),
          bounds := ⟨toInt16 (bigEndian16 f.head 36), toInt16 (bigEndian16 f.head 38),
            toInt16 (bigEndian16 f.head 40), toInt16 (bigEndian16 f.head 42)⟩,
          locaOffsetFormat := locaOffsetFormatShort }, none)
      else if bigEndian16 f.head 50 = 1 then
        .ret ({ f with
          unitsPerEm := (bigEndian16 f.head 18 : Nat),
          bounds := ⟨toInt16 (bigEndian16 f.head 36), toInt16 (bigEndian16 f.head 38),
            toInt16 (bigEndian16 f.head 40), toInt16 (bigEndian16 f.head 42)⟩,
          locaOffsetFormat := locaOffsetFormatLong }, none)
      else
        .ret ({ f with
          unitsPerEm := (bigEndian16 f.head 18 : Nat),
          bounds := ⟨toInt16 (bigEndian16 f.head 36), toInt16 (bigEndian16 f.head 38),
            toInt16 (bigEndian16 f.head 40), toInt16 (bigEndian16 f.head 42)⟩ },
          some (.FormatError ("bad indexToLocFormat: " ++ fmtD (bigEndian16 f.head 50)))) := by
  unfold Font.parseHead
  split
  · rfl
  · rename_i h
    have hlen : f.head.length = 54 := by omega
    simp only [bind_def, pure_def]
    rw [u16_at f.head 18 18 (by norm_num) (by omega), ret_bind,
      u16_at f.head 36 36 (by norm_num) (by omega), ret_bind,
      u16_at f.head 38 38 (by norm_num) (by omega), ret_bind,
      u16_at f.head 40 40 (by norm_num) (by omega), ret_bind,
      u16_at f.head 42 42 (by norm_num) (by omega), ret_bind,
      u16_at f.head 50 50 (by norm_num) (by omega), ret_bind]

theorem parseKern_empty (f : Font) (h : f.kern.length = 0) :
    f.parseKern =
      if f.nKern ≠ 0 then .ret (f, some (.FormatError "bad kern table length"))
      else .ret (f, none) := by
  unfold Font.parseKern
  rw [if_pos h]
  rfl

/-- What `parse.check` returns is decided by the first sub-parser that reports an
error, in the order head, maxp, cmap, kern, hhea; each sub-parser runs on the Font left
by its predecessor. -/
theorem check_cases (f : Font) (r : Option Font × Option Error)
    (h : parse.check f = .ret r) :
    (∃ f1 e, f.parseHead = .ret (f1, some e) ∧ r = (none, some e)) ∨
    (∃ f1 f2 e, f.parseHead = .ret (f1, none) ∧ f1.parseMaxp = .ret (f2, some e) ∧
      r = (none, some e)) ∨
    (∃ f1 f2 f3 e, f.parseHead = .ret (f1, none) ∧ f1.parseMaxp = .ret (f2, none) ∧
      f2.parseCmap = .ret (f3, some e) ∧ r = (none, some e)) ∨
    (∃ f1 f2 f3 f4 e, f.parseHead = .ret (f1, none) ∧ f1.parseMaxp = .ret (f2, none) ∧
      f2.parseCmap = .ret (f3, none) ∧ f3.parseKern = .ret (f4, some e) ∧
      r = (none, some e)) ∨
    (∃ f1 f2 f3 f4 f5 e, f.parseHead = .ret (f1, none) ∧ f1.parseMaxp = .ret (f2, none) ∧
      f2.parseCmap = .ret (f3, none) ∧ f3.parseKern = .ret (f4, none) ∧
      f4.parseHhea = .ret (f5, some e) ∧ r = (none, some e)) ∨
    (∃ f1 f2 f3 f4 f5, f.parseHead = .ret (f1, none) ∧ f1.parseMaxp = .ret (f2, none) ∧
      f2.parseCmap = .ret (f3, none) ∧ f3.parseKern = .ret (f4, none) ∧
      f4.parseHhea = .ret (f5, none) ∧ r = (some f5, none)) := by
  unfold parse.check at h
  simp only [bind_def, pure_def] at h
  obtain ⟨⟨f1, e1⟩, h1, h⟩ := Exec.bind_eq_ret h
  cases e1 with
  | some e =>
    simp only [Exec.ret.injEq] at h
    exact Or.inl ⟨f1, e, h1, h.symm⟩
  | none =>
    simp only at h
    obtain ⟨⟨f2, e2⟩, h2, h⟩ := Exec.bind_eq_ret h
    cases e2 with
    | some e =>
      simp only [Exec.ret.injEq] at h
      exact Or.inr (Or.inl ⟨f1, f2, e, h1, h2, h.symm⟩)
    | none =>
      simp only at h
      obtain ⟨⟨f3, e3⟩, h3, h⟩ := Exec.bind_eq_ret h
      cases e3 with
      | some e =>
        simp only [Exec.ret.injEq] at h
        exact Or.inr (Or.inr (Or.inl ⟨f1, f2, f3, e, h1, h2, h3, h.symm⟩))
      | none =>
        simp only at h
        obtain ⟨⟨f4, e4⟩, h4, h⟩ := Exec.bind_eq_ret h
        cases e4 with
        | some e =>
          simp only [Exec.ret.injEq] at h
          exact Or.inr (Or.inr (Or.inr (Or.inl ⟨f1, f2, f3, f4, e, h1, h2, h3, h4, h.symm⟩)))
        | none =>
          simp only at h
          obtain ⟨⟨f5, e5⟩, h5, h⟩ := Exec.bind_eq_ret h
          cases e5 with
          | some e =>
            simp only [Exec.ret.injEq] at h
            exact Or.inr (Or.inr (Or.inr (Or.inr (Or.inl
              ⟨f1, f2, f3, f4, f5, e, h1, h2, h3, h4, h5, h.symm⟩))))
          | none =>
            simp only [Exec.ret.injEq] at h
            exact Or.inr (Or.inr (Or.inr (Or.inr (Or.inr
              ⟨f1, f2, f3, f4, f5, h1, h2, h3, h4, h5, h.symm⟩))))

/-- On a plain sfnt buffer (magic 0x00010000, room for the directory) whose directory
loop ends without error on the Font `f0`, `Parse` is `parse.check f0`. -/
theorem Parse_plain (ttf : List Byte) (f0 : Font) (hlen : 12 ≤ ttf.length)
    (hmagic : bigEndian32 ttf 0 = 0x00010000)
    (hdir : 16 * bigEndian16 ttf 4 + 12 ≤ ttf.length)
    (htab : parse.tables ttf (bigEndian16 ttf 4) 0 Font.new = .ret (f0, none)) :
    Parse ttf = parse.check f0 := by
  unfold Parse parse parseFuel
  have h1 : ¬ ((ttf.length : Int) - 0 < 12) := by omega
  have h2 : ¬ ((ttf.length : Int) < 16 * ((bigEndian16 ttf 4 : Nat) : Int) + 12) := by omega
  simp only [h1, if_false, bind_def, pure_def]
  rw [u32_at ttf 0 0 (by norm_num) (by omega), ret_bind, hmagic]
  simp only [if_true]
  rw [u16_at ttf (0 + 4) 4 (by norm_num) (by omega), ret_bind]
  simp only [h2, if_false, Int.toNat_ofNat, htab, ret_bind]

/-- The same on a directory loop that ends with an error. -/
theorem Parse_plain_dir_error (ttf : List Byte) (f0 : Font) (e : Error)
    (hlen : 12 ≤ ttf.length) (hmagic : bigEndian32 ttf 0 = 0x00010000)
    (hdir : 16 * bigEndian16 ttf 4 + 12 ≤ ttf.length)
    (htab : parse.tables ttf (bigEndian16 ttf 4) 0 Font.new = .ret (f0, some e)) :
    Parse ttf = .ret (none, some e) := by
  unfold Parse parse parseFuel
  have h1 : ¬ ((ttf.length : Int) - 0 < 12) := by omega
  have h2 : ¬ ((ttf.length : Int) < 16 * ((bigEndian16 ttf 4 : Nat) : Int) + 12) := by omega
  simp only [h1, if_false, bind_def, pure_def]
  rw [u32_at ttf 0 0 (by norm_num) (by omega), ret_bind, hmagic]
  simp only [if_true]
  rw [u16_at ttf (0 + 4) 4 (by norm_num) (by omega), ret_bind]
  simp only [h2, if_false, Int.toNat_ofNat, htab, ret_bind]

/-- A Font that `parseFuel` returns comes out of `parse.check` on the Font left by a
directory loop over the buffer that ended without error. -/
theorem parseFuel_some_inv (ttf : List Byte) : ∀ (fuel : Nat) (offset : Int),
    Returns (parseFuel fuel ttf offset) (fun r => ∀ g, r = (some g, none) →
      ∃ n f0, parse.tables ttf n 0 Font.new = .ret (f0, none) ∧
        parse.check f0 = .ret (some g, none)) := by
  intro fuel
  induction fuel with
  | zero => intro offset a ha; cases ha
  | succ fuel ih =>
    intro offset
    unfold parseFuel
    simp only [bind_def, pure_def]
    have herr : ∀ e : Error, Returns (Exec.ret ((none : Option Font), some e))
        (fun r => ∀ g, r = (some g, none) →
          ∃ n f0, parse.tables ttf n 0 Font.new = .ret (f0, none) ∧
            parse.check f0 = .ret (some g, none)) := by
      intro e
      refine returns_ret _ ?_
      intro g hg
      cases hg
    split
    · exact herr _
    · refine returns_bind (fun magic _ => ?_)
      split
      · refine returns_bind (fun n _ => ?_)
        split
        · exact herr _
        · refine returns_bind (fun d hd => ?_)
          obtain ⟨f0, e⟩ := d
          cases e with
          | some e => exact herr _
          | none =>
            intro r hr g hg
            subst hg
            exact ⟨_, f0, hd, hr⟩
      · repeat' first
          | exact herr _
          | exact ih _
          | refine returns_bind (fun _ _ => ?_)
          | split

/-- A Font that `Parse` returns comes out of `parse.check` on the Font left by an
error-free directory loop. -/
theorem Parse_some_inv (ttf : List Byte) (g : Font) (h : Parse ttf = .ret (some g, none)) :
    ∃ n f0, parse.tables ttf n 0 Font.new = .ret (f0, none) ∧
      parse.check f0 = .ret (some g, none) :=
  parseFuel_some_inv ttf 2 0 _ h g rfl

/-- A Font that `parse.check` returns is the result of the five sub-parsers, run in
order, none of which reported an error. -/
theorem check_some_inv (f g : Font) (h : parse.check f = .ret (some g, none)) :
    ∃ f1 f2 f3 f4, f.parseHead = .ret (f1, none) ∧ f1.parseMaxp = .ret (f2, none) ∧
      f2.parseCmap = .ret (f3, none) ∧ f3.parseKern = .ret (f4, none) ∧
      f4.parseHhea = .ret (g, none) := by
  rcases check_cases f _ h with ⟨_, _, _, hr⟩ | ⟨_, _, _, _, _, hr⟩ | ⟨_, _, _, _, _, _, _, hr⟩ |
    ⟨_, _, _, _, _, _, _, _, _, hr⟩ | ⟨_, _, _, _, _, _, _, _, _, _, _, hr⟩ |
    ⟨f1, f2, f3, f4, f5, h1, h2, h3, h4, h5, hr⟩
  · cases hr
  · cases hr
  · cases hr
  · cases hr
  · cases hr
  · cases hr
    exact ⟨f1, f2, f3, f4, h1, h2, h3, h4, h5⟩

theorem append_ne_of_take (p q a b : String) (k : Nat) (hp : k ≤ p.data.length)
    (hq : k ≤ q.data.length) (hne : p.data.take k ≠ q.data.take k) : p ++ a ≠ q ++ b := by
  intro h
  have h2 := congrArg (fun s => s.data.take k) h
  simp only [String.data_append, List.take_append_of_le_length hp,
    List.take_append_of_le_length hq] at h2
  exact hne h2

theorem not_isHheaError_append (p a : String) (hp : 6 ≤ p.data.length)
    (h1 : p.data.take 6 ≠ "bad hhea length: ".data.take 6)
    (h2 : p.data.take 6 ≠ "bad hmtx length: ".data.take 6) :
    ¬ isHheaError (.FormatError (p ++ a)) := by
  rintro ⟨n, h | h⟩
  · exact append_ne_of_take p _ a _ 6 hp (by decide) h1 (Error.FormatError.inj h)
  · exact append_ne_of_take p _ a _ 6 hp (by decide) h2 (Error.FormatError.inj h)

theorem not_isHheaError_lit (p : String) (hp : 6 ≤ p.data.length)
    (h1 : p.data.take 6 ≠ "bad hhea length: ".data.take 6)
    (h2 : p.data.take 6 ≠ "bad hmtx length: ".data.take 6) :
    ¬ isHheaError (.FormatError p) := by
  have := not_isHheaError_append p "" hp h1 h2
  rwa [String.append_empty] at this

theorem not_isHheaError_unsupported (s : String) : ¬ isHheaError (.UnsupportedError s) := by
  rintro ⟨n, h | h⟩ <;> cases h

theorem hhea_leaf_none (f : Font) :
    Returns (Exec.ret (f, (none : Option Error)))
      (fun r => ∀ e, r.2 = some e → ¬ isHheaError e) :=
  returns_ret _ (fun e he => by cases he)

theorem hhea_leaf_some (f : Font) (e0 : Error) (h : ¬ isHheaError e0) :
    Returns (Exec.ret (f, some e0)) (fun r => ∀ e, r.2 = some e → ¬ isHheaError e) :=
  returns_ret _ (fun e he => by cases he; exact h)

/-- No error of `parseHead` is worded like one of `parseHhea`. -/
theorem parseHead_not_hhea (f : Font) :
    Returns f.parseHead (fun r => ∀ e, r.2 = some e → ¬ isHheaError e) := by
  unfold Font.parseHead
  simp only [bind_def, pure_def]
  repeat' first
    | exact hhea_leaf_none _
    | exact hhea_leaf_some _ _ (not_isHheaError_append _ _ (by decide) (by decide) (by decide))
    | refine returns_bind (fun _ _ => ?_)
    | split

/-- No error of `parseMaxp` is worded like one of `parseHhea`. -/
theorem parseMaxp_not_hhea (f : Font) :
    Returns f.parseMaxp (fun r => ∀ e, r.2 = some e → ¬ isHheaError e) := by
  unfold Font.parseMaxp
  simp only [bind_def, pure_def]
  repeat' first
    | exact hhea_leaf_none _
    | exact hhea_leaf_some _ _ (not_isHheaError_append _ _ (by decide) (by decide) (by decide))
    | refine returns_bind (fun _ _ => ?_)
    | split

/-- No error of `parseCmap` is worded like one of `parseHhea`. -/
theorem parseCmap_not_hhea (f : Font) :
    Returns f.parseCmap (fun r => ∀ e, r.2 = some e → ¬ isHheaError e) := by
  unfold Font.parseCmap
  simp only [bind_def, pure_def]
  repeat' first
    | exact hhea_leaf_none _
    | exact hhea_leaf_some _ _ (not_isHheaError_unsupported _)
    | exact hhea_leaf_some _ _ (not_isHheaError_append _ _ (by decide) (by decide) (by decide))
    | exact hhea_leaf_some _ _ (not_isHheaError_lit _ (by decide) (by decide) (by decide))
    | refine returns_bind (fun _ _ => ?_)
    | split

/-- No error of `parseKern` is worded like one of `parseHhea`. -/
theorem parseKern_not_hhea (f : Font) :
    Returns f.parseKern (fun r => ∀ e, r.2 = some e → ¬ isHheaError e) := by
  unfold Font.parseKern
  simp only [bind_def, pure_def]
  repeat' first
    | exact hhea_leaf_none _
    | exact hhea_leaf_some _ _ (not_isHheaError_unsupported _)
    | exact hhea_leaf_some _ _ (not_isHheaError_lit _ (by decide) (by decide) (by decide))
    | refine returns_bind (fun _ _ => ?_)
    | split

/-- C19: on a plain sfnt buffer with a valid table directory (the directory loop leaves
the Font f0 without error), Parse is the run of the five sub-parsers in the order head,
maxp, cmap, kern, hhea, and what it returns is the error of the first one that fails
(or the Font when none does).  A head table not 54 bytes long gives the head-length
FormatError whatever the other tables hold; a valid head with a maxp table not 32
bytes long gives the maxp-length FormatError; an error worded by parseHhea (bad hhea
or hmtx length) is returned only after head, maxp, cmap and kern parsed without
error. -/
theorem Parse_first_failure (ttf : List Byte) (f0 : Font) (hlen : 12 ≤ ttf.length)
    (hmagic : bigEndian32 ttf 0 = 0x00010000)
    (hdir : 16 * bigEndian16 ttf 4 + 12 ≤ ttf.length)
    (htab : parse.tables ttf (bigEndian16 ttf 4) 0 Font.new = .ret (f0, none)) :
    (∀ r, Parse ttf = .ret r →
      (∃ f1 e, f0.parseHead = .ret (f1, some e) ∧ r = (none, some e)) ∨
      (∃ f1 f2 e, f0.parseHead = .ret (f1, none) ∧ f1.parseMaxp = .ret (f2, some e) ∧
        r = (none, some e)) ∨
      (∃ f1 f2 f3 e, f0.parseHead = .ret (f1, none) ∧ f1.parseMaxp = .ret (f2, none) ∧
        f2.parseCmap = .ret (f3, some e) ∧ r = (none, some e)) ∨
      (∃ f1 f2 f3 f4 e, f0.parseHead = .ret (f1, none) ∧ f1.parseMaxp = .ret (f2, none) ∧
        f2.parseCmap = .ret (f3, none) ∧ f3.parseKern = .ret (f4, some e) ∧
        r = (none, some e)) ∨
      (∃ f1 f2 f3 f4 f5 e, f0.parseHead = .ret (f1, none) ∧ f1.parseMaxp = .ret (f2, none) ∧
        f2.parseCmap = .ret (f3, none) ∧ f3.parseKern = .ret (f4, none) ∧
        f4.parseHhea = .ret (f5, some e) ∧ r = (none, some e)) ∨
      (∃ f1 f2 f3 f4 f5, f0.parseHead = .ret (f1, none) ∧ f1.parseMaxp = .ret (f2, none) ∧
        f2.parseCmap = .ret (f3, none) ∧ f3.parseKern = .ret (f4, none) ∧
        f4.parseHhea = .ret (f5, none) ∧ r = (some f5, none))) ∧
    (f0.head.length ≠ 54 →
      Parse ttf = .ret (none,
        some (.FormatError ("bad head length: " ++ fmtD f0.head.length)))) ∧
    (f0.head.length = 54 → bigEndian16 f0.head 50 ≤ 1 → f0.maxp.length ≠ 32 →
      Parse ttf = .ret (none,
        some (.FormatError ("bad maxp length: " ++ fmtD f0.maxp.length)))) ∧
    (∀ e, Parse ttf = .ret (none, some e) → isHheaError e →
      ∃ f1 f2 f3 f4 f5, f0.parseHead = .ret (f1, none) ∧ f1.parseMaxp = .ret (f2, none) ∧
        f2.parseCmap = .ret (f3, none) ∧ f3.parseKern = .ret (f4, none) ∧
        f4.parseHhea = .ret (f5, some e)) := by
  have hP : Parse ttf = parse.check f0 := Parse_plain ttf f0 hlen hmagic hdir htab
  refine ⟨fun r hr => check_cases f0 r (hP ▸ hr), ?_, ?_, ?_⟩
  · intro hhead
    rw [hP]
    unfold parse.check
    rw [parseHead_eq, if_pos hhead]
    rfl
  · intro hhead hfmt hmaxp
    rw [hP]
    unfold parse.check
    have h54 : ¬ f0.head.length ≠ 54 := by omega
    rw [parseHead_eq, if_neg h54]
    have h01 : bigEndian16 f0.head 50 = 0 ∨ bigEndian16 f0.head 50 = 1 := by omega
    rcases h01 with h0 | h1
    · rw [if_pos h0]
      simp only [bind_def, pure_def, ret_bind]
      rw [parseMaxp_eq, if_pos hmaxp]
      rfl
    · have h0 : ¬ bigEndian16 f0.head 50 = 0 := by omega
      rw [if_neg h0, if_pos h1]
      simp only [bind_def, pure_def, ret_bind]
      rw [parseMaxp_eq, if_pos hmaxp]
      rfl
  · intro e he hhhea
    rcases check_cases f0 _ (hP ▸ he) with ⟨f1, e', h1, hr⟩ | ⟨f1, f2, e', h1, h2, hr⟩ |
      ⟨f1, f2, f3, e', h1, h2, h3, hr⟩ | ⟨f1, f2, f3, f4, e', h1, h2, h3, h4, hr⟩ |
      ⟨f1, f2, f3, f4, f5, e', h1, h2, h3, h4, h5, hr⟩ | ⟨_, _, _, _, _, _, _, _, _, _, hr⟩
    · cases hr
      exact absurd hhhea (parseHead_not_hhea f0 _ h1 e rfl)
    · cases hr
      exact absurd hhhea (parseMaxp_not_hhea f1 _ h2 e rfl)
    · cases hr
      exact absurd hhhea (parseCmap_not_hhea f2 _ h3 e rfl)
    · cases hr
      exact absurd hhhea (parseKern_not_hhea f3 _ h4 e rfl)
    · cases hr
      exact ⟨f1, f2, f3, f4, f5, h1, h2, h3, h4, h5⟩
    · cases hr

theorem parseMaxp_ok (f f' : Font) (h : f.parseMaxp = .ret (f', none)) :
    f.maxp.length = 32 ∧ f'.nGlyph = (bigEndian16 f.maxp 4 : Nat) := by
  rw [parseMaxp_eq] at h
  split at h
  · cases h
  · rename_i hlen
    cases h
    exact ⟨by omega, rfl⟩

theorem parseHhea_ok (f f' : Font) (h : f.parseHhea = .ret (f', none)) :
    f.hhea.length = 36 ∧ f'.nHMetric = (bigEndian16 f.hhea 34 : Nat) ∧
      (f.hmtx.length : Int) =
        4 * (bigEndian16 f.hhea 34 : Int) + 2 * (f.nGlyph - (bigEndian16 f.hhea 34 : Int)) := by
  rw [parseHhea_eq] at h
  split at h
  · cases h
  · rename_i hlen
    split at h
    · cases h
    · rename_i heq
      cases h
      exact ⟨by omega, rfl, by omega⟩

theorem parseHead_keeps (f f' : Font) (e : Option Error) (h : f.parseHead = .ret (f', e)) :
    f'.maxp = f.maxp ∧ f'.hhea = f.hhea ∧ f'.hmtx = f.hmtx ∧ f'.kern = f.kern ∧
    f'.nKern = f.nKern ∧ f'.nGlyph = f.nGlyph := by
  have e1 : f' = { f with
      unitsPerEm := f'.unitsPerEm, bounds := f'.bounds,
      locaOffsetFormat := f'.locaOffsetFormat } := parseHead_frame f _ h
  rw [e1]
  exact ⟨rfl, rfl, rfl, rfl, rfl, rfl⟩

theorem parseMaxp_keeps (f f' : Font) (e : Option Error) (h : f.parseMaxp = .ret (f', e)) :
    f'.maxp = f.maxp ∧ f'.hhea = f.hhea ∧ f'.hmtx = f.hmtx ∧ f'.kern = f.kern ∧
    f'.nKern = f.nKern := by
  have e1 : f' = { f with
      nGlyph := f'.nGlyph,
      maxTwilightPoints := f'.maxTwilightPoints, maxStorage := f'.maxStorage,
      maxFunctionDefs := f'.maxFunctionDefs, maxStackElements := f'.maxStackElements } :=
    parseMaxp_frame f _ h
  rw [e1]
  exact ⟨rfl, rfl, rfl, rfl, rfl⟩

theorem parseCmap_keeps (f f' : Font) (e : Option Error) (h : f.parseCmap = .ret (f', e)) :
    f'.maxp = f.maxp ∧ f'.hhea = f.hhea ∧ f'.hmtx = f.hmtx ∧ f'.kern = f.kern ∧
    f'.nKern = f.nKern ∧ f'.nGlyph = f.nGlyph := by
  have e1 : f' = { f with
      cm := f'.cm, cmapIndexes := f'.cmapIndexes } := parseCmap_frame f _ h
  rw [e1]
  exact ⟨rfl, rfl, rfl, rfl, rfl, rfl⟩

theorem parseKern_keeps (f f' : Font) (e : Option Error) (h : f.parseKern = .ret (f', e)) :
    f'.maxp = f.maxp ∧ f'.hhea = f.hhea ∧ f'.hmtx = f.hmtx ∧ f'.kern = f.kern ∧
    f'.nGlyph = f.nGlyph := by
  have e1 : f' = { f with nKern := f'.nKern } := parseKern_frame f _ h
  rw [e1]
  exact ⟨rfl, rfl, rfl, rfl, rfl⟩

theorem parseHhea_keeps (f f' : Font) (e : Option Error) (h : f.parseHhea = .ret (f', e)) :
    f'.maxp = f.maxp ∧ f'.hhea = f.hhea ∧ f'.hmtx = f.hmtx ∧ f'.kern = f.kern ∧
    f'.nKern = f.nKern ∧ f'.nGlyph = f.nGlyph := by
  have e1 : f' = { f with nHMetric := f'.nHMetric } := parseHhea_frame f _ h
  rw [e1]
  exact ⟨rfl, rfl, rfl, rfl, rfl, rfl⟩

theorem tables_keeps (ttf : List Byte) (k : Nat) (i : Int) (f f' : Font) (e : Option Error)
    (h : parse.tables ttf k i f = .ret (f', e)) : f'.nKern = f.nKern := by
  have e1 : f' = { f with
      cmap := f'.cmap, glyf := f'.glyf, head := f'.head, hhea := f'.hhea,
      hmtx := f'.hmtx, kern := f'.kern, loca := f'.loca, maxp := f'.maxp } :=
    tables_frame ttf k i f _ h
  rw [e1]

/-- The chain head, maxp, cmap, kern leaves the table slices alone; nGlyph is what
`parseMaxp` read from a 32-byte maxp table. -/
theorem chain_frame (f0 f1 f2 f3 f4 : Font) (h1 : f0.parseHead = .ret (f1, none))
    (h2 : f1.parseMaxp = .ret (f2, none)) (h3 : f2.parseCmap = .ret (f3, none))
    (h4 : f3.parseKern = .ret (f4, none)) :
    f4.maxp = f0.maxp ∧ f4.hhea = f0.hhea ∧ f4.hmtx = f0.hmtx ∧ f4.kern = f0.kern ∧
    f3.kern = f0.kern ∧ f3.nKern = f0.nKern ∧ f0.maxp.length = 32 ∧
    f4.nGlyph = (bigEndian16 f0.maxp 4 : Nat) := by
  obtain ⟨a1, b1, c1, d1, k1, _⟩ := parseHead_keeps f0 f1 _ h1
  obtain ⟨a2, b2, c2, d2, k2⟩ := parseMaxp_keeps f1 f2 _ h2
  obtain ⟨a3, b3, c3, d3, k3, g3⟩ := parseCmap_keeps f2 f3 _ h3
  obtain ⟨a4, b4, c4, d4, g4⟩ := parseKern_keeps f3 f4 _ h4
  have m := parseMaxp_ok f1 f2 h2
  refine ⟨by rw [a4, a3, a2, a1], by rw [b4, b3, b2, b1], by rw [c4, c3, c2, c1],
    by rw [d4, d3, d2, d1], by rw [d3, d2, d1], by rw [k3, k2, k1], ?_, ?_⟩
  · rw [← a1]; exact m.1
  · rw [g4, g3, m.2, a1]

/-- C14: Kerning(a, b) = 0 when none of the nKern in-bounds pair records has the key
a<<16 | b (sorted or not); and on every Font that Parse returns with an empty kern
slice (no kern table, or one of length 0) nKern is 0 and Kerning is 0 for all pairs. -/
theorem Kerning_zero (f : Font) (n i0 i1 : Nat) (hn : f.nKern = (n : Int))
    (hlen : 18 + 6 * n ≤ f.kern.length) (_h0 : i0 < 65536) (h1 : i1 < 65536)
    (habs : ∀ k, k < n → kernKey f.kern k ≠ 65536 * i0 + i1) :
    f.Kerning i0 i1 = .ret 0 ∧
    (∀ (ttf : List Byte) (g : Font), Parse ttf = .ret (some g, none) → g.kern = [] →
      g.nKern = 0 ∧ ∀ a b : Nat, g.Kerning a b = .ret 0) := by
  refine ⟨Kerning_absent f n i0 i1 hn hlen h1 habs, ?_⟩
  intro ttf g hP hkern
  obtain ⟨m, f0, htab, hcheck⟩ := Parse_some_inv ttf g hP
  obtain ⟨f1, f2, f3, f4, c1, c2, c3, c4, c5⟩ := check_some_inv f0 g hcheck
  have hfr := chain_frame f0 f1 f2 f3 f4 c1 c2 c3 c4
  have n0 : f0.nKern = 0 := tables_keeps ttf m 0 Font.new f0 _ htab
  obtain ⟨_, _, _, gk, gn, _⟩ := parseHhea_keeps f4 g _ c5
  have hk3 : f3.kern.length = 0 := by
    rw [hfr.2.2.2.2.1, ← hfr.2.2.2.1, ← gk, hkern]
    rfl
  have hn3 : f3.nKern = 0 := by rw [hfr.2.2.2.2.2.1, n0]
  have h4 : f4 = f3 := by
    rw [parseKern_empty f3 hk3, if_neg (by simp [hn3])] at c4
    cases c4
    rfl
  have hg0 : g.nKern = 0 := by rw [gn, h4, hn3]
  refine ⟨hg0, fun a b => ?_⟩
  unfold Font.Kerning
  rw [if_pos hg0]
  rfl

theorem parseFuel_nested_ttcf (ttf : List Byte) (k o : Nat) (ho0 : 0 < o)
    (holen : o + 12 ≤ ttf.length) (hinner : bigEndian32 ttf o = 0x74746366) :
    parseFuel (k + 1) ttf (o : Int) = .ret (none, some (.FormatError "recursive TTC")) := by
  unfold parseFuel
  have h1 : ¬ ((ttf.length : Int) - (o : Int) < 12) := by omega
  have h2 : (o : Int) ≠ 0 := by omega
  simp only [h1, if_false, bind_def, pure_def]
  rw [u32_at ttf _ o rfl (by omega), ret_bind, hinner]
  simp [h2]

/-- C16: a buffer that starts with "ttcf", has TTC version 0x00010000, a font count
n ≥ 1 with room for n offsets, and a first font offset o > 0 with len - o ≥ 12 at which
"ttcf" stands again makes Parse return FormatError("recursive TTC"); the nested call
does not recurse, so the result is the same for every recursion budget of at least 2. -/
theorem Parse_recursive_TTC (ttf : List Byte) (n o : Nat)
    (hmagic : bigEndian32 ttf 0 = 0x74746366) (hver : bigEndian32 ttf 4 = 0x00010000)
    (hn : bigEndian32 ttf 8 = n) (hn1 : 1 ≤ n) (htab : 12 + 4 * n ≤ ttf.length)
    (ho : bigEndian32 ttf 12 = o) (ho0 : 0 < o) (holen : o + 12 ≤ ttf.length)
    (hinner : bigEndian32 ttf o = 0x74746366) :
    Parse ttf = .ret (none, some (.FormatError "recursive TTC")) ∧
    ∀ k, parseFuel (k + 2) ttf 0 = .ret (none, some (.FormatError "recursive TTC")) := by
  have key : ∀ k, parseFuel (k + 2) ttf 0
      = .ret (none, some (.FormatError "recursive TTC")) := by
    intro k
    unfold parseFuel
    have h1 : ¬ ((ttf.length : Int) - 0 < 12) := by omega
    simp only [h1, if_false, bind_def, pure_def]
    rw [u32_at ttf 0 0 (by norm_num) (by omega), ret_bind, hmagic]
    simp only [Nat.reduceEqDiff, if_false, if_true, ne_eq, not_true_eq_false]
    rw [u32_at ttf (0 + 4) 4 (by norm_num) (by omega), ret_bind, hver]
    simp only [not_true_eq_false, if_false]
    rw [u32_at ttf (0 + 4 + 4) 8 (by norm_num) (by omega), ret_bind, hn]
    have h3 : ¬ ((n : Int) ≤ 0) := by omega
    simp only [h3, if_false, sliceFrom, slice]
    have h4 : (0 : Int) ≤ 0 + 4 + 4 + 4 ∧ (0 : Int) + 4 + 4 + 4 ≤ (ttf.length : Int) ∧
        (ttf.length : Int) ≤ (ttf.length : Int) := by omega
    rw [if_pos h4, ret_bind]
    have h5 : ¬ ((((List.take ((ttf.length : Int) - (0 + 4 + 4 + 4)).toNat
        (List.drop ((0 : Int) + 4 + 4 + 4).toNat ttf)).length : Nat) : Int) / 4 < (n : Int)) := by
      simp only [List.length_take, List.length_drop]
      have e1 : ((0 : Int) + 4 + 4 + 4).toNat = 12 := by decide
      have e2 : ((ttf.length : Int) - (0 + 4 + 4 + 4)).toNat = ttf.length - 12 := by omega
      rw [e1, e2]
      omega
    rw [if_neg h5, u32_at ttf (0 + 4 + 4 + 4) 12 (by norm_num) (by omega), ret_bind, ho]
    have h6 : ¬ ((o : Int) ≤ 0 ∨ (o : Int) > (ttf.length : Int)) := by omega
    rw [if_neg h6]
    exact parseFuel_nested_ttcf ttf k o ho0 holen hinner
  exact ⟨key 0, key⟩

theorem Parse_recursive_TTC_witness :
    Parse ttcNested = .ret (none, some (.FormatError "recursive TTC")) :=
  (Parse_recursive_TTC ttcNested 2 20 (by decide) (by decide) (by decide) (by decide)
    (by decide) (by decide) (by decide) (by decide) (by decide)).1

/-- C17 (as amended): a buffer of at least 12 bytes that starts with "ttcf" and whose
TTC version field is not 0x00010000 makes Parse return FormatError("bad TTC version")
and no Font. -/
theorem Parse_bad_TTC_version (ttf : List Byte) (hlen : 12 ≤ ttf.length)
    (hmagic : bigEndian32 ttf 0 = 0x74746366) (hver : bigEndian32 ttf 4 ≠ 0x00010000) :
    Parse ttf = .ret (none, some (.FormatError "bad TTC version")) := by
  unfold Parse parse parseFuel
  have h1 : ¬ ((ttf.length : Int) - 0 < 12) := by omega
  simp only [h1, if_false, bind_def, pure_def]
  rw [u32_at ttf 0 0 (by norm_num) (by omega), ret_bind, hmagic]
  simp only [Nat.reduceEqDiff, if_false, if_true, ne_eq, not_true_eq_false]
  rw [u32_at ttf (0 + 4) 4 (by norm_num) (by omega), ret_bind]
  simp only [hver, not_false_eq_true, if_true]

theorem Parse_bad_TTC_version_witness :
    Parse ttcVersionZero = .ret (none, some (.FormatError "bad TTC version")) :=
  Parse_bad_TTC_version ttcVersionZero (by decide) (by decide) (by decide)

/-- C17 as stated fails: on the 16-byte buffer `ttcVersionZero` ("ttcf", version 0)
Parse returns a FormatError, not an UnsupportedError. -/
theorem TTC_version_zero_is_format_error :
    12 ≤ ttcVersionZero.length ∧ bigEndian32 ttcVersionZero 0 = 0x74746366 ∧
    bigEndian32 ttcVersionZero 4 ≠ 0x00010000 ∧
    ¬ ∃ font msg, Parse ttcVersionZero = .ret (font, some (.UnsupportedError msg)) := by
  refine ⟨by decide, by decide, by decide, ?_⟩
  rintro ⟨font, msg, h⟩
  have hv : Parse ttcVersionZero = .ret (none, some (.FormatError "bad TTC version")) := by
    decide
  rw [hv] at h
  cases h

/-- C18: a buffer shorter than 12 bytes, and a buffer of at least 12 bytes whose first
four bytes are neither 0x00010000 nor "ttcf", makes Parse return a FormatError ("TTF
data is too short", respectively "bad TTF version") and no Font. -/
theorem Parse_short_or_bad_magic (ttf : List Byte)
    (h : ttf.length < 12 ∨ (12 ≤ ttf.length ∧ bigEndian32 ttf 0 ≠ 0x00010000 ∧
      bigEndian32 ttf 0 ≠ 0x74746366)) :
    Parse ttf = .ret (none, some (.FormatError
      (if ttf.length < 12 then "TTF data is too short" else "bad TTF version"))) := by
  unfold Parse parse parseFuel
  rcases h with h | ⟨hlen, h1, h2⟩
  · have h0 : (ttf.length : Int) - 0 < 12 := by omega
    simp only [h0, if_true, h, pure_def]
  · have h0 : ¬ ((ttf.length : Int) - 0 < 12) := by omega
    have h3 : ¬ (ttf.length < 12) := by omega
    simp only [h0, if_false, bind_def, pure_def, h3]
    rw [u32_at ttf 0 0 (by norm_num) (by omega), ret_bind]
    simp only [h1, h2, if_false]

theorem Parse_short_or_bad_magic_witness :
    Parse [0, 1, 0, 0] = .ret (none, some (.FormatError "TTF data is too short")) ∧
    Parse ttfOtto = .ret (none, some (.FormatError "bad TTF version")) :=
  ⟨Parse_short_or_bad_magic [0, 1, 0, 0] (Or.inl (by decide)),
   Parse_short_or_bad_magic ttfOtto (Or.inr (by decide))⟩

/-- C15 (fails on the code): in the collection `ttcTwoFonts` the first font offset is 20,
at byte 20 stands a plain sfnt header with 5 tables and at byte 32 = 20 + 12 its
directory, starting with the entry of "head"; the same font as a plain file parses.
Parse reads the directory at bytes 12 + 16*i instead, finds no table and returns the
head-length error. -/
theorem Parse_collection_reads_directory_at_12 :
    bigEndian32 ttcTwoFonts 12 = 20 ∧ bigEndian32 ttcTwoFonts 20 = 0x00010000 ∧
    bigEndian16 ttcTwoFonts 24 = 5 ∧ slice ttcTwoFonts 32 36 = .ret (tag "head") ∧
    Parse ttfPlain = .ret (some fontPlain, none) ∧
    Parse ttcTwoFonts = .ret (none, some (.FormatError "bad head length: 0")) := by
  decide

theorem Kerning_sorted_present_witness : fontKernThree.Kerning 1 5 = .ret 30 :=
  (Kerning_sorted_present fontKernThree 3 1 5 rfl (by decide) (by decide) (by decide)
    (by
      intro i j hij hj
      have hj' : j = 0 ∨ j = 1 ∨ j = 2 := by omega
      have hi' : i = 0 ∨ i = 1 ∨ i = 2 := by omega
      rcases hj' with rfl | rfl | rfl <;> rcases hi' with rfl | rfl | rfl <;>
        first | decide | omega)
    ⟨1, by decide, by decide⟩).2
    (by
      intro i j hij hj
      have hj' : j = 0 ∨ j = 1 ∨ j = 2 := by omega
      have hi' : i = 0 ∨ i = 1 ∨ i = 2 := by omega
      rcases hj' with rfl | rfl | rfl <;> rcases hi' with rfl | rfl | rfl <;>
        first | decide | omega)
    1 (by decide) (by decide)

theorem Kerning_zero_witness :
    fontKernThree.Kerning 1 3 = .ret 0 ∧ fontPlain.Kerning 7 9 = .ret 0 :=
  ⟨(Kerning_zero fontKernThree 3 1 3 rfl (by decide) (by decide) (by decide)
      (by
        intro k hk
        have hk' : k = 0 ∨ k = 1 ∨ k = 2 := by omega
        rcases hk' with rfl | rfl | rfl <;> decide)).1,
   ((Kerning_zero fontKernThree 3 1 3 rfl (by decide) (by decide) (by decide)
      (by
        intro k hk
        have hk' : k = 0 ∨ k = 1 ∨ k = 2 := by omega
        rcases hk' with rfl | rfl | rfl <;> decide)).2 ttfPlain fontPlain (by decide)
      rfl).2 7 9⟩

theorem Parse_first_failure_witness :
    Parse ttfShortHead = .ret (none, some (.FormatError "bad head length: 10")) :=
  (Parse_first_failure ttfShortHead fontShortHeadDir (by decide) (by decide) (by decide)
    (by decide)).2.1 (by decide)

/-- C20 (as amended): every Font that Parse returns has a 32-byte maxp table with
nGlyph the 16-bit value at its byte 4, a 36-byte hhea table with nHMetric the 16-bit
value at its byte 34, and len(hmtx) = 4*nHMetric + 2*(nGlyph - nHMetric); and when
Parse runs the sub-parsers on a Font f0 on which head, maxp, cmap and kern parse
without error, whose hhea table is 36 bytes long and for which the equation fails,
Parse returns the FormatError "bad hmtx length: len(hmtx)". -/
theorem Parse_hmtx_length (ttf : List Byte) :
    (∀ g, Parse ttf = .ret (some g, none) →
      g.maxp.length = 32 ∧ g.nGlyph = (bigEndian16 g.maxp 4 : Nat) ∧
      g.hhea.length = 36 ∧ g.nHMetric = (bigEndian16 g.hhea 34 : Nat) ∧
      (g.hmtx.length : Int) = 4 * g.nHMetric + 2 * (g.nGlyph - g.nHMetric)) ∧
    (∀ f0 f1 f2 f3 f4, Parse ttf = parse.check f0 →
      f0.parseHead = .ret (f1, none) → f1.parseMaxp = .ret (f2, none) →
      f2.parseCmap = .ret (f3, none) → f3.parseKern = .ret (f4, none) →
      f0.hhea.length = 36 →
      (f0.hmtx.length : Int) ≠ 4 * (bigEndian16 f0.hhea 34 : Int) +
        2 * ((bigEndian16 f0.maxp 4 : Int) - (bigEndian16 f0.hhea 34 : Int)) →
      Parse ttf = .ret (none,
        some (.FormatError ("bad hmtx length: " ++ fmtD f0.hmtx.length)))) := by
  constructor
  · intro g hP
    obtain ⟨m, f0, _, hcheck⟩ := Parse_some_inv ttf g hP
    obtain ⟨f1, f2, f3, f4, c1, c2, c3, c4, c5⟩ := check_some_inv f0 g hcheck
    obtain ⟨a, b, c, _, _, _, hm, hg⟩ := chain_frame f0 f1 f2 f3 f4 c1 c2 c3 c4
    obtain ⟨ga, gb, gc, _, _, gg⟩ := parseHhea_keeps f4 g _ c5
    obtain ⟨h36, hnH, heq⟩ := parseHhea_ok f4 g c5
    refine ⟨by rw [ga, a]; exact hm, by rw [gg, hg, ga, a], by rw [gb]; exact h36,
      by rw [hnH, gb], ?_⟩
    rw [gc, hnH, gg]
    exact heq
  · intro f0 f1 f2 f3 f4 hP c1 c2 c3 c4 h36 hne
    obtain ⟨a, b, c, _, _, _, hm, hg⟩ := chain_frame f0 f1 f2 f3 f4 c1 c2 c3 c4
    have h36' : ¬ f4.hhea.length ≠ 36 := by rw [b]; omega
    have hne' : 4 * (bigEndian16 f4.hhea 34 : Int) +
        2 * (f4.nGlyph - (bigEndian16 f4.hhea 34 : Int)) ≠ (f4.hmtx.length : Int) := by
      rw [b, c, hg]
      exact fun h => hne h.symm
    rw [hP]
    unfold parse.check
    simp only [bind_def, pure_def, c1, c2, c3, c4, ret_bind]
    rw [parseHhea_eq, if_neg h36', if_pos hne', ret_bind, c]

theorem Parse_hmtx_length_witness :
    (fontIndex.maxp.length = 32 ∧ fontIndex.nGlyph = (bigEndian16 fontIndex.maxp 4 : Nat) ∧
      fontIndex.hhea.length = 36 ∧
      fontIndex.nHMetric = (bigEndian16 fontIndex.hhea 34 : Nat) ∧
      (fontIndex.hmtx.length : Int)
        = 4 * fontIndex.nHMetric + 2 * (fontIndex.nGlyph - fontIndex.nHMetric)) ∧
    Parse ttfHmtxMismatch = .ret (none, some (.FormatError "bad hmtx length: 4")) :=
  ⟨(Parse_hmtx_length ttfIndex).1 fontIndex (by decide),
   (Parse_hmtx_length ttfHmtxMismatch).2 fontHmtxMismatchDir
     { fontHmtxMismatchDir with unitsPerEm := 2048, locaOffsetFormat := locaOffsetFormatShort }
     { fontHmtxMismatchDir with unitsPerEm := 2048, locaOffsetFormat := locaOffsetFormatShort,
                                nGlyph := 1 }
     { fontHmtxMismatchDir with unitsPerEm := 2048, locaOffsetFormat := locaOffsetFormatShort,
                                nGlyph := 1 }
     { fontHmtxMismatchDir with unitsPerEm := 2048, locaOffsetFormat := locaOffsetFormatShort,
                                nGlyph := 1 }
     (by decide) (by decide) (by decide) (by decide) (by decide) (by decide) (by decide)⟩

/-- C20 as stated fails: in `ttfHmtxMismatchNoEncoding` the directory is valid, the maxp
table is 32 bytes with nGlyph = 1, the hhea table 36 bytes with nHMetric = 3, and
len(hmtx) = 4 differs from 4*3 + 2*(1 - 3) = 8, yet Parse returns the UnsupportedError
of parseCmap, which runs before parseHhea, and no FormatError. -/
theorem Parse_hmtx_mismatch_not_format_error :
    parse.tables ttfHmtxMismatchNoEncoding 5 0 Font.new
      = .ret (fontHmtxMismatchNoEncodingDir, none) ∧
    fontHmtxMismatchNoEncodingDir.maxp.length = 32 ∧
    bigEndian16 fontHmtxMismatchNoEncodingDir.maxp 4 = 1 ∧
    fontHmtxMismatchNoEncodingDir.hhea.length = 36 ∧
    bigEndian16 fontHmtxMismatchNoEncodingDir.hhea 34 = 3 ∧
    fontHmtxMismatchNoEncodingDir.hmtx.length = 4 ∧
    Parse ttfHmtxMismatchNoEncoding = .ret (none, some (.UnsupportedError "cmap encoding")) ∧
    ¬ ∃ font msg, Parse ttfHmtxMismatchNoEncoding = .ret (font, some (.FormatError msg)) := by
  have hv : Parse ttfHmtxMismatchNoEncoding
      = .ret (none, some (.UnsupportedError "cmap encoding")) := by decide
  refine ⟨by decide, by decide, by decide, by decide, by decide, by decide, hv, ?_⟩
  rintro ⟨font, msg, h⟩
  rw [hv] at h
  cases h

/-! ## Font invariants, head and cmap parsing, readTable, unrecognised directory entries -/

theorem parseHead_ok (f f' : Font) (h : f.parseHead = .ret (f', none)) :
    f.head.length = 54 ∧
    (bigEndian16 f.head 50 = 0 ∨ bigEndian16 f.head 50 = 1) ∧
    f'.unitsPerEm = (bigEndian16 f.head 18 : Nat) ∧
    f'.bounds = ⟨toInt16 (bigEndian16 f.head 36), toInt16 (bigEndian16 f.head 38),
      toInt16 (bigEndian16 f.head 40), toInt16 (bigEndian16 f.head 42)⟩ ∧
    (bigEndian16 f.head 50 = 0 → f'.locaOffsetFormat = locaOffsetFormatShort) ∧
    (bigEndian16 f.head 50 = 1 → f'.locaOffsetFormat = locaOffsetFormatLong) ∧
    f'.head = f.head := by
  rw [parseHead_eq] at h
  split at h
  · cases h
  · rename_i hlen
    split at h
    · rename_i h0
      cases h
      exact ⟨by omega, Or.inl h0, rfl, rfl, fun _ => rfl, fun h1 => by omega, rfl⟩
    · rename_i h0
      split at h
      · rename_i h1
        cases h
        exact ⟨by omega, Or.inr h1, rfl, rfl, fun h0' => absurd h0' h0, fun _ => rfl, rfl⟩
      · cases h

theorem later_keep_head (f f' : Font) (e : Option Error)
    (h : f.parseMaxp = .ret (f', e) ∨ f.parseCmap = .ret (f', e) ∨
      f.parseKern = .ret (f', e) ∨ f.parseHhea = .ret (f', e)) :
    f'.head = f.head ∧ f'.unitsPerEm = f.unitsPerEm ∧ f'.bounds = f.bounds ∧
    f'.locaOffsetFormat = f.locaOffsetFormat := by
  rcases h with h | h | h | h
  · have e1 : f' = { f with
        nGlyph := f'.nGlyph,
        maxTwilightPoints := f'.maxTwilightPoints, maxStorage := f'.maxStorage,
        maxFunctionDefs := f'.maxFunctionDefs, maxStackElements := f'.maxStackElements } :=
      parseMaxp_frame f _ h
    rw [e1]
    exact ⟨rfl, rfl, rfl, rfl⟩
  · have e1 : f' = { f with
        cm := f'.cm, cmapIndexes := f'.cmapIndexes } := parseCmap_frame f _ h
    rw [e1]
    exact ⟨rfl, rfl, rfl, rfl⟩
  · have e1 : f' = { f with nKern := f'.nKern } := parseKern_frame f _ h
    rw [e1]
    exact ⟨rfl, rfl, rfl, rfl⟩
  · have e1 : f' = { f with nHMetric := f'.nHMetric } := parseHhea_frame f _ h
    rw [e1]
    exact ⟨rfl, rfl, rfl, rfl⟩

/-- What a Font returned by `Parse` carries from its head, maxp and hhea tables. -/
theorem Parse_some_fields (ttf : List Byte) (g : Font) (h : Parse ttf = .ret (some g, none)) :
    g.head.length = 54 ∧ g.unitsPerEm = (bigEndian16 g.head 18 : Nat) ∧
    g.maxp.length = 32 ∧ g.nGlyph = (bigEndian16 g.maxp 4 : Nat) ∧
    g.hhea.length = 36 ∧ g.nHMetric = (bigEndian16 g.hhea 34 : Nat) ∧
    (g.hmtx.length : Int) = 4 * g.nHMetric + 2 * (g.nGlyph - g.nHMetric) := by
  obtain ⟨m, f0, _, hcheck⟩ := Parse_some_inv ttf g h
  obtain ⟨f1, f2, f3, f4, c1, c2, c3, c4, c5⟩ := check_some_inv f0 g hcheck
  obtain ⟨a, b, c, _, _, _, hm, hg⟩ := chain_frame f0 f1 f2 f3 f4 c1 c2 c3 c4
  obtain ⟨ga, gb, gc, _, _, gg⟩ := parseHhea_keeps f4 g _ c5
  obtain ⟨h36, hnH, heq⟩ := parseHhea_ok f4 g c5
  obtain ⟨h54, _, hu, _, _, _, hh⟩ := parseHead_ok f0 f1 c1
  obtain ⟨p2, u2, _, _⟩ := later_keep_head f1 f2 _ (Or.inl c2)
  obtain ⟨p3, u3, _, _⟩ := later_keep_head f2 f3 _ (Or.inr (Or.inl c3))
  obtain ⟨p4, u4, _, _⟩ := later_keep_head f3 f4 _ (Or.inr (Or.inr (Or.inl c4)))
  obtain ⟨p5, u5, _, _⟩ := later_keep_head f4 g _ (Or.inr (Or.inr (Or.inr c5)))
  have hhead : g.head = f0.head := by rw [p5, p4, p3, p2, hh]
  refine ⟨by rw [hhead]; exact h54, by rw [u5, u4, u3, u2, hu, hhead],
    by rw [ga, a]; exact hm, by rw [gg, hg, ga, a], by rw [gb]; exact h36,
    by rw [hnH, gb], ?_⟩
  rw [gc, hnH, gg]
  exact heq

/-- C21 (as amended): every Font that Parse returns has 0 ≤ nGlyph, nHMetric ≤ 65535
and 2*nHMetric + 2*nGlyph = len(hmtx); so nHMetric ≤ nGlyph holds exactly when
len(hmtx) ≤ 4*nGlyph. -/
theorem Parse_nHMetric_nGlyph (ttf : List Byte) (g : Font)
    (h : Parse ttf = .ret (some g, none)) :
    0 ≤ g.nGlyph ∧ g.nGlyph ≤ 65535 ∧ 0 ≤ g.nHMetric ∧ g.nHMetric ≤ 65535 ∧
    2 * g.nHMetric + 2 * g.nGlyph = (g.hmtx.length : Int) ∧
    (g.nHMetric ≤ g.nGlyph ↔ (g.hmtx.length : Int) ≤ 4 * g.nGlyph) := by
  obtain ⟨_, _, _, hg, _, hn, heq⟩ := Parse_some_fields ttf g h
  have b1 := bigEndian16_lt g.maxp 4
  have b2 := bigEndian16_lt g.hhea 34
  refine ⟨by omega, by omega, by omega, by omega, by omega, by omega⟩

theorem Parse_nHMetric_nGlyph_witness :
    0 ≤ fontPlain.nGlyph ∧ fontPlain.nGlyph ≤ 65535 ∧ 0 ≤ fontPlain.nHMetric ∧
    fontPlain.nHMetric ≤ 65535 ∧
    2 * fontPlain.nHMetric + 2 * fontPlain.nGlyph = (fontPlain.hmtx.length : Int) ∧
    (fontPlain.nHMetric ≤ fontPlain.nGlyph ↔
      (fontPlain.hmtx.length : Int) ≤ 4 * fontPlain.nGlyph) :=
  Parse_nHMetric_nGlyph ttfPlain fontPlain (by decide)

/-- C21 as stated fails: Parse accepts `ttfMoreMetricsThanGlyphs` and returns a Font
with nHMetric = 3 > 1 = nGlyph. -/
theorem Parse_accepts_more_metrics_than_glyphs :
    Parse ttfMoreMetricsThanGlyphs = .ret (some fontMoreMetricsThanGlyphs, none) ∧
    fontMoreMetricsThanGlyphs.nHMetric = 3 ∧ fontMoreMetricsThanGlyphs.nGlyph = 1 ∧
    ¬ (fontMoreMetricsThanGlyphs.nHMetric ≤ fontMoreMetricsThanGlyphs.nGlyph) := by
  decide

/-- C22 (as amended): on every Font that Parse returns, UnitsPerEm() is the unsigned
16-bit value at byte 18 of the 54-byte head table, so 0 ≤ UnitsPerEm() ≤ 65535; it is 0
when that field is 0. -/
theorem Parse_unitsPerEm_range (ttf : List Byte) (g : Font)
    (h : Parse ttf = .ret (some g, none)) :
    g.head.length = 54 ∧ g.UnitsPerEm = (bigEndian16 g.head 18 : Nat) ∧
    0 ≤ g.UnitsPerEm ∧ g.UnitsPerEm ≤ 65535 ∧
    (bigEndian16 g.head 18 = 0 → g.UnitsPerEm = 0) := by
  obtain ⟨h54, hu, _⟩ := Parse_some_fields ttf g h
  have b1 := bigEndian16_lt g.head 18
  unfold Font.UnitsPerEm
  refine ⟨h54, hu, by omega, by omega, fun h0 => by rw [hu, h0]; rfl⟩

theorem Parse_unitsPerEm_range_witness :
    fontPlain.head.length = 54 ∧ fontPlain.UnitsPerEm = (bigEndian16 fontPlain.head 18 : Nat) ∧
    0 ≤ fontPlain.UnitsPerEm ∧ fontPlain.UnitsPerEm ≤ 65535 ∧
    (bigEndian16 fontPlain.head 18 = 0 → fontPlain.UnitsPerEm = 0) :=
  Parse_unitsPerEm_range ttfPlain fontPlain (by decide)

/-- C22 as stated fails: Parse accepts `ttfZeroHead`, whose head table has 0 at byte 18,
and returns a Font with UnitsPerEm() = 0. -/
theorem Parse_accepts_unitsPerEm_zero :
    Parse ttfZeroHead = .ret (some fontZeroHead, none) ∧
    fontZeroHead.UnitsPerEm = 0 ∧ ¬ (fontZeroHead.UnitsPerEm > 0) := by
  decide

/-- C23: parseHead succeeds exactly when the head table is 54 bytes long and the 16-bit
value at byte 50 is 0 or 1, and returns a FormatError otherwise; on success
UnitsPerEm() is the unsigned 16-bit value at byte 18 (between 0 and 65535), Bounds()
holds the 16-bit values at bytes 36, 38, 40, 42 read as two's-complement signed (XMin,
YMin, XMax, YMax), and the loca offset format is short for 0 and long for 1. -/
theorem parseHead_spec (f : Font) :
    ((∃ f', f.parseHead = .ret (f', none)) ↔
      (f.head.length = 54 ∧ (bigEndian16 f.head 50 = 0 ∨ bigEndian16 f.head 50 = 1))) ∧
    (¬ (f.head.length = 54 ∧ (bigEndian16 f.head 50 = 0 ∨ bigEndian16 f.head 50 = 1)) →
      ∃ f' msg, f.parseHead = .ret (f', some (.FormatError msg))) ∧
    (∀ f', f.parseHead = .ret (f', none) →
      f'.UnitsPerEm = (bigEndian16 f.head 18 : Nat) ∧
      0 ≤ f'.UnitsPerEm ∧ f'.UnitsPerEm ≤ 65535 ∧
      f'.Bounds = ⟨twosComplement16 (bigEndian16 f.head 36),
        twosComplement16 (bigEndian16 f.head 38), twosComplement16 (bigEndian16 f.head 40),
        twosComplement16 (bigEndian16 f.head 42)⟩ ∧
      (bigEndian16 f.head 50 = 0 → f'.locaOffsetFormat = locaOffsetFormatShort) ∧
      (bigEndian16 f.head 50 = 1 → f'.locaOffsetFormat = locaOffsetFormatLong)) := by
  refine ⟨⟨?_, ?_⟩, ?_, ?_⟩
  · rintro ⟨f', h⟩
    obtain ⟨h54, h01, _⟩ := parseHead_ok f f' h
    exact ⟨h54, h01⟩
  · rintro ⟨h54, h01⟩
    rw [parseHead_eq, if_neg (by omega)]
    rcases h01 with h0 | h1
    · rw [if_pos h0]
      exact ⟨_, rfl⟩
    · rw [if_neg (by omega), if_pos h1]
      exact ⟨_, rfl⟩
  · intro hbad
    rw [parseHead_eq]
    by_cases h54 : f.head.length = 54
    · have h0 : ¬ bigEndian16 f.head 50 = 0 := fun h0 => hbad ⟨h54, Or.inl h0⟩
      have h1 : ¬ bigEndian16 f.head 50 = 1 := fun h1 => hbad ⟨h54, Or.inr h1⟩
      rw [if_neg (by omega), if_neg h0, if_neg h1]
      exact ⟨_, _, rfl⟩
    · rw [if_pos h54]
      exact ⟨_, _, rfl⟩
  · intro f' h
    obtain ⟨_, _, hu, hb, hs, hl, _⟩ := parseHead_ok f f' h
    have b1 := bigEndian16_lt f.head 18
    unfold Font.UnitsPerEm Font.Bounds
    refine ⟨hu, by omega, by omega, ?_, hs, hl⟩
    rw [hb]
    simp only [toInt16_bigEndian16]

theorem parseHead_spec_witness :
    ({ Font.new with
        head := headTableLong, unitsPerEm := 1000, bounds := ⟨-100, -200, 900, 800⟩,
        locaOffsetFormat := locaOffsetFormatLong } : Font).UnitsPerEm = 1000 ∧
    ({ Font.new with
        head := headTableLong, unitsPerEm := 1000, bounds := ⟨-100, -200, 900, 800⟩,
        locaOffsetFormat := locaOffsetFormatLong } : Font).Bounds = ⟨-100, -200, 900, 800⟩ :=
  ⟨((parseHead_spec { Font.new with head := headTableLong }).2.2 _ (by decide)).1,
   ((parseHead_spec { Font.new with head := headTableLong }).2.2 _ (by decide)).2.2.2.1⟩

theorem slice_of_le (b : List Byte) (lo hi : Nat) (h1 : lo ≤ hi) (h2 : hi ≤ b.length) :
    slice b (lo : Int) (hi : Int) = .ret ((b.drop lo).take (hi - lo)) := by
  unfold slice
  have hc : 0 ≤ (lo : Int) ∧ (lo : Int) ≤ (hi : Int) ∧ (hi : Int) ≤ (b.length : Int) := by
    omega
  rw [if_pos hc]
  have e1 : ((hi : Int) - (lo : Int)).toNat = hi - lo := by omega
  rw [Int.toNat_ofNat, e1]

/-- `readTable` on an 8-byte entry: the range when it fits, a FormatError otherwise. -/
theorem readTable_eq (ttf ol : List Byte) (hol : 8 ≤ ol.length) :
    readTable ttf ol =
      if bigEndian32 ol 0 + bigEndian32 ol 4 ≤ ttf.length then
        .ret ((ttf.drop (bigEndian32 ol 0)).take (bigEndian32 ol 4), none)
      else
        .ret ([], some (.FormatError ("offset + length too large: " ++
          fmtD (((toUint32 (bigEndian32 ol 0 : Nat) + toUint32 (bigEndian32 ol 4 : Nat))
            % 4294967296 : Nat) : Int)))) := by
  unfold readTable
  simp only [bind_def, pure_def]
  rw [u32_at ol 0 0 (by norm_num) (by omega), ret_bind]
  have h1 : ¬ (((bigEndian32 ol 0 : Nat) : Int) < 0) := by omega
  rw [if_neg h1, u32_at ol 4 4 (by norm_num) (by omega), ret_bind]
  have h2 : ¬ (((bigEndian32 ol 4 : Nat) : Int) < 0) := by omega
  rw [if_neg h2]
  by_cases hfit : bigEndian32 ol 0 + bigEndian32 ol 4 ≤ ttf.length
  · have h3 : ¬ (((bigEndian32 ol 0 : Nat) : Int) + ((bigEndian32 ol 4 : Nat) : Int) < 0 ∨
        ((bigEndian32 ol 0 : Nat) : Int) + ((bigEndian32 ol 4 : Nat) : Int)
          > (ttf.length : Int)) := by omega
    have e : ((bigEndian32 ol 0 : Nat) : Int) + ((bigEndian32 ol 4 : Nat) : Int)
        = ((bigEndian32 ol 0 + bigEndian32 ol 4 : Nat) : Int) := by push_cast; rfl
    simp only [h3, if_false, hfit, if_true]
    rw [e, slice_of_le ttf _ _ (by omega) hfit, ret_bind, Nat.add_sub_cancel_left]
  · have h3 : (((bigEndian32 ol 0 : Nat) : Int) + ((bigEndian32 ol 4 : Nat) : Int) < 0 ∨
        ((bigEndian32 ol 0 : Nat) : Int) + ((bigEndian32 ol 4 : Nat) : Int)
          > (ttf.length : Int)) := by omega
    simp only [h3, if_true, hfit, if_false]

/-- C29: with offset and length the two big-endian 32-bit values of the 8-byte entry,
readTable returns exactly the sub-range ttf[offset .. offset+length), of length
`length`, and no error when offset + length ≤ len(ttf); it returns a FormatError and
no slice when offset + length > len(ttf); a range it returns never extends past the
buffer. -/
theorem readTable_spec (ttf ol : List Byte) (hol : ol.length = 8) :
    (bigEndian32 ol 0 + bigEndian32 ol 4 ≤ ttf.length →
      readTable ttf ol = .ret ((ttf.drop (bigEndian32 ol 0)).take (bigEndian32 ol 4), none) ∧
      ((ttf.drop (bigEndian32 ol 0)).take (bigEndian32 ol 4)).length = bigEndian32 ol 4) ∧
    (bigEndian32 ol 0 + bigEndian32 ol 4 > ttf.length →
      ∃ msg, readTable ttf ol = .ret ([], some (.FormatError msg))) ∧
    (∀ t, readTable ttf ol = .ret (t, none) →
      bigEndian32 ol 0 + bigEndian32 ol 4 ≤ ttf.length ∧
      t = (ttf.drop (bigEndian32 ol 0)).take (bigEndian32 ol 4)) := by
  have heq := readTable_eq ttf ol (by omega)
  refine ⟨?_, ?_, ?_⟩
  · intro hfit
    rw [heq, if_pos hfit]
    refine ⟨rfl, ?_⟩
    rw [List.length_take, List.length_drop]
    omega
  · intro hbig
    rw [heq, if_neg (by omega)]
    exact ⟨_, rfl⟩
  · intro t ht
    rw [heq] at ht
    split at ht
    · rename_i hfit
      cases ht
      exact ⟨hfit, rfl⟩
    · cases ht

theorem readTable_spec_witness :
    readTable ttfPlain (be32 92 ++ be32 54) = .ret (headTable, none) ∧
    ∃ msg, readTable ttfPlain (be32 200 ++ be32 47) = .ret ([], some (.FormatError msg)) :=
  ⟨((readTable_spec ttfPlain (be32 92 ++ be32 54) (by decide)).1 (by decide)).1,
   (readTable_spec ttfPlain (be32 200 ++ be32 47) (by decide)).2.1 (by decide)⟩

/-- One iteration of the encoding-record loop on record `i0`, which is in bounds. -/
theorem scan_step (cmap : List Byte) (k i0 : Nat) (offset : Int) (found : Bool)
    (hlen : 4 + 8 * (i0 + 1) ≤ cmap.length) :
    parseCmap.scan cmap (k + 1) ((4 + 8 * i0 : Nat) : Int) offset found =
      if encKey cmap i0 = unicodeEncoding then .ret ((encOffset cmap i0 : Int), true)
      else if encKey cmap i0 = microsoftEncoding then
        parseCmap.scan cmap k ((4 + 8 * (i0 + 1) : Nat) : Int) (encOffset cmap i0 : Int) true
      else parseCmap.scan cmap k ((4 + 8 * (i0 + 1) : Nat) : Int) offset found := by
  rw [parseCmap.scan]
  simp only [bind_def, pure_def]
  rw [u32_at cmap _ (4 + 8 * i0) rfl (by omega), ret_bind,
    u32_at cmap _ (8 + 8 * i0) (by push_cast; omega) (by omega), ret_bind]
  have e : (((4 + 8 * i0 : Nat) : Int) + 8) = ((4 + 8 * (i0 + 1) : Nat) : Int) := by
    push_cast; omega
  rw [e]
  rfl

/-- The loop returns the offset of the first Unicode record at which it arrives. -/
theorem scan_first_unicode (cmap : List Byte) : ∀ (k i0 : Nat) (offset : Int) (found : Bool)
    (i : Nat), 4 + 8 * (i0 + k) ≤ cmap.length → i0 ≤ i → i < i0 + k →
    encKey cmap i = unicodeEncoding →
    (∀ j, i0 ≤ j → j < i → encKey cmap j ≠ unicodeEncoding) →
    parseCmap.scan cmap k ((4 + 8 * i0 : Nat) : Int) offset found
      = .ret ((encOffset cmap i : Int), true) := by
  intro k
  induction k with
  | zero => intro i0 offset found i _ h1 h2; omega
  | succ k ih =>
    intro i0 offset found i hlen h1 h2 hkey hfirst
    rw [scan_step cmap k i0 offset found (by omega)]
    by_cases hi : i = i0
    · subst hi
      rw [if_pos hkey]
    · have hne := hfirst i0 (le_refl _) (by omega)
      rw [if_neg hne]
      have hrec : ∀ o fd, parseCmap.scan cmap k ((4 + 8 * (i0 + 1) : Nat) : Int) o fd
          = .ret ((encOffset cmap i : Int), true) := fun o fd =>
        ih (i0 + 1) o fd i (by omega) (by omega) (by omega) hkey
          (fun j hj1 hj2 => hfirst j (by omega) hj2)
      split
      · exact hrec _ _
      · exact hrec _ _

/-- Without a Unicode record ahead, the loop returns the choice it came with or the
offset of a Microsoft record. -/
theorem scan_no_unicode (cmap : List Byte) : ∀ (k i0 : Nat) (offset : Int) (found : Bool),
    4 + 8 * (i0 + k) ≤ cmap.length →
    (∀ j, i0 ≤ j → j < i0 + k → encKey cmap j ≠ unicodeEncoding) →
    (parseCmap.scan cmap k ((4 + 8 * i0 : Nat) : Int) offset found = .ret (offset, found) ∧
      ∀ j, i0 ≤ j → j < i0 + k → encKey cmap j ≠ microsoftEncoding) ∨
    (∃ j, i0 ≤ j ∧ j < i0 + k ∧ encKey cmap j = microsoftEncoding ∧
      parseCmap.scan cmap k ((4 + 8 * i0 : Nat) : Int) offset found
        = .ret ((encOffset cmap j : Int), true)) := by
  intro k
  induction k with
  | zero =>
    intro i0 offset found _ _
    exact Or.inl ⟨rfl, fun j h1 h2 => by omega⟩
  | succ k ih =>
    intro i0 offset found hlen hno
    rw [scan_step cmap k i0 offset found (by omega)]
    have hne := hno i0 (le_refl _) (by omega)
    rw [if_neg hne]
    have hno' : ∀ j, i0 + 1 ≤ j → j < i0 + 1 + k → encKey cmap j ≠ unicodeEncoding :=
      fun j h1 h2 => hno j (by omega) (by omega)
    by_cases hms : encKey cmap i0 = microsoftEncoding
    · rw [if_pos hms]
      rcases ih (i0 + 1) (encOffset cmap i0 : Int) true (by omega) hno' with ⟨h, _⟩ | ⟨j, h1, h2, h3, h4⟩
      · exact Or.inr ⟨i0, le_refl _, by omega, hms, h⟩
      · exact Or.inr ⟨j, by omega, by omega, h3, h4⟩
    · rw [if_neg hms]
      rcases ih (i0 + 1) offset found (by omega) hno' with ⟨h, hall⟩ | ⟨j, h1, h2, h3, h4⟩
      · refine Or.inl ⟨h, fun j h1 h2 => ?_⟩
        by_cases hj : j = i0
        · subst hj; exact hms
        · exact hall j (by omega) (by omega)
      · exact Or.inr ⟨j, by omega, by omega, h3, h4⟩

/-- C24 (as amended): when the encoding records are in bounds and several of them
carry the Unicode key, the subtable offset chosen is that of the first such record:
the scan stops there, a later Unicode record is not looked at. -/
theorem scan_chooses_first_unicode (cmap : List Byte) (n i : Nat)
    (hlen : 4 + 8 * n ≤ cmap.length) (hi : i < n)
    (hkey : encKey cmap i = 0x00000003)
    (hfirst : ∀ j, j < i → encKey cmap j ≠ 0x00000003) :
    parseCmap.scan cmap n 4 0 false = .ret ((encOffset cmap i : Int), true) := by
  have := scan_first_unicode cmap n 0 0 false i (by omega) (Nat.zero_le _) (by omega) hkey
    (fun j _ hj => hfirst j hj)
  simpa using this

theorem scan_chooses_first_unicode_witness :
    parseCmap.scan cmapTwoUnicode 2 4 0 false = .ret (20, true) :=
  scan_chooses_first_unicode cmapTwoUnicode 2 0 (by decide) (by decide) (by decide)
    (fun j hj => by omega)

/-- C24 as stated fails: in `cmapTwoUnicode` both encoding records carry the Unicode
key, with offsets 20 and 36; the scan chooses 20, the offset of the first, and
parseCmap stores the (empty) segment list of the subtable at 20, not the segment A..Z of
the subtable at 36. -/
theorem scan_does_not_choose_last_unicode :
    encKey cmapTwoUnicode 0 = 0x00000003 ∧ encKey cmapTwoUnicode 1 = 0x00000003 ∧
    encOffset cmapTwoUnicode 0 = 20 ∧ encOffset cmapTwoUnicode 1 = 36 ∧
    parseCmap.scan cmapTwoUnicode 2 4 0 false = .ret (20, true) ∧
    parseCmap.scan cmapTwoUnicode 2 4 0 false ≠ .ret (36, true) ∧
    ({ Font.new with cmap := cmapTwoUnicode } : Font).parseCmap
      = .ret ({ Font.new with
          cmap := cmapTwoUnicode, cm := [],
          cmapIndexes := cmapSubtable ⟨0x41, 0x5A, 0, 0⟩ [] }, none) := by
  decide

/-- C25: when some encoding record (all in bounds) carries the Unicode key, the offset
chosen is that of a Unicode record, whatever Microsoft records stand before or after
it; when no record carries the Unicode key, an offset is chosen only from a record
with the Microsoft key. -/
theorem scan_prefers_unicode (cmap : List Byte) (n : Nat) (hlen : 4 + 8 * n ≤ cmap.length) :
    ((∃ i, i < n ∧ encKey cmap i = 0x00000003) →
      ∃ i, i < n ∧ encKey cmap i = 0x00000003 ∧
        parseCmap.scan cmap n 4 0 false = .ret ((encOffset cmap i : Int), true)) ∧
    ((∀ i, i < n → encKey cmap i ≠ 0x00000003) →
      ∀ o, parseCmap.scan cmap n 4 0 false = .ret (o, true) →
        ∃ j, j < n ∧ encKey cmap j = 0x00030001 ∧ o = (encOffset cmap j : Int)) := by
  constructor
  · rintro ⟨i, hi, hkey⟩
    classical
    have hex : ∃ i, i < n ∧ encKey cmap i = 0x00000003 := ⟨i, hi, hkey⟩
    let i1 := Nat.find hex
    have h1 : i1 < n ∧ encKey cmap i1 = 0x00000003 := Nat.find_spec hex
    have hmin : ∀ j, j < i1 → encKey cmap j ≠ 0x00000003 := by
      intro j hj hk
      exact Nat.find_min hex hj ⟨by omega, hk⟩
    refine ⟨i1, h1.1, h1.2, ?_⟩
    have := scan_first_unicode cmap n 0 0 false i1 (by omega) (Nat.zero_le _) (by omega)
      h1.2 (fun j _ hj => hmin j hj)
    simpa using this
  · intro hno o ho
    have hcases := scan_no_unicode cmap n 0 0 false (by omega)
      (fun j _ hj => hno j (by omega))
    simp only [Nat.mul_zero, Nat.add_zero, Nat.cast_ofNat, Nat.zero_add] at hcases
    rcases hcases with ⟨h, _⟩ | ⟨j, _, hj, hms, h⟩
    · rw [h] at ho
      cases ho
    · rw [h] at ho
      cases ho
      exact ⟨j, hj, hms, rfl⟩

theorem scan_prefers_unicode_witness :
    ∃ i, i < 2 ∧ encKey cmapMicrosoftThenUnicode i = 0x00000003 ∧
      parseCmap.scan cmapMicrosoftThenUnicode 2 4 0 false
        = .ret ((encOffset cmapMicrosoftThenUnicode i : Int), true) :=
  (scan_prefers_unicode cmapMicrosoftThenUnicode 2 (by decide)).1 ⟨1, by decide, by decide⟩

/-- C26: a cmap table of at least 4 + 8*nsubtab bytes (nsubtab the 16-bit value at byte
2, possibly 0) none of whose encoding records has the Unicode or the Microsoft key
makes parseCmap return UnsupportedError("cmap encoding"); a cmap table shorter than 4
bytes or shorter than 4 + 8*nsubtab makes it return FormatError("cmap too short"). -/
theorem parseCmap_no_encoding (f : Font) :
    (4 ≤ f.cmap.length → 4 + 8 * bigEndian16 f.cmap 2 ≤ f.cmap.length →
      (∀ i, i < bigEndian16 f.cmap 2 →
        encKey f.cmap i ≠ 0x00000003 ∧ encKey f.cmap i ≠ 0x00030001) →
      f.parseCmap = .ret (f, some (.UnsupportedError "cmap encoding"))) ∧
    (f.cmap.length < 4 ∨ (4 ≤ f.cmap.length ∧ f.cmap.length < 4 + 8 * bigEndian16 f.cmap 2) →
      f.parseCmap = .ret (f, some (.FormatError "cmap too short"))) := by
  constructor
  · intro h4 hlen hno
    unfold Font.parseCmap
    rw [if_neg (by omega)]
    simp only [bind_def, pure_def]
    rw [u16_at f.cmap 2 2 (by norm_num) (by omega), ret_bind]
    have hl : ¬ ((f.cmap.length : Int) < 8 * ((bigEndian16 f.cmap 2 : Nat) : Int) + 4) := by
      omega
    rw [if_neg hl]
    have hcases := scan_no_unicode f.cmap (bigEndian16 f.cmap 2) 0 0 false (by omega)
      (fun j _ hj => (hno j (by omega)).1)
    simp only [Nat.mul_zero, Nat.add_zero, Nat.cast_ofNat, Nat.zero_add] at hcases
    rcases hcases with ⟨h, _⟩ | ⟨j, _, hj, hms, _⟩
    · rw [h, ret_bind]
      rfl
    · exact absurd hms (hno j hj).2
  · intro h
    unfold Font.parseCmap
    rcases h with h | ⟨h4, h⟩
    · rw [if_pos h]
      rfl
    · rw [if_neg (by omega)]
      simp only [bind_def, pure_def]
      rw [u16_at f.cmap 2 2 (by norm_num) (by omega), ret_bind]
      have hl : (f.cmap.length : Int) < 8 * ((bigEndian16 f.cmap 2 : Nat) : Int) + 4 := by
        omega
      rw [if_pos hl]

theorem parseCmap_no_encoding_witness :
    ({ Font.new with cmap := cmapMacOnly } : Font).parseCmap
      = .ret ({ Font.new with cmap := cmapMacOnly }, some (.UnsupportedError "cmap encoding")) ∧
    ({ Font.new with cmap := be16 0 ++ be16 1 } : Font).parseCmap
      = .ret ({ Font.new with cmap := be16 0 ++ be16 1 }, some (.FormatError "cmap too short")) :=
  ⟨(parseCmap_no_encoding { Font.new with cmap := cmapMacOnly }).1 (by decide) (by decide)
    (fun i hi => by
      have hi0 : i = 0 := by
        have : bigEndian16 ({ Font.new with cmap := cmapMacOnly } : Font).cmap 2 = 1 := by
          decide
        omega
      subst hi0
      decide),
   (parseCmap_no_encoding { Font.new with cmap := be16 0 ++ be16 1 }).2
    (Or.inr (by decide))⟩

theorem fmtD_nat (n : Nat) : fmtD (n : Int) = toString n := rfl

/-- C28 (as amended): when the hhea table is 36 bytes long and the hmtx length differs
from 4*nHMetric + 2*(nGlyph - nHMetric), parseHhea returns the FormatError
"bad hmtx length: N" with N the actual hmtx length in decimal, and nothing else in the
message; Parse returns that error when head, maxp, cmap and kern have parsed without
error before. -/
theorem parseHhea_hmtx_message (f : Font) (h36 : f.hhea.length = 36)
    (hne : 4 * (bigEndian16 f.hhea 34 : Int) + 2 * (f.nGlyph - (bigEndian16 f.hhea 34 : Int))
      ≠ (f.hmtx.length : Int)) :
    (∃ f', f.parseHhea = .ret (f', some (.FormatError
      ("bad hmtx length: " ++ toString f.hmtx.length)))) ∧
    (∀ ttf f0 f1 f2 f3, Parse ttf = parse.check f0 →
      f0.parseHead = .ret (f1, none) → f1.parseMaxp = .ret (f2, none) →
      f2.parseCmap = .ret (f3, none) → f3.parseKern = .ret (f, none) →
      Parse ttf = .ret (none, some (.FormatError
        ("bad hmtx length: " ++ toString f.hmtx.length)))) := by
  have hh : f.parseHhea = .ret ({ f with nHMetric := (bigEndian16 f.hhea 34 : Nat) },
      some (.FormatError ("bad hmtx length: " ++ toString f.hmtx.length))) := by
    rw [parseHhea_eq, if_neg (by omega), if_pos hne, fmtD_nat]
  refine ⟨⟨_, hh⟩, ?_⟩
  intro ttf f0 f1 f2 f3 hP c1 c2 c3 c4
  rw [hP]
  unfold parse.check
  simp only [bind_def, pure_def, c1, c2, c3, c4, ret_bind, hh]

theorem parseHhea_hmtx_message_witness :
    ∃ f', ({ fontHmtxMismatchDir with nGlyph := 1 } : Font).parseHhea
      = .ret (f', some (.FormatError ("bad hmtx length: " ++ toString 4))) :=
  (parseHhea_hmtx_message { fontHmtxMismatchDir with nGlyph := 1 } (by decide) (by decide)).1

/-- C28 as stated fails: on `ttfHmtxMismatch` (hhea 36 bytes, nHMetric 3, nGlyph 1,
hmtx 4 bytes where the formula gives 4*3 + 2*(1 - 3) = 8) Parse returns the FormatError
"bad hmtx length: 4", in which the expected length 8 does not occur. -/
theorem hmtx_message_lacks_expected_length :
    Parse ttfHmtxMismatch = .ret (none, some (.FormatError "bad hmtx length: 4")) ∧
    (4 * 3 + 2 * (1 - 3) : Int) = 8 ∧
    ¬ ((toString 8).data <:+: "bad hmtx length: 4".data) := by
  decide

theorem byteAt_ret_inv (b : List Byte) (p : Int) (v : Nat) (h : byteAt b p = .ret v) :
    0 ≤ p ∧ p < (b.length : Int) := by
  unfold byteAt at h
  split at h
  · cases h
  · rename_i hp
    split at h
    · rename_i x hx
      have := (List.getElem?_eq_some_iff.mp hx).1
      omega
    · cases h

theorem u16_ret_inv (b : List Byte) (p : Int) (v : Nat) (h : u16 b p = .ret v) :
    0 ≤ p ∧ p + 2 ≤ (b.length : Int) ∧ v = bigEndian16 b p.toNat := by
  have h' := h
  unfold u16 at h'
  simp only [bind_def, pure_def] at h'
  obtain ⟨b0, h0, h1⟩ := Exec.bind_eq_ret h'
  obtain ⟨b1, h2, _⟩ := Exec.bind_eq_ret h1
  have r0 := byteAt_ret_inv b p b0 h0
  have r1 := byteAt_ret_inv b (p + 1) b1 h2
  have hp0 : 0 ≤ p := r0.1
  have hp2 : p + 2 ≤ (b.length : Int) := by omega
  refine ⟨hp0, hp2, ?_⟩
  rw [u16_of_le b p hp0 hp2] at h
  cases h
  rfl

theorem slice_ret_inv (b : List Byte) (lo hi : Int) (t : List Byte)
    (h : slice b lo hi = .ret t) :
    0 ≤ lo ∧ lo ≤ hi ∧ hi ≤ (b.length : Int) ∧ t = (b.drop lo.toNat).take (hi - lo).toNat := by
  unfold slice at h
  split at h
  · rename_i hc
    cases h
    exact ⟨hc.1, hc.2.1, hc.2.2, rfl⟩
  · cases h

theorem sliceFrom_ret_inv (b : List Byte) (lo : Int) (t : List Byte)
    (h : sliceFrom b lo = .ret t) :
    0 ≤ lo ∧ lo ≤ (b.length : Int) ∧ t = b.drop lo.toNat := by
  obtain ⟨h0, h1, _, ht⟩ := slice_ret_inv b lo _ t h
  refine ⟨h0, h1, ?_⟩
  rw [ht]
  apply List.take_of_length_le
  rw [List.length_drop]
  omega

/-- One segment loop of `parseCmap`: it advances by 2 per iteration, rewrites the
entries `i .. i+k-1` through `upd` with the 16-bit values read in sequence, and leaves
the other entries alone. -/
theorem fill_spec (cmap : List Byte) (upd : cm → Nat → cm) :
    ∀ (k i : Nat) (cms : List cm) (offset : Int) (cms' : List cm) (offset' : Int),
      parseCmap.fill cmap upd k i cms offset = .ret (cms', offset') →
      offset' = offset + 2 * (k : Int) ∧ cms'.length = cms.length ∧
      (0 < k → 0 ≤ offset ∧ offset + 2 * (k : Int) ≤ (cmap.length : Int)) ∧
      (∀ m, m < i ∨ i + k ≤ m → cms'[m]? = cms[m]?) ∧
      (∀ m s, i ≤ m → m < i + k → cms[m]? = some s →
        cms'[m]? = some (upd s (bigEndian16 cmap (offset.toNat + 2 * (m - i))))) := by
  intro k
  induction k with
  | zero =>
    intro i cms offset cms' offset' h
    rw [parseCmap.fill] at h
    cases h
    refine ⟨by simp, rfl, fun h => absurd h (Nat.lt_irrefl 0), fun _ _ => rfl, ?_⟩
    intro m s h1 h2
    omega
  | succ k ih =>
    intro i cms offset cms' offset' h
    rw [parseCmap.fill] at h
    simp only [bind_def, pure_def] at h
    obtain ⟨v, hv, h⟩ := Exec.bind_eq_ret h
    obtain ⟨hv0, hv2, hval⟩ := u16_ret_inv cmap offset v hv
    split at h
    · rename_i s0 hs0
      obtain ⟨e1, e2, e3, e4, e5⟩ := ih (i + 1) (cms.set i (upd s0 v)) (offset + 2) cms' offset' h
      have hi : i < cms.length := (List.getElem?_eq_some_iff.mp hs0).1
      refine ⟨by rw [e1]; push_cast; ring, by rw [e2, List.length_set], ?_, ?_, ?_⟩
      · intro _
        refine ⟨hv0, ?_⟩
        by_cases hk : 0 < k
        · have := (e3 hk).2
          push_cast
          omega
        · have hk0 : k = 0 := by omega
          subst hk0
          simpa using hv2
      · intro m hm
        have hne : i ≠ m := by omega
        rw [e4 m (by omega), List.getElem?_set_ne hne]
      · intro m s h1 h2 hs
        by_cases hmi : m = i
        · subst hmi
          rw [e4 m (Or.inl (by omega)), List.getElem?_set_self hi]
          rw [hs] at hs0
          cases hs0
          rw [hval]
          simp
        · have hne : i ≠ m := fun h => hmi h.symm
          have hs' : (cms.set i (upd s0 v))[m]? = some s := by
            rw [List.getElem?_set_ne hne]
            exact hs
          rw [e5 m s (by omega) (by omega) hs']
          have e : (offset + 2).toNat + 2 * (m - (i + 1)) = offset.toNat + 2 * (m - i) := by
            omega
          rw [e]
    · cases h

theorem ret_font_inj (g g' : Font) (e e' : Option Error)
    (h : Exec.ret (g, e) = Exec.ret (g', e')) : g = g' := by
  cases h
  rfl

/-- The four segment loops and the final slice of `parseCmap`, read back. -/
theorem cmap_assemble (cmap : List Byte) (s x2 : Nat) (cms1 cms2 cms3 cms4 : List cm)
    (o1 o2 o3 o4 : Int) (rest : List Byte)
    (hx2 : u16 cmap ((s : Int) + 6) = .ret x2) (heven : ¬ x2 % 2 = 1)
    (hf1 : parseCmap.fill cmap (fun s v => { s with end_ := v }) (x2 / 2) 0
      (List.replicate (x2 / 2) (⟨0, 0, 0, 0⟩ : cm)) ((s : Int) + 14) = .ret (cms1, o1))
    (hf2 : parseCmap.fill cmap (fun s v => { s with start := v }) (x2 / 2) 0 cms1 (o1 + 2)
      = .ret (cms2, o2))
    (hf3 : parseCmap.fill cmap (fun s v => { s with delta := v }) (x2 / 2) 0 cms2 o2
      = .ret (cms3, o3))
    (hf4 : parseCmap.fill cmap (fun s v => { s with offset := v }) (x2 / 2) 0 cms3 o3
      = .ret (cms4, o4))
    (hrest : sliceFrom cmap o4 = .ret rest) :
    s + 8 ≤ cmap.length ∧
    bigEndian16 cmap (s + 6) = 2 * (x2 / 2) ∧ cms4.length = x2 / 2 ∧
    (∀ i, i < x2 / 2 → cms4[i]? = some
      ⟨bigEndian16 cmap (s + 16 + 2 * (x2 / 2) + 2 * i),
       bigEndian16 cmap (s + 14 + 2 * i),
       bigEndian16 cmap (s + 16 + 4 * (x2 / 2) + 2 * i),
       bigEndian16 cmap (s + 16 + 6 * (x2 / 2) + 2 * i)⟩) ∧
    s + 16 + 8 * (x2 / 2) ≤ cmap.length ∧
    rest = cmap.drop (s + 16 + 8 * (x2 / 2)) := by
  obtain ⟨-, hx2len, vx2⟩ := u16_ret_inv cmap _ x2 hx2
  have e6 : ((s : Int) + 6).toNat = s + 6 := by omega
  rw [e6] at vx2
  have hlen0 : (List.replicate (x2 / 2) (⟨0, 0, 0, 0⟩ : cm)).length = x2 / 2 :=
    List.length_replicate _ _
  obtain ⟨a1, a2, -, -, a5⟩ := fill_spec cmap _ _ _ _ _ _ _ hf1
  obtain ⟨b1, b2, -, -, b5⟩ := fill_spec cmap _ _ _ _ _ _ _ hf2
  obtain ⟨c1, c2, -, -, c5⟩ := fill_spec cmap _ _ _ _ _ _ _ hf3
  obtain ⟨d1, d2, -, -, d5⟩ := fill_spec cmap _ _ _ _ _ _ _ hf4
  obtain ⟨r0, r1, r2⟩ := sliceFrom_ret_inv cmap _ rest hrest
  have hx : x2 = 2 * (x2 / 2) := by omega
  refine ⟨by omega, ?_, ?_, ?_, by omega, ?_⟩
  · rw [← vx2]
    exact hx
  · rw [d2, c2, b2, a2, hlen0]
  · intro i hi
    have g0 : (List.replicate (x2 / 2) (⟨0, 0, 0, 0⟩ : cm))[i]? = some ⟨0, 0, 0, 0⟩ := by
      rw [List.getElem?_replicate]
      simp [hi]
    have g1 := a5 i _ (Nat.zero_le _) (by omega) g0
    have g2 := b5 i _ (Nat.zero_le _) (by omega) g1
    have g3 := c5 i _ (Nat.zero_le _) (by omega) g2
    have g4 := d5 i _ (Nat.zero_le _) (by omega) g3
    rw [g4]
    have p1 : ((s : Int) + 14).toNat + 2 * (i - 0) = s + 14 + 2 * i := by omega
    have p2 : (o1 + 2).toNat + 2 * (i - 0) = s + 16 + 2 * (x2 / 2) + 2 * i := by omega
    have p3 : o2.toNat + 2 * (i - 0) = s + 16 + 4 * (x2 / 2) + 2 * i := by omega
    have p4 : o3.toNat + 2 * (i - 0) = s + 16 + 6 * (x2 / 2) + 2 * i := by omega
    simp only [p1, p2, p3, p4]
  · rw [r2]
    congr 1
    omega

/-- A successful `parseCmap`, read back: `s` is the subtable offset chosen by the scan,
the four arrays of `segCount` 16-bit values follow the 14-byte subtable header (with a
2-byte pad after the first), and the rest of the table is the glyph index array. -/
theorem parseCmap_ok (f f' : Font) (h : f.parseCmap = .ret (f', none)) :
    ∃ s segCount : Nat,
      parseCmap.scan f.cmap (bigEndian16 f.cmap 2) 4 0 false = .ret ((s : Int), true) ∧
      0 < s ∧ s + 8 ≤ f.cmap.length ∧
      bigEndian16 f.cmap s = 4 ∧ bigEndian16 f.cmap (s + 4) = 0 ∧
      bigEndian16 f.cmap (s + 6) = 2 * segCount ∧
      f'.cm.length = segCount ∧
      (∀ i, i < segCount → f'.cm[i]? = some
        ⟨bigEndian16 f.cmap (s + 16 + 2 * segCount + 2 * i),
         bigEndian16 f.cmap (s + 14 + 2 * i),
         bigEndian16 f.cmap (s + 16 + 4 * segCount + 2 * i),
         bigEndian16 f.cmap (s + 16 + 6 * segCount + 2 * i)⟩) ∧
      s + 16 + 8 * segCount ≤ f.cmap.length ∧
      f'.cmapIndexes = f.cmap.drop (s + 16 + 8 * segCount) := by
  unfold Font.parseCmap at h
  by_cases c1 : f.cmap.length < 4
  · rw [if_pos c1] at h
    cases h
  rw [if_neg c1] at h
  simp only [bind_def, pure_def] at h
  obtain ⟨nsubtab, hns, g1⟩ := Exec.bind_eq_ret h
  clear h
  obtain ⟨-, -, hnsv⟩ := u16_ret_inv f.cmap 2 nsubtab hns
  have hnsv' : nsubtab = bigEndian16 f.cmap 2 := by simpa using hnsv
  subst hnsv'
  by_cases c2 : (f.cmap.length : Int) < 8 * ((bigEndian16 f.cmap 2 : Nat) : Int) + 4
  · rw [if_pos c2] at g1
    cases g1
  rw [if_neg c2] at g1
  obtain ⟨⟨offset, found⟩, hscan, g2⟩ := Exec.bind_eq_ret g1
  clear g1
  dsimp only at g2
  by_cases hfound : (!found) = true
  · rw [if_pos hfound] at g2
    cases g2
  rw [if_neg hfound] at g2
  by_cases hoff : offset ≤ 0 ∨ offset > (f.cmap.length : Int)
  · rw [if_pos hoff] at g2
    cases g2
  rw [if_neg hoff] at g2
  obtain ⟨fmt, hfmt, g3⟩ := Exec.bind_eq_ret g2
  clear g2
  by_cases hfmt4 : fmt ≠ cmapFormat4
  · rw [if_pos hfmt4] at g3
    cases g3
  rw [if_neg hfmt4] at g3
  obtain ⟨lang, hlang, g4⟩ := Exec.bind_eq_ret g3
  clear g3
  by_cases hlang0 : lang ≠ languageIndependent
  · rw [if_pos hlang0] at g4
    cases g4
  rw [if_neg hlang0] at g4
  obtain ⟨x2, hx2, g5⟩ := Exec.bind_eq_ret g4
  clear g4
  by_cases heven : x2 % 2 = 1
  · rw [if_pos heven] at g5
    cases g5
  rw [if_neg heven] at g5
  obtain ⟨⟨cms1, o1⟩, hf1, g6⟩ := Exec.bind_eq_ret g5
  clear g5
  obtain ⟨⟨cms2, o2⟩, hf2, g7⟩ := Exec.bind_eq_ret g6
  clear g6
  obtain ⟨⟨cms3, o3⟩, hf3, g8⟩ := Exec.bind_eq_ret g7
  clear g7
  obtain ⟨⟨cms4, o4⟩, hf4, g9⟩ := Exec.bind_eq_ret g8
  clear g8
  obtain ⟨rest, hrest, hfin⟩ := Exec.bind_eq_ret g9
  clear g9
  dsimp only at hf1 hf2 hf3 hf4 hrest hfin
  have hoff0 : 0 < offset := by omega
  obtain ⟨s, rfl⟩ := Int.eq_ofNat_of_zero_le (le_of_lt hoff0)
  obtain ⟨-, -, vfmt⟩ := u16_ret_inv f.cmap _ fmt hfmt
  obtain ⟨-, -, vlang⟩ := u16_ret_inv f.cmap _ lang hlang
  have e4 : ((s : Int) + 4).toNat = s + 4 := by omega
  rw [Int.toNat_ofNat] at vfmt
  rw [e4] at vlang
  have hfound' : found = true := by
    cases found
    · exact absurd rfl hfound
    · rfl
  subst hfound'
  have hf' := ret_font_inj _ _ _ _ hfin
  have hcm : f'.cm = cms4 := by rw [← hf']
  have hidx : f'.cmapIndexes = rest := by rw [← hf']
  obtain ⟨k1, k2, k3, k4, k5, k6⟩ :=
    cmap_assemble f.cmap s x2 cms1 cms2 cms3 cms4 o1 o2 o3 o4 rest hx2 heven hf1 hf2 hf3 hf4
      hrest
  refine ⟨s, x2 / 2, hscan, by omega, k1, ?_, ?_, k2, ?_, ?_, k5, ?_⟩
  · rw [← vfmt]
    by_contra hc
    exact hfmt4 hc
  · rw [← vlang]
    by_contra hc
    exact hlang0 hc
  · rw [hcm]
    exact k3
  · rw [hcm]
    exact k4
  · rw [hidx]
    exact k6

/-- C30: after a successful parseCmap, with s the subtable offset resolved by the
encoding scan and segCount = segCountX2/2 (segCountX2 the 16-bit value at s + 6), the
stored segment sequence has exactly segCount entries, in file order, and segment i
has end = u16 at s+14+2i, start = u16 at s+16+2*segCount+2i, delta = u16 at
s+16+4*segCount+2i and offset = u16 at s+16+6*segCount+2i; the glyph index array is
the cmap bytes from s+16+8*segCount to the end of the table. -/
theorem parseCmap_segments (f f' : Font) (h : f.parseCmap = .ret (f', none)) :
    ∃ s segCount : Nat,
      parseCmap.scan f.cmap (bigEndian16 f.cmap 2) 4 0 false = .ret ((s : Int), true) ∧
      segCount = bigEndian16 f.cmap (s + 6) / 2 ∧
      f'.cm.length = segCount ∧
      (∀ i, i < segCount → f'.cm[i]? = some
        { end_ := bigEndian16 f.cmap (s + 14 + 2 * i),
          start := bigEndian16 f.cmap (s + 16 + 2 * segCount + 2 * i),
          delta := bigEndian16 f.cmap (s + 16 + 4 * segCount + 2 * i),
          offset := bigEndian16 f.cmap (s + 16 + 6 * segCount + 2 * i) }) ∧
      s + 16 + 8 * segCount ≤ f.cmap.length ∧
      f'.cmapIndexes = f.cmap.drop (s + 16 + 8 * segCount) := by
  obtain ⟨s, segCount, h1, _, _, _, _, h6, h7, h8, h9, h10⟩ := parseCmap_ok f f' h
  exact ⟨s, segCount, h1, by omega, h7, h8, h9, h10⟩

theorem parseCmap_segments_witness :
    ∃ s segCount : Nat,
      parseCmap.scan cmapTwoSegments (bigEndian16 cmapTwoSegments 2) 4 0 false
        = .ret ((s : Int), true) ∧
      segCount = bigEndian16 cmapTwoSegments (s + 6) / 2 ∧
      fontTwoSegments.cm.length = segCount ∧
      (∀ i, i < segCount → fontTwoSegments.cm[i]? = some
        { end_ := bigEndian16 cmapTwoSegments (s + 14 + 2 * i),
          start := bigEndian16 cmapTwoSegments (s + 16 + 2 * segCount + 2 * i),
          delta := bigEndian16 cmapTwoSegments (s + 16 + 4 * segCount + 2 * i),
          offset := bigEndian16 cmapTwoSegments (s + 16 + 6 * segCount + 2 * i) }) ∧
      s + 16 + 8 * segCount ≤ cmapTwoSegments.length ∧
      fontTwoSegments.cmapIndexes = cmapTwoSegments.drop (s + 16 + 8 * segCount) :=
  parseCmap_segments { Font.new with cmap := cmapTwoSegments } fontTwoSegments (by decide)

theorem sameOutside_get (a b : List Byte) (lo hi : Nat) (h : sameOutside a b lo hi)
    (p : Nat) (hp : p < lo ∨ hi ≤ p) : a[p]? = b[p]? := by
  obtain ⟨_, ht, hd⟩ := h
  rcases hp with hp | hp
  · rw [← List.getElem?_take_of_lt hp, ht, List.getElem?_take_of_lt hp]
  · have e : p = hi + (p - hi) := by omega
    rw [e, ← List.getElem?_drop, hd, List.getElem?_drop]

theorem range_congr (a b : List Byte) (lo n : Nat)
    (h : ∀ p, lo ≤ p → p < lo + n → a[p]? = b[p]?) :
    (a.drop lo).take n = (b.drop lo).take n := by
  apply List.ext_getElem?
  intro m
  rw [List.getElem?_take, List.getElem?_take]
  split
  · rw [List.getElem?_drop, List.getElem?_drop]
    exact h _ (by omega) (by omega)
  · rfl

theorem bigEndian16_congr (a b : List Byte) (p : Nat) (h0 : a[p]? = b[p]?)
    (h1 : a[p + 1]? = b[p + 1]?) : bigEndian16 a p = bigEndian16 b p := by
  unfold bigEndian16
  rw [List.getD_eq_getElem?_getD, List.getD_eq_getElem?_getD, List.getD_eq_getElem?_getD,
    List.getD_eq_getElem?_getD, h0, h1]

theorem bigEndian32_congr (a b : List Byte) (p : Nat)
    (h : ∀ q, p ≤ q → q < p + 4 → a[q]? = b[q]?) : bigEndian32 a p = bigEndian32 b p := by
  unfold bigEndian32
  rw [bigEndian16_congr a b p (h _ (by omega) (by omega)) (h _ (by omega) (by omega)),
    bigEndian16_congr a b (p + 2) (h _ (by omega) (by omega)) (h _ (by omega) (by omega))]

theorem bigEndian32_range (a : List Byte) (q n p : Nat) (hp : p + 4 ≤ n) :
    bigEndian32 ((a.drop q).take n) p = bigEndian32 a (q + p) := by
  have key : ∀ r, r < n → ((a.drop q).take n)[r]? = a[q + r]? := by
    intro r hr
    rw [List.getElem?_take_of_lt hr, List.getElem?_drop]
  unfold bigEndian32 bigEndian16
  simp only [List.getD_eq_getElem?_getD]
  rw [key p (by omega), key (p + 1) (by omega), key (p + 2) (by omega),
    key (p + 2 + 1) (by omega)]
  rfl

theorem bind_congr {α β : Type} (m : Exec α) (k k' : α → Exec β)
    (h : ∀ a, m = .ret a → k a = k' a) : m.bind k = m.bind k' := by
  cases m with
  | ret a => exact h a rfl
  | panic => rfl
  | diverge => rfl

theorem slice_congr (a b : List Byte) (lo hi : Nat) (hlen : a.length = b.length)
    (h : ∀ p, lo ≤ p → p < hi → a[p]? = b[p]?) :
    slice a (lo : Int) (hi : Int) = slice b (lo : Int) (hi : Int) := by
  unfold slice
  rw [hlen]
  split
  · rename_i hc
    have e1 : ((hi : Int) - (lo : Int)).toNat = hi - lo := by omega
    rw [Int.toNat_ofNat, e1, range_congr a b lo (hi - lo) (fun p h1 h2 => h p h1 (by omega))]
  · rfl

theorem branch_congr {β : Type} (ttf ttf' : List Byte) (x8 x16 : Int)
    (G G' : List Byte × Option Error → Exec β)
    (hs : slice ttf x8 x16 = slice ttf' x8 x16)
    (hr : ∀ ol, slice ttf' x8 x16 = .ret ol → readTable ttf ol = readTable ttf' ol)
    (hG : ∀ d, G d = G' d) :
    (slice ttf x8 x16).bind (fun ol => (readTable ttf ol).bind G)
      = (slice ttf' x8 x16).bind (fun ol => (readTable ttf' ol).bind G') := by
  rw [hs]
  apply bind_congr
  intro ol hol
  rw [hr ol hol]
  apply bind_congr
  intro d _
  exact hG d

/-- The directory loop does the same on two buffers that differ only in the offset
and length fields of entry `j`, when the tag of entry `j` is not recognised and no
table located by a recognised entry contains those 8 bytes. -/
theorem tables_congr (ttf ttf' : List Byte) (j n : Nat)
    (hsame : sameOutside ttf ttf' (12 + 16 * j + 8) (12 + 16 * j + 16))
    (hdir : 16 * n + 12 ≤ ttf.length)
    (hunrec : entryTag ttf j ∉ recognizedTags)
    (hnoalias : ∀ i, i < n → entryTag ttf i ∈ recognizedTags →
      entryOffset ttf i + entryLength ttf i ≤ 12 + 16 * j + 8 ∨
      12 + 16 * j + 16 ≤ entryOffset ttf i ∨
      ttf.length < entryOffset ttf i + entryLength ttf i) :
    ∀ (k i : Nat) (f : Font), i + k ≤ n →
      parse.tables ttf k (i : Int) f = parse.tables ttf' k (i : Int) f := by
  have hlen : ttf.length = ttf'.length := hsame.1
  have hget := sameOutside_get ttf ttf' _ _ hsame
  intro k
  induction k with
  | zero => intro i f _; rfl
  | succ k ih =>
    intro i f hik
    have ex : (16 * (i : Int) + 12) = ((12 + 16 * i : Nat) : Int) := by push_cast; ring
    have e4 : (((12 + 16 * i : Nat) : Int) + 4) = ((12 + 16 * i + 4 : Nat) : Int) := by
      push_cast; ring
    have e8 : (((12 + 16 * i : Nat) : Int) + 8) = ((12 + 16 * i + 8 : Nat) : Int) := by
      push_cast; ring
    have e16 : (((12 + 16 * i : Nat) : Int) + 16) = ((12 + 16 * i + 16 : Nat) : Int) := by
      push_cast; ring
    have e1 : ((i : Int) + 1) = ((i + 1 : Nat) : Int) := by push_cast; rfl
    conv_lhs => rw [parse.tables]
    conv_rhs => rw [parse.tables]
    simp only [bind_def, pure_def, ex, e4, e8, e16, e1]
    have htag : slice ttf ((12 + 16 * i : Nat) : Int) ((12 + 16 * i + 4 : Nat) : Int)
        = slice ttf' ((12 + 16 * i : Nat) : Int) ((12 + 16 * i + 4 : Nat) : Int) :=
      slice_congr ttf ttf' _ _ hlen (fun p h1 h2 => hget p (by omega))
    have hC : ∀ (g : Font) (e : Option Error),
        ((Exec.ret (g, e)).bind fun y =>
          match y.2 with
          | some e => Exec.ret (y.1, some e)
          | none => parse.tables ttf k ((i + 1 : Nat) : Int) y.1)
        = ((Exec.ret (g, e)).bind fun y =>
          match y.2 with
          | some e => Exec.ret (y.1, some e)
          | none => parse.tables ttf' k ((i + 1 : Nat) : Int) y.1) := by
      intro g e
      cases e with
      | none => exact ih (i + 1) g (by omega)
      | some e => rfl
    rw [htag]
    apply bind_congr
    intro t ht
    have ht' : t = entryTag ttf i := by
      rw [slice_of_le ttf' _ _ (by omega) (by omega)] at ht
      cases ht
      unfold entryTag
      rw [Nat.add_sub_cancel_left]
      exact (range_congr ttf ttf' _ _ (fun p h1 h2 => hget p (by omega))).symm
    have key : ∀ {β : Type} (G G' : List Byte × Option Error → Exec β),
        (∀ d, G d = G' d) → t ∈ recognizedTags →
        (slice ttf ((12 + 16 * i + 8 : Nat) : Int) ((12 + 16 * i + 16 : Nat) : Int)).bind
            (fun ol => (readTable ttf ol).bind G)
          = (slice ttf' ((12 + 16 * i + 8 : Nat) : Int) ((12 + 16 * i + 16 : Nat) : Int)).bind
            (fun ol => (readTable ttf' ol).bind G') := by
      intro β G G' hG hrec
      have hrec' : entryTag ttf i ∈ recognizedTags := ht' ▸ hrec
      have hij : i ≠ j := by
        rintro rfl
        exact hunrec hrec'
      refine branch_congr ttf ttf' _ _ G G'
        (slice_congr ttf ttf' _ _ hlen (fun p h1 h2 => hget p (by omega))) ?_ hG
      intro ol hol
      rw [slice_of_le ttf' _ _ (by omega) (by omega)] at hol
      cases hol
      have e8' : 12 + 16 * i + 16 - (12 + 16 * i + 8) = 8 := by omega
      rw [e8', ← range_congr ttf ttf' (12 + 16 * i + 8) 8 (fun p h1 h2 => hget p (by omega))]
      have hol8 : 8 ≤ ((ttf.drop (12 + 16 * i + 8)).take 8).length := by
        rw [List.length_take, List.length_drop]
        omega
      have hoff : bigEndian32 ((ttf.drop (12 + 16 * i + 8)).take 8) 0 = entryOffset ttf i :=
        bigEndian32_range ttf _ 8 0 (by omega)
      have hln : bigEndian32 ((ttf.drop (12 + 16 * i + 8)).take 8) 4 = entryLength ttf i := by
        rw [bigEndian32_range ttf _ 8 4 (by omega)]
        rfl
      rw [readTable_eq ttf _ hol8, readTable_eq ttf' _ hol8, hoff, hln, ← hlen]
      by_cases hfit : entryOffset ttf i + entryLength ttf i ≤ ttf.length
      · rw [if_pos hfit, if_pos hfit]
        have hr := hnoalias i (by omega) hrec'
        rw [range_congr ttf ttf' (entryOffset ttf i) (entryLength ttf i)
          (fun p h1 h2 => hget p (by omega))]
      · rw [if_neg hfit, if_neg hfit]
    by_cases h1 : t = tag "cmap"
    · rw [if_pos h1, if_pos h1]
      exact key _ _ (fun d => hC _ _) (by rw [h1]; decide)
    rw [if_neg h1, if_neg h1]
    by_cases h2 : t = tag "glyf"
    · rw [if_pos h2, if_pos h2]
      exact key _ _ (fun d => hC _ _) (by rw [h2]; decide)
    rw [if_neg h2, if_neg h2]
    by_cases h3 : t = tag "head"
    · rw [if_pos h3, if_pos h3]
      exact key _ _ (fun d => hC _ _) (by rw [h3]; decide)
    rw [if_neg h3, if_neg h3]
    by_cases h4 : t = tag "hhea"
    · rw [if_pos h4, if_pos h4]
      exact key _ _ (fun d => hC _ _) (by rw [h4]; decide)
    rw [if_neg h4, if_neg h4]
    by_cases h5 : t = tag "hmtx"
    · rw [if_pos h5, if_pos h5]
      exact key _ _ (fun d => hC _ _) (by rw [h5]; decide)
    rw [if_neg h5, if_neg h5]
    by_cases h6 : t = tag "kern"
    · rw [if_pos h6, if_pos h6]
      exact key _ _ (fun d => hC _ _) (by rw [h6]; decide)
    rw [if_neg h6, if_neg h6]
    by_cases h7 : t = tag "loca"
    · rw [if_pos h7, if_pos h7]
      exact key _ _ (fun d => hC _ _) (by rw [h7]; decide)
    rw [if_neg h7, if_neg h7]
    by_cases h8 : t = tag "maxp"
    · rw [if_pos h8, if_pos h8]
      exact key _ _ (fun d => hC _ _) (by rw [h8]; decide)
    rw [if_neg h8, if_neg h8]
    exact hC f none

/-- `Parse` on a plain sfnt buffer with room for its directory: the directory loop,
then the sub-parsers. -/
theorem Parse_plain_eq (ttf : List Byte) (hlen : 12 ≤ ttf.length)
    (hmagic : bigEndian32 ttf 0 = 0x00010000)
    (hdir : 16 * bigEndian16 ttf 4 + 12 ≤ ttf.length) :
    Parse ttf = (parse.tables ttf (bigEndian16 ttf 4) ((0 : Nat) : Int) Font.new).bind
      (fun d => match d.2 with
        | some e => .ret (none, some e)
        | none => parse.check d.1) := by
  unfold Parse parse parseFuel
  have h1 : ¬ ((ttf.length : Int) - 0 < 12) := by omega
  have h2 : ¬ ((ttf.length : Int) < 16 * ((bigEndian16 ttf 4 : Nat) : Int) + 12) := by omega
  simp only [h1, if_false, bind_def, pure_def]
  rw [u32_at ttf 0 0 (by norm_num) (by omega), ret_bind, hmagic]
  simp only [if_true]
  rw [u16_at ttf (0 + 4) 4 (by norm_num) (by omega), ret_bind]
  simp only [h2, if_false, Int.toNat_ofNat]
  rfl

/-- C27 (as amended): on a plain sfnt buffer, the outcome of Parse (the error or the
Font, and so every query result) is the same for all contents of the offset and length
fields of a directory entry whose tag is not one of cmap, glyf, head, hhea, hmtx, kern,
loca, maxp, an out-of-range offset or length included, provided that no table located
by a recognised entry contains those 8 bytes (each recognised entry's range
[offset, offset+length) ends before them, starts after them, or exceeds the
buffer). -/
theorem Parse_unrecognized_entry_fields (ttf ttf' : List Byte) (j : Nat)
    (hsame : sameOutside ttf ttf' (12 + 16 * j + 8) (12 + 16 * j + 16))
    (hlen : 12 ≤ ttf.length) (hmagic : bigEndian32 ttf 0 = 0x00010000)
    (_hj : j < bigEndian16 ttf 4)
    (hdir : 16 * bigEndian16 ttf 4 + 12 ≤ ttf.length)
    (hunrec : entryTag ttf j ∉ recognizedTags)
    (hnoalias : ∀ i, i < bigEndian16 ttf 4 → entryTag ttf i ∈ recognizedTags →
      entryOffset ttf i + entryLength ttf i ≤ 12 + 16 * j + 8 ∨
      12 + 16 * j + 16 ≤ entryOffset ttf i ∨
      ttf.length < entryOffset ttf i + entryLength ttf i) :
    Parse ttf = Parse ttf' := by
  have hl : ttf.length = ttf'.length := hsame.1
  have hget := sameOutside_get ttf ttf' _ _ hsame
  have hm : bigEndian32 ttf' 0 = bigEndian32 ttf 0 :=
    (bigEndian32_congr ttf ttf' 0 (fun q _ h2 => hget q (by omega))).symm
  have hn : bigEndian16 ttf' 4 = bigEndian16 ttf 4 :=
    (bigEndian16_congr ttf ttf' 4 (hget 4 (by omega)) (hget 5 (by omega))).symm
  rw [Parse_plain_eq ttf hlen hmagic hdir,
    Parse_plain_eq ttf' (by omega) (by rw [hm]; exact hmagic) (by rw [hn]; omega), hn,
    tables_congr ttf ttf' j (bigEndian16 ttf 4) hsame hdir hunrec hnoalias
      (bigEndian16 ttf 4) 0 Font.new (by omega)]

theorem Parse_unrecognized_entry_fields_witness :
    Parse (ttfExtraEntry (be32 108 ++ be32 0))
      = Parse (ttfExtraEntry (be32 0xFFFFFFFF ++ be32 0xFFFFFFFF)) :=
  Parse_unrecognized_entry_fields (ttfExtraEntry (be32 108 ++ be32 0))
    (ttfExtraEntry (be32 0xFFFFFFFF ++ be32 0xFFFFFFFF)) 0
    (by unfold sameOutside; decide) (by decide) (by decide) (by decide) (by decide)
    (by decide)
    (by
      intro i hi hrec
      have h6 : bigEndian16 (ttfExtraEntry (be32 108 ++ be32 0)) 4 = 6 := by decide
      have hi' : i = 0 ∨ i = 1 ∨ i = 2 ∨ i = 3 ∨ i = 4 ∨ i = 5 := by omega
      rcases hi' with rfl | rfl | rfl | rfl | rfl | rfl
      · exact absurd hrec (by decide)
      · decide
      · decide
      · decide
      · decide
      · decide)

/-- C27 as stated fails: `ttfAliasedHead (zeros 8)` and
`ttfAliasedHead (be16 1 ++ be16 2 ++ be16 3 ++ be16 4)` are plain sfnt buffers that
differ only in the offset and length fields (bytes 36..44) of their second directory
entry, whose tag "DSIG" is not recognised; both parse, and the Fonts differ: the
"head" entry places the head table over the directory, so those bytes are its bounds
fields. -/
theorem Parse_depends_on_aliased_entry_fields :
    (ttfAliasedHead (zeros 8)).length
      = (ttfAliasedHead (be16 1 ++ be16 2 ++ be16 3 ++ be16 4)).length ∧
    (ttfAliasedHead (zeros 8)).take 36
      = (ttfAliasedHead (be16 1 ++ be16 2 ++ be16 3 ++ be16 4)).take 36 ∧
    (ttfAliasedHead (zeros 8)).drop 44
      = (ttfAliasedHead (be16 1 ++ be16 2 ++ be16 3 ++ be16 4)).drop 44 ∧
    entryTag (ttfAliasedHead (zeros 8)) 1 = tag "DSIG" ∧
    entryTag (ttfAliasedHead (zeros 8)) 1 ∉ recognizedTags ∧
    Parse (ttfAliasedHead (zeros 8))
      = .ret (some (fontAliasedHead (zeros 8) ⟨0, 0, 0, 0⟩), none) ∧
    Parse (ttfAliasedHead (be16 1 ++ be16 2 ++ be16 3 ++ be16 4))
      = .ret (some (fontAliasedHead (be16 1 ++ be16 2 ++ be16 3 ++ be16 4) ⟨1, 2, 3, 4⟩),
          none) ∧
    Parse (ttfAliasedHead (zeros 8))
      ≠ Parse (ttfAliasedHead (be16 1 ++ be16 2 ++ be16 3 ++ be16 4)) := by
  decide

/-! ## Microsoft encoding records, subtable header and kern checks, reads in bounds -/

/-- Without a Unicode record ahead, the loop returns the offset of the last Microsoft
record ahead. -/
theorem scan_last_microsoft (cmap : List Byte) : ∀ (k i0 : Nat) (offset : Int) (found : Bool)
    (j : Nat), 4 + 8 * (i0 + k) ≤ cmap.length →
    (∀ i, i0 ≤ i → i < i0 + k → encKey cmap i ≠ unicodeEncoding) →
    i0 ≤ j → j < i0 + k → encKey cmap j = microsoftEncoding →
    (∀ i, j < i → i < i0 + k → encKey cmap i ≠ microsoftEncoding) →
    parseCmap.scan cmap k ((4 + 8 * i0 : Nat) : Int) offset found
      = .ret ((encOffset cmap j : Int), true) := by
  intro k
  induction k with
  | zero => intro i0 offset found j _ _ h1 h2; omega
  | succ k ih =>
    intro i0 offset found j hlen hno h1 h2 hkey hlast
    rw [scan_step cmap k i0 offset found (by omega)]
    have hne := hno i0 (le_refl _) (by omega)
    rw [if_neg hne]
    have hno' : ∀ i, i0 + 1 ≤ i → i < i0 + 1 + k → encKey cmap i ≠ unicodeEncoding :=
      fun i h1 h2 => hno i (by omega) (by omega)
    by_cases hj : j = i0
    · subst hj
      rw [if_pos hkey]
      rcases scan_no_unicode cmap k (j + 1) (encOffset cmap j : Int) true (by omega) hno'
        with ⟨h, _⟩ | ⟨i, h3, h4, h5, _⟩
      · exact h
      · exact absurd h5 (hlast i (by omega) (by omega))
    · have hrec : ∀ o fd, parseCmap.scan cmap k ((4 + 8 * (i0 + 1) : Nat) : Int) o fd
          = .ret ((encOffset cmap j : Int), true) := fun o fd =>
        ih (i0 + 1) o fd j (by omega) hno' (by omega) (by omega) hkey
          (fun i hi1 hi2 => hlast i hi1 (by omega))
      split
      · exact hrec _ _
      · exact hrec _ _

/-- C33 (as amended): when the encoding records are in bounds, none of them carries the
Unicode key and several carry the Microsoft/UCS-2 key, the subtable offset chosen is
that of the last Microsoft record in the list: each Microsoft record overwrites the
choice made at an earlier one. -/
theorem scan_chooses_last_microsoft (cmap : List Byte) (n j : Nat)
    (hlen : 4 + 8 * n ≤ cmap.length)
    (hno : ∀ i, i < n → encKey cmap i ≠ 0x00000003)
    (hj : j < n) (hkey : encKey cmap j = 0x00030001)
    (hlast : ∀ i, j < i → i < n → encKey cmap i ≠ 0x00030001) :
    parseCmap.scan cmap n 4 0 false = .ret ((encOffset cmap j : Int), true) := by
  have := scan_last_microsoft cmap n 0 0 false j (by omega) (fun i _ hi => hno i (by omega))
    (Nat.zero_le _) (by omega) hkey (fun i h1 h2 => hlast i h1 (by omega))
  simpa using this

theorem scan_chooses_last_microsoft_witness :
    parseCmap.scan cmapTwoMicrosoft 2 4 0 false = .ret (36, true) :=
  scan_chooses_last_microsoft cmapTwoMicrosoft 2 1 (by decide)
    (fun i hi => by
      have hi' : i = 0 ∨ i = 1 := by omega
      rcases hi' with rfl | rfl
      · decide
      · decide)
    (by decide) (by decide) (fun i h1 h2 => by omega)

/-- C33 as stated fails: in `cmapTwoMicrosoft` no encoding record carries the Unicode
key and both carry the Microsoft key, with offsets 20 and 36; the scan chooses 36, the
offset of the last, and parseCmap stores the segment A..Z of the subtable at 36, not
the empty segment list of the subtable at 20. -/
theorem scan_does_not_choose_first_microsoft :
    encKey cmapTwoMicrosoft 0 = 0x00030001 ∧ encKey cmapTwoMicrosoft 1 = 0x00030001 ∧
    encOffset cmapTwoMicrosoft 0 = 20 ∧ encOffset cmapTwoMicrosoft 1 = 36 ∧
    parseCmap.scan cmapTwoMicrosoft 2 4 0 false = .ret (36, true) ∧
    parseCmap.scan cmapTwoMicrosoft 2 4 0 false ≠ .ret (20, true) ∧
    ({ Font.new with cmap := cmapTwoMicrosoft } : Font).parseCmap
      = .ret ({ Font.new with
          cmap := cmapTwoMicrosoft, cm := [⟨0x41, 0x5A, 0, 0⟩],
          cmapIndexes := [] }, none) := by
  decide

/-- C31: for a cmap table that holds its encoding records and whose selected subtable
header (the 8 bytes at the offset s > 0 resolved by the encoding scan) lies inside the
table: if the 16-bit format field at s is not 4, parseCmap returns
UnsupportedError("cmap format: N") with N the format; else if the 16-bit language field
at s + 4 is not 0, it returns UnsupportedError("language: N"); else if segCountX2 at
s + 6 is odd, it returns FormatError("bad segCountX2: N"); the checks apply in that
order. -/
theorem parseCmap_header_checks (f : Font) (s : Nat)
    (h4 : 4 ≤ f.cmap.length) (hlen : 4 + 8 * bigEndian16 f.cmap 2 ≤ f.cmap.length)
    (hscan : parseCmap.scan f.cmap (bigEndian16 f.cmap 2) 4 0 false = .ret ((s : Int), true))
    (hs : 0 < s) (hfit : s + 8 ≤ f.cmap.length) :
    (bigEndian16 f.cmap s ≠ 4 →
      f.parseCmap = .ret (f, some (.UnsupportedError
        ("cmap format: " ++ toString (bigEndian16 f.cmap s))))) ∧
    (bigEndian16 f.cmap s = 4 → bigEndian16 f.cmap (s + 4) ≠ 0 →
      f.parseCmap = .ret (f, some (.UnsupportedError
        ("language: " ++ toString (bigEndian16 f.cmap (s + 4)))))) ∧
    (bigEndian16 f.cmap s = 4 → bigEndian16 f.cmap (s + 4) = 0 →
      bigEndian16 f.cmap (s + 6) % 2 = 1 →
      f.parseCmap = .ret (f, some (.FormatError
        ("bad segCountX2: " ++ toString (bigEndian16 f.cmap (s + 6)))))) := by
  have hpre : f.parseCmap =
      (u16 f.cmap (s : Int)).bind (fun cmapFormat =>
        if cmapFormat ≠ cmapFormat4 then
          .ret (f, some (.UnsupportedError ("cmap format: " ++ fmtD cmapFormat)))
        else (u16 f.cmap ((s : Int) + 4)).bind (fun language =>
          if language ≠ languageIndependent then
            .ret (f, some (.UnsupportedError ("language: " ++ fmtD language)))
          else (u16 f.cmap ((s : Int) + 6)).bind (fun segCountX2 =>
            if segCountX2 % 2 = 1 then
              .ret (f, some (.FormatError ("bad segCountX2: " ++ fmtD segCountX2)))
            else
              (parseCmap.fill f.cmap (fun s v => { s with end_ := v }) (segCountX2 / 2) 0
                (List.replicate (segCountX2 / 2) (⟨0, 0, 0, 0⟩ : cm)) ((s : Int) + 14)).bind
              (fun r1 =>
                (parseCmap.fill f.cmap (fun s v => { s with start := v }) (segCountX2 / 2) 0
                  r1.1 (r1.2 + 2)).bind (fun r2 =>
                (parseCmap.fill f.cmap (fun s v => { s with delta := v }) (segCountX2 / 2) 0
                  r2.1 r2.2).bind (fun r3 =>
                (parseCmap.fill f.cmap (fun s v => { s with offset := v }) (segCountX2 / 2) 0
                  r3.1 r3.2).bind (fun r4 =>
                (sliceFrom f.cmap r4.2).bind (fun rest =>
                  .ret ({ f with cm := r4.1, cmapIndexes := rest }, none))))))))) := by
    unfold Font.parseCmap
    rw [if_neg (by omega)]
    simp only [bind_def, pure_def]
    rw [u16_at f.cmap 2 2 (by norm_num) (by omega), ret_bind]
    have hl : ¬ ((f.cmap.length : Int) < 8 * ((bigEndian16 f.cmap 2 : Nat) : Int) + 4) := by
      omega
    rw [if_neg hl, hscan, ret_bind]
    have hb : ¬ ((s : Int) ≤ 0 ∨ (s : Int) > (f.cmap.length : Int)) := by omega
    simp only [Bool.not_true, Bool.false_eq_true, if_false]
    rw [if_neg hb]
  rw [hpre, u16_at f.cmap _ s rfl (by omega), ret_bind]
  refine ⟨?_, ?_, ?_⟩
  · intro hfmt
    have c1 : bigEndian16 f.cmap s ≠ cmapFormat4 := hfmt
    rw [if_pos c1]
    rfl
  · intro hfmt hlang
    have c1 : ¬ bigEndian16 f.cmap s ≠ cmapFormat4 := not_not.mpr hfmt
    have c2 : bigEndian16 f.cmap (s + 4) ≠ languageIndependent := hlang
    rw [if_neg c1, u16_at f.cmap _ (s + 4) (by push_cast; rfl) (by omega), ret_bind, if_pos c2]
    rfl
  · intro hfmt hlang hodd
    have c1 : ¬ bigEndian16 f.cmap s ≠ cmapFormat4 := not_not.mpr hfmt
    have c2 : ¬ bigEndian16 f.cmap (s + 4) ≠ languageIndependent := not_not.mpr hlang
    rw [if_neg c1, u16_at f.cmap _ (s + 4) (by push_cast; rfl) (by omega), ret_bind,
      if_neg c2, u16_at f.cmap _ (s + 6) (by push_cast; rfl) (by omega), ret_bind, if_pos hodd]
    rfl

theorem parseCmap_header_checks_witness :
    ({ Font.new with cmap := cmapWithHeader 6 1 3 } : Font).parseCmap
      = .ret ({ Font.new with cmap := cmapWithHeader 6 1 3 },
          some (.UnsupportedError ("cmap format: " ++ toString 6))) ∧
    ({ Font.new with cmap := cmapWithHeader 4 1 3 } : Font).parseCmap
      = .ret ({ Font.new with cmap := cmapWithHeader 4 1 3 },
          some (.UnsupportedError ("language: " ++ toString 1))) ∧
    ({ Font.new with cmap := cmapWithHeader 4 0 3 } : Font).parseCmap
      = .ret ({ Font.new with cmap := cmapWithHeader 4 0 3 },
          some (.FormatError ("bad segCountX2: " ++ toString 3))) :=
  ⟨(parseCmap_header_checks { Font.new with cmap := cmapWithHeader 6 1 3 } 12
      (by decide) (by decide) (by decide) (by decide) (by decide)).1 (by decide),
   (parseCmap_header_checks { Font.new with cmap := cmapWithHeader 4 1 3 } 12
      (by decide) (by decide) (by decide) (by decide) (by decide)).2.1 (by decide) (by decide),
   (parseCmap_header_checks { Font.new with cmap := cmapWithHeader 4 0 3 } 12
      (by decide) (by decide) (by decide) (by decide) (by decide)).2.2 (by decide) (by decide)
      (by decide)⟩

/-- `parseKern` on a kern table of at least 18 bytes. -/
theorem parseKern_eq (f : Font) (h : 18 ≤ f.kern.length) :
    f.parseKern =
      if bigEndian16 f.kern 0 ≠ 0 then
        .ret (f, some (.UnsupportedError ("kern version: " ++ fmtD (bigEndian16 f.kern 0))))
      else if bigEndian16 f.kern 2 ≠ 1 then
        .ret (f, some (.UnsupportedError ("kern nTables: " ++ fmtD (bigEndian16 f.kern 2))))
      else if bigEndian16 f.kern 8 ≠ 0x0001 then
        .ret (f, some (.UnsupportedError
          ("kern coverage: 0x" ++ fmtX04 (bigEndian16 f.kern 8))))
      else if 6 * ((bigEndian16 f.kern 10 : Nat) : Int)
          ≠ ((bigEndian16 f.kern 6 : Nat) : Int) - 14 then
        .ret ({ f with nKern := (bigEndian16 f.kern 10 : Nat) },
          some (.FormatError "bad kern table length"))
      else
        .ret ({ f with nKern := (bigEndian16 f.kern 10 : Nat) }, none) := by
  unfold Font.parseKern
  rw [if_neg (by omega), if_neg (by omega)]
  simp only [bind_def, pure_def]
  rw [u16_at f.kern 0 0 (by norm_num) (by omega), ret_bind]
  split
  · rfl
  · rw [u16_at f.kern 2 2 (by norm_num) (by omega), ret_bind]
    split
    · rfl
    · rw [u16_at f.kern (2 + 2 + 2) 6 (by norm_num) (by omega), ret_bind,
        u16_at f.kern (2 + 2 + 2 + 2) 8 (by norm_num) (by omega), ret_bind]
      split
      · rfl
      · rw [u16_at f.kern (2 + 2 + 2 + 2 + 2) 10 (by norm_num) (by omega), ret_bind]

/-- C32: for a kern table of at least 18 bytes, parseKern succeeds exactly when the
version (u16 at 0) is 0, the subtable count (u16 at 2) is 1, the coverage field (u16 at
8) equals 0x0001 and 6*n = L - 14, with n the pair count (u16 at 10) and L the declared
subtable length (u16 at 6); a wrong version, subtable count or coverage gives an
UnsupportedError, a length mismatch (the other three being right) a FormatError, and on
success nKern = n. -/
theorem parseKern_spec (f : Font) (h18 : 18 ≤ f.kern.length) :
    ((∃ f', f.parseKern = .ret (f', none)) ↔
      (bigEndian16 f.kern 0 = 0 ∧ bigEndian16 f.kern 2 = 1 ∧ bigEndian16 f.kern 8 = 0x0001 ∧
        6 * ((bigEndian16 f.kern 10 : Nat) : Int) = ((bigEndian16 f.kern 6 : Nat) : Int) - 14)) ∧
    (bigEndian16 f.kern 0 ≠ 0 ∨ bigEndian16 f.kern 2 ≠ 1 ∨ bigEndian16 f.kern 8 ≠ 0x0001 →
      ∃ f' msg, f.parseKern = .ret (f', some (.UnsupportedError msg))) ∧
    (bigEndian16 f.kern 0 = 0 → bigEndian16 f.kern 2 = 1 → bigEndian16 f.kern 8 = 0x0001 →
      6 * ((bigEndian16 f.kern 10 : Nat) : Int) ≠ ((bigEndian16 f.kern 6 : Nat) : Int) - 14 →
      ∃ f' msg, f.parseKern = .ret (f', some (.FormatError msg))) ∧
    (∀ f', f.parseKern = .ret (f', none) →
      f'.nKern = ((bigEndian16 f.kern 10 : Nat) : Int)) := by
  have heq := parseKern_eq f h18
  refine ⟨⟨?_, ?_⟩, ?_, ?_, ?_⟩
  · rintro ⟨f', hf⟩
    rw [heq] at hf
    by_cases c1 : bigEndian16 f.kern 0 = 0
    · by_cases c2 : bigEndian16 f.kern 2 = 1
      · by_cases c3 : bigEndian16 f.kern 8 = 0x0001
        · by_cases c4 : 6 * ((bigEndian16 f.kern 10 : Nat) : Int)
              = ((bigEndian16 f.kern 6 : Nat) : Int) - 14
          · exact ⟨c1, c2, c3, c4⟩
          · rw [if_neg (not_not.mpr c1), if_neg (not_not.mpr c2), if_neg (not_not.mpr c3),
              if_pos c4] at hf
            cases hf
        · rw [if_neg (not_not.mpr c1), if_neg (not_not.mpr c2), if_pos c3] at hf
          cases hf
      · rw [if_neg (not_not.mpr c1), if_pos c2] at hf
        cases hf
    · rw [if_pos c1] at hf
      cases hf
  · rintro ⟨c1, c2, c3, c4⟩
    rw [heq, if_neg (not_not.mpr c1), if_neg (not_not.mpr c2), if_neg (not_not.mpr c3),
      if_neg (not_not.mpr c4)]
    exact ⟨_, rfl⟩
  · intro hbad
    rw [heq]
    by_cases c1 : bigEndian16 f.kern 0 = 0
    · by_cases c2 : bigEndian16 f.kern 2 = 1
      · have c3 : bigEndian16 f.kern 8 ≠ 0x0001 := by
          rcases hbad with hb | hb | hb
          · exact absurd c1 hb
          · exact absurd c2 hb
          · exact hb
        rw [if_neg (not_not.mpr c1), if_neg (not_not.mpr c2), if_pos c3]
        exact ⟨_, _, rfl⟩
      · rw [if_neg (not_not.mpr c1), if_pos c2]
        exact ⟨_, _, rfl⟩
    · rw [if_pos c1]
      exact ⟨_, _, rfl⟩
  · intro c1 c2 c3 c4
    rw [heq, if_neg (not_not.mpr c1), if_neg (not_not.mpr c2), if_neg (not_not.mpr c3),
      if_pos c4]
    exact ⟨_, _, rfl⟩
  · intro f' hf
    rw [heq] at hf
    split at hf
    · cases hf
    · split at hf
      · cases hf
      · split at hf
        · cases hf
        · split at hf
          · cases hf
          · cases hf
            rfl

theorem parseKern_spec_witness :
    (∃ f', ({ Font.new with kern := kernThree } : Font).parseKern = .ret (f', none)) ∧
    (∃ f' msg, ({ Font.new with kern := kernHeader 1 1 20 1 1 } : Font).parseKern
      = .ret (f', some (.UnsupportedError msg))) ∧
    (∃ f' msg, ({ Font.new with kern := kernHeader 0 1 21 1 1 } : Font).parseKern
      = .ret (f', some (.FormatError msg))) :=
  ⟨(parseKern_spec { Font.new with kern := kernThree } (by decide)).1.2
      ⟨by decide, by decide, by decide, by decide⟩,
   (parseKern_spec { Font.new with kern := kernHeader 1 1 20 1 1 } (by decide)).2.1
      (Or.inl (by decide)),
   (parseKern_spec { Font.new with kern := kernHeader 0 1 21 1 1 } (by decide)).2.2.1
      (by decide) (by decide) (by decide) (by decide)⟩

/-- With len(hmtx) = 4*nHMetric + 2*(nGlyph - nHMetric) and nHMetric ≥ 1 or nGlyph ≤ 0,
`HMetric` returns for every glyph index. -/
theorem HMetric_returns (f : Font)
    (hlen : (f.hmtx.length : Int) = 4 * f.nHMetric + 2 * (f.nGlyph - f.nHMetric))
    (h : 1 ≤ f.nHMetric ∨ f.nGlyph ≤ 0) (i : Nat) :
    ∃ m, f.HMetric i = .ret m := by
  unfold Font.HMetric
  simp only [bind_def, pure_def]
  by_cases c1 : (i : Int) ≥ f.nGlyph
  · rw [if_pos c1]
    exact ⟨_, rfl⟩
  · rw [if_neg c1]
    have h1 : 1 ≤ f.nHMetric := by omega
    by_cases c2 : (i : Int) ≥ f.nHMetric
    · rw [if_pos c2, u16_of_le f.hmtx _ (by omega) (by omega), ret_bind,
        u16_of_le f.hmtx _ (by omega) (by omega), ret_bind]
      exact ⟨_, rfl⟩
    · rw [if_neg c2, u16_of_le f.hmtx _ (by omega) (by omega), ret_bind,
        u16_of_le f.hmtx _ (by omega) (by omega), ret_bind]
      exact ⟨_, rfl⟩

/-- With nHMetric = 0 and nGlyph > 0, `HMetric 0` reads hmtx at -4. -/
theorem HMetric_zero_panics (f : Font) (h0 : f.nHMetric = 0) (hg : 0 < f.nGlyph) :
    f.HMetric 0 = .panic := by
  unfold Font.HMetric
  simp only [bind_def, pure_def]
  have c1 : ¬ (((0 : Nat) : Int) ≥ f.nGlyph) := by omega
  have c2 : ((0 : Nat) : Int) ≥ f.nHMetric := by omega
  rw [if_neg c1, if_pos c2, h0]
  rfl

/-- C35: in a Font state with nGlyph ≥ 0, len(hmtx) = 4*nHMetric + 2*(nGlyph - nHMetric)
and (nHMetric ≥ 1 or nGlyph = 0), HMetric(i) returns for every glyph index i, that is,
every read it makes lies inside hmtx, also when nHMetric > nGlyph; and in a state left
by a successful parseHhea (one that passed the hhea length check), HMetric reads out of
range for some index exactly when nHMetric = 0 and nGlyph > 0. -/
theorem HMetric_reads_in_bounds (f : Font) :
    (0 ≤ f.nGlyph →
      (f.hmtx.length : Int) = 4 * f.nHMetric + 2 * (f.nGlyph - f.nHMetric) →
      (1 ≤ f.nHMetric ∨ f.nGlyph = 0) →
      ∀ i, ∃ m, f.HMetric i = .ret m) ∧
    (∀ f0 : Font, f0.parseHhea = .ret (f, none) →
      ((∃ i, f.HMetric i = .panic) ↔ (f.nHMetric = 0 ∧ 0 < f.nGlyph))) := by
  constructor
  · intro _ hlen h i
    exact HMetric_returns f hlen (by omega) i
  · intro f0 hp
    rw [parseHhea_eq] at hp
    have hn : 0 ≤ f.nHMetric ∧
        (f.hmtx.length : Int) = 4 * f.nHMetric + 2 * (f.nGlyph - f.nHMetric) := by
      split at hp
      · cases hp
      · split at hp
        · cases hp
        · rename_i hne
          cases hp
          simp only
          omega
    constructor
    · rintro ⟨i, hi⟩
      by_contra hc
      have hor : 1 ≤ f.nHMetric ∨ f.nGlyph ≤ 0 := by omega
      obtain ⟨m, hm⟩ := HMetric_returns f hn.2 hor i
      rw [hm] at hi
      cases hi
    · rintro ⟨h0, hg⟩
      exact ⟨0, HMetric_zero_panics f h0 hg⟩

theorem HMetric_reads_in_bounds_witness :
    (∀ i, ∃ m, fontMoreMetricsThanGlyphs.HMetric i = .ret m) ∧
    ((∃ i, fontNoLongMetricState.HMetric i = .panic) ↔
      (fontNoLongMetricState.nHMetric = 0 ∧ 0 < fontNoLongMetricState.nGlyph)) :=
  ⟨(HMetric_reads_in_bounds fontMoreMetricsThanGlyphs).1 (by decide) (by decide)
      (Or.inl (by decide)),
   (HMetric_reads_in_bounds fontNoLongMetricState).2 fontNoLongMetricState (by decide)⟩

theorem readTable_ret (ttf ol : List Byte) (hol : 8 ≤ ol.length) :
    ∃ r, readTable ttf ol = .ret r := by
  rw [readTable_eq ttf ol hol]
  split
  · exact ⟨_, rfl⟩
  · exact ⟨_, rfl⟩

theorem parseHead_ret (f : Font) : ∃ r, f.parseHead = .ret r := by
  rw [parseHead_eq]
  repeat' first
    | exact ⟨_, rfl⟩
    | split

theorem parseMaxp_ret (f : Font) : ∃ r, f.parseMaxp = .ret r := by
  rw [parseMaxp_eq]
  repeat' first
    | exact ⟨_, rfl⟩
    | split

theorem parseHhea_ret (f : Font) : ∃ r, f.parseHhea = .ret r := by
  rw [parseHhea_eq]
  repeat' first
    | exact ⟨_, rfl⟩
    | split

theorem parseKern_ret (f : Font) : ∃ r, f.parseKern = .ret r := by
  by_cases h0 : f.kern.length = 0
  · rw [parseKern_empty f h0]
    split
    · exact ⟨_, rfl⟩
    · exact ⟨_, rfl⟩
  · by_cases h18 : f.kern.length < 18
    · unfold Font.parseKern
      rw [if_neg h0, if_pos h18]
      exact ⟨_, rfl⟩
    · rw [parseKern_eq f (by omega)]
      repeat' first
        | exact ⟨_, rfl⟩
        | split

theorem slice_ret (b : List Byte) (lo hi : Nat) (h1 : lo ≤ hi) (h2 : hi ≤ b.length) :
    ∃ t, slice b (lo : Int) (hi : Int) = .ret t ∧ t.length = hi - lo := by
  refine ⟨_, slice_of_le b lo hi h1 h2, ?_⟩
  rw [List.length_take, List.length_drop]
  omega

theorem ite_ret {α : Type} (c : Prop) [Decidable c] (a b : Exec α)
    (ha : ∃ r, a = .ret r) (hb : ∃ r, b = .ret r) : ∃ r, (if c then a else b) = .ret r := by
  split
  · exact ha
  · exact hb

/-- The directory loop stays inside a buffer that holds the directory. -/
theorem tables_ret (ttf : List Byte) : ∀ (k i : Nat) (f : Font),
    16 * (i + k) + 12 ≤ ttf.length → ∃ r, parse.tables ttf k (i : Int) f = .ret r := by
  intro k
  induction k with
  | zero => intro i f _; exact ⟨_, rfl⟩
  | succ k ih =>
    intro i f h
    have ex : (16 * (i : Int) + 12) = ((12 + 16 * i : Nat) : Int) := by push_cast; ring
    have e4 : (((12 + 16 * i : Nat) : Int) + 4) = ((12 + 16 * i + 4 : Nat) : Int) := by
      push_cast; ring
    have e8 : (((12 + 16 * i : Nat) : Int) + 8) = ((12 + 16 * i + 8 : Nat) : Int) := by
      push_cast; ring
    have e16 : (((12 + 16 * i : Nat) : Int) + 16) = ((12 + 16 * i + 16 : Nat) : Int) := by
      push_cast; ring
    have e1 : ((i : Int) + 1) = ((i + 1 : Nat) : Int) := by push_cast; rfl
    rw [parse.tables]
    simp only [bind_def, pure_def, ex, e4, e8, e16, e1]
    obtain ⟨t, ht, -⟩ := slice_ret ttf (12 + 16 * i) (12 + 16 * i + 4) (by omega) (by omega)
    obtain ⟨ol, hol, hollen⟩ :=
      slice_ret ttf (12 + 16 * i + 8) (12 + 16 * i + 16) (by omega) (by omega)
    obtain ⟨⟨b, e⟩, hr⟩ := readTable_ret ttf ol (by omega)
    rw [ht, ret_bind]
    simp only [hol, ret_bind, hr]
    have hk : 16 * (i + 1 + k) + 12 ≤ ttf.length := by omega
    cases e with
    | some e0 =>
      exact ite_ret _ _ _ ⟨_, rfl⟩ (ite_ret _ _ _ ⟨_, rfl⟩ (ite_ret _ _ _ ⟨_, rfl⟩
        (ite_ret _ _ _ ⟨_, rfl⟩ (ite_ret _ _ _ ⟨_, rfl⟩ (ite_ret _ _ _ ⟨_, rfl⟩
        (ite_ret _ _ _ ⟨_, rfl⟩ (ite_ret _ _ _ ⟨_, rfl⟩ (ih _ _ hk))))))))
    | none =>
      exact ite_ret _ _ _ (ih _ _ hk) (ite_ret _ _ _ (ih _ _ hk) (ite_ret _ _ _ (ih _ _ hk)
        (ite_ret _ _ _ (ih _ _ hk) (ite_ret _ _ _ (ih _ _ hk) (ite_ret _ _ _ (ih _ _ hk)
        (ite_ret _ _ _ (ih _ _ hk) (ite_ret _ _ _ (ih _ _ hk) (ih _ _ hk))))))))

/-- The sub-parser stage panics exactly when it arrives at `parseCmap` and `parseCmap`
panics. -/
theorem check_panic_iff (f0 : Font) :
    parse.check f0 = .panic ↔
      ∃ f1 f2, f0.parseHead = .ret (f1, none) ∧ f1.parseMaxp = .ret (f2, none) ∧
        f2.parseCmap = .panic := by
  constructor
  · intro h
    unfold parse.check at h
    simp only [bind_def, pure_def] at h
    obtain ⟨⟨f1, e1⟩, h1⟩ := parseHead_ret f0
    rw [h1, ret_bind] at h
    cases e1 with
    | some e => cases h
    | none =>
      simp only at h
      obtain ⟨⟨f2, e2⟩, h2⟩ := parseMaxp_ret f1
      rw [h2, ret_bind] at h
      cases e2 with
      | some e => cases h
      | none =>
        simp only at h
        cases h3 : f2.parseCmap with
        | panic => exact ⟨f1, f2, h1, h2, h3⟩
        | diverge =>
          rw [h3] at h
          cases h
        | ret r =>
          obtain ⟨f3, e3⟩ := r
          rw [h3, ret_bind] at h
          cases e3 with
          | some e => cases h
          | none =>
            simp only at h
            obtain ⟨⟨f4, e4⟩, h4⟩ := parseKern_ret f3
            rw [h4, ret_bind] at h
            cases e4 with
            | some e => cases h
            | none =>
              simp only at h
              obtain ⟨⟨f5, e5⟩, h5⟩ := parseHhea_ret f4
              rw [h5, ret_bind] at h
              cases e5 with
              | some e => cases h
              | none => cases h
  · rintro ⟨f1, f2, h1, h2, h3⟩
    unfold parse.check
    simp only [bind_def, pure_def]
    rw [h1, ret_bind]
    simp only
    rw [h2, ret_bind]
    simp only
    rw [h3]
    rfl

/-- `parse` at offset `o` on a buffer that has the sfnt magic there: the directory
loop (over the entries at 12 + 16*i), then the sub-parsers. -/
theorem parseFuel_sfnt_eq (fuel : Nat) (ttf : List Byte) (o : Nat)
    (ho : o + 12 ≤ ttf.length) (hm : bigEndian32 ttf o = 0x00010000) :
    parseFuel (fuel + 1) ttf (o : Int) =
      if ttf.length < 16 * bigEndian16 ttf (o + 4) + 12 then
        .ret (none, some (.FormatError "TTF data is too short"))
      else
        (parse.tables ttf (bigEndian16 ttf (o + 4)) ((0 : Nat) : Int) Font.new).bind
          (fun d => match d.2 with
            | some e => .ret (none, some e)
            | none => parse.check d.1) := by
  unfold parseFuel
  have h1 : ¬ ((ttf.length : Int) - (o : Int) < 12) := by omega
  simp only [h1, if_false, bind_def, pure_def]
  rw [u32_at ttf _ o rfl (by omega), ret_bind, hm]
  simp only [if_true]
  rw [u16_at ttf ((o : Int) + 4) (o + 4) (by push_cast; rfl) (by omega), ret_bind]
  by_cases hd : ttf.length < 16 * bigEndian16 ttf (o + 4) + 12
  · have h2 : (ttf.length : Int) < 16 * ((bigEndian16 ttf (o + 4) : Nat) : Int) + 12 := by
      omega
    rw [if_pos h2, if_pos hd]
  · have h2 : ¬ ((ttf.length : Int) < 16 * ((bigEndian16 ttf (o + 4) : Nat) : Int) + 12) := by
      omega
    rw [if_neg h2, if_neg hd]
    simp only [Int.toNat_ofNat]
    rfl

/-- `parse` at offset `o` panics on a buffer with the sfnt magic there exactly when the
directory fits, the directory loop ends without error and the sub-parser stage arrives
at a panicking `parseCmap`. -/
theorem parseFuel_sfnt_panic_iff (fuel : Nat) (ttf : List Byte) (o : Nat)
    (ho : o + 12 ≤ ttf.length) (hm : bigEndian32 ttf o = 0x00010000) :
    parseFuel (fuel + 1) ttf (o : Int) = .panic ↔
      ∃ f0 f1 f2, (16 * bigEndian16 ttf (o + 4) + 12 ≤ ttf.length ∧
        parse.tables ttf (bigEndian16 ttf (o + 4)) 0 Font.new = .ret (f0, none)) ∧
        f0.parseHead = .ret (f1, none) ∧ f1.parseMaxp = .ret (f2, none) ∧
        f2.parseCmap = .panic := by
  rw [parseFuel_sfnt_eq fuel ttf o ho hm]
  have e0 : (((0 : Nat) : Int)) = (0 : Int) := rfl
  constructor
  · intro h
    by_cases hd : ttf.length < 16 * bigEndian16 ttf (o + 4) + 12
    · rw [if_pos hd] at h
      cases h
    · rw [if_neg hd] at h
      obtain ⟨⟨f0, e⟩, ht⟩ := tables_ret ttf (bigEndian16 ttf (o + 4)) 0 Font.new (by omega)
      rw [ht, ret_bind] at h
      cases e with
      | some e => cases h
      | none =>
        simp only at h
        obtain ⟨f1, f2, h1, h2, h3⟩ := (check_panic_iff f0).1 h
        rw [e0] at ht
        exact ⟨f0, f1, f2, ⟨by omega, ht⟩, h1, h2, h3⟩
  · rintro ⟨f0, f1, f2, ⟨hd, ht⟩, h1, h2, h3⟩
    rw [if_neg (by omega), e0, ht, ret_bind]
    exact (check_panic_iff f0).2 ⟨f1, f2, h1, h2, h3⟩

/-- `parse` returns an error on a buffer too short for a header at `o`. -/
theorem parseFuel_short (fuel : Nat) (ttf : List Byte) (o : Int)
    (h : (ttf.length : Int) - o < 12) :
    parseFuel (fuel + 1) ttf o = .ret (none, some (.FormatError "TTF data is too short")) := by
  unfold parseFuel
  rw [if_pos h]
  rfl

/-- `parse` returns an error at `o` when the magic there is not that of an sfnt font
and, for `o = 0`, not that of a collection. -/
theorem parseFuel_other_magic (fuel : Nat) (ttf : List Byte) (o : Nat)
    (ho : o + 12 ≤ ttf.length) (hm : bigEndian32 ttf o ≠ 0x00010000)
    (ht : bigEndian32 ttf o ≠ 0x74746366 ∨ o ≠ 0) :
    ∃ e, parseFuel (fuel + 1) ttf (o : Int) = .ret (none, some e) := by
  unfold parseFuel
  have h1 : ¬ ((ttf.length : Int) - (o : Int) < 12) := by omega
  simp only [h1, if_false, bind_def, pure_def]
  rw [u32_at ttf _ o rfl (by omega), ret_bind, if_neg hm]
  by_cases hc : bigEndian32 ttf o = 0x74746366
  · have ho0 : (o : Int) ≠ 0 := by
      rcases ht with ht | ht
      · exact absurd hc ht
      · omega
    rw [if_pos hc, if_pos ho0]
    exact ⟨_, rfl⟩
  · rw [if_neg hc]
    exact ⟨_, rfl⟩

/-- `parse` at offset 0 on a buffer that starts with "ttcf": an error unless the TTC
header is in order, else the nested call at the first font offset. -/
theorem parseFuel_ttc (fuel : Nat) (ttf : List Byte) (hlen : 12 ≤ ttf.length)
    (hm : bigEndian32 ttf 0 = 0x74746366) :
    ((bigEndian32 ttf 4 = 0x00010000 ∧ 1 ≤ bigEndian32 ttf 8 ∧
        bigEndian32 ttf 8 ≤ (ttf.length - 12) / 4 ∧
        0 < bigEndian32 ttf 12 ∧ bigEndian32 ttf 12 ≤ ttf.length) →
      parseFuel (fuel + 2) ttf 0 = parseFuel (fuel + 1) ttf ((bigEndian32 ttf 12 : Nat) : Int)) ∧
    (¬ (bigEndian32 ttf 4 = 0x00010000 ∧ 1 ≤ bigEndian32 ttf 8 ∧
        bigEndian32 ttf 8 ≤ (ttf.length - 12) / 4 ∧
        0 < bigEndian32 ttf 12 ∧ bigEndian32 ttf 12 ≤ ttf.length) →
      ∃ e, parseFuel (fuel + 2) ttf 0 = .ret (none, some e)) := by
  have hpre : parseFuel (fuel + 2) ttf 0 =
      if bigEndian32 ttf 4 ≠ 0x00010000 then
        .ret (none, some (.FormatError "bad TTC version"))
      else if ((bigEndian32 ttf 8 : Nat) : Int) ≤ 0 then
        .ret (none, some (.FormatError "bad number of TTC fonts"))
      else if (((ttf.length - 12 : Nat) : Int)) / 4 < ((bigEndian32 ttf 8 : Nat) : Int) then
        .ret (none, some (.FormatError "TTC offset table is too short"))
      else (u32 ttf 12).bind (fun v =>
        if ((v : Nat) : Int) ≤ 0 ∨ ((v : Nat) : Int) > (ttf.length : Int) then
          .ret (none, some (.FormatError "bad TTC offset"))
        else parseFuel (fuel + 1) ttf ((v : Nat) : Int)) := by
    rw [parseFuel]
    have h1 : ¬ ((ttf.length : Int) - 0 < 12) := by omega
    simp only [h1, if_false, bind_def, pure_def]
    rw [u32_at ttf 0 0 (by norm_num) (by omega), ret_bind, hm]
    simp only [Nat.reduceEqDiff, if_false, if_true, ne_eq, not_true_eq_false]
    rw [u32_at ttf (0 + 4) 4 (by norm_num) (by omega), ret_bind]
    split
    · rfl
    · rw [u32_at ttf (0 + 4 + 4) 8 (by norm_num) (by omega), ret_bind]
      split
      · rfl
      · simp only [sliceFrom, slice]
        have h4 : (0 : Int) ≤ 0 + 4 + 4 + 4 ∧ (0 : Int) + 4 + 4 + 4 ≤ (ttf.length : Int) ∧
            (ttf.length : Int) ≤ (ttf.length : Int) := by omega
        rw [if_pos h4, ret_bind]
        have e1 : ((0 : Int) + 4 + 4 + 4).toNat = 12 := by decide
        have e2 : ((ttf.length : Int) - (0 + 4 + 4 + 4)).toNat = ttf.length - 12 := by omega
        have e3 : (List.take (ttf.length - 12) (List.drop 12 ttf)).length = ttf.length - 12 := by
          rw [List.length_take, List.length_drop]
          omega
        have e4 : ((0 : Int) + 4 + 4 + 4) = 12 := by norm_num
        rw [e1, e2, e3, e4]
  rw [hpre]
  constructor
  · rintro ⟨c1, c2, c3, c4, c5⟩
    have d2 : ¬ (((bigEndian32 ttf 8 : Nat) : Int) ≤ 0) := by omega
    have d3 : ¬ ((((ttf.length - 12 : Nat) : Int)) / 4 < ((bigEndian32 ttf 8 : Nat) : Int)) := by
      omega
    have d4 : ¬ (((bigEndian32 ttf 12 : Nat) : Int) ≤ 0 ∨
        ((bigEndian32 ttf 12 : Nat) : Int) > (ttf.length : Int)) := by omega
    rw [if_neg (not_not.mpr c1), if_neg d2, if_neg d3,
      u32_at ttf 12 12 (by norm_num) (by omega), ret_bind, if_neg d4]
  · intro hc
    by_cases c1 : bigEndian32 ttf 4 = 0x00010000
    · rw [if_neg (not_not.mpr c1)]
      by_cases d2 : ((bigEndian32 ttf 8 : Nat) : Int) ≤ 0
      · rw [if_pos d2]
        exact ⟨_, rfl⟩
      · rw [if_neg d2]
        by_cases d3 : (((ttf.length - 12 : Nat) : Int)) / 4 < ((bigEndian32 ttf 8 : Nat) : Int)
        · rw [if_pos d3]
          exact ⟨_, rfl⟩
        · rw [if_neg d3, u32_at ttf 12 12 (by norm_num) (by omega), ret_bind]
          have d4 : (((bigEndian32 ttf 12 : Nat) : Int) ≤ 0 ∨
              ((bigEndian32 ttf 12 : Nat) : Int) > (ttf.length : Int)) := by
            by_contra hn
            exact hc ⟨c1, by omega, by omega, by omega, by omega⟩
          rw [if_pos d4]
          exact ⟨_, rfl⟩
    · rw [if_pos c1]
      exact ⟨_, rfl⟩

/-- C34: outside parseCmap every byte access of Parse is in bounds. readTable on an
8-byte entry, the directory loop on a buffer of at least 16*n + 12 bytes, and
parseHead, parseMaxp, parseKern and parseHhea on any Font never panic; and Parse
panics exactly when it has got through the header (for a collection: the TTC header,
the offset table and the redirection), the table count and the directory loop without
error, parseHead and parseMaxp have returned without error, and parseCmap panics on the
Font they leave. -/
theorem Parse_in_bounds_outside_parseCmap (ttf : List Byte) :
    (∀ ol : List Byte, ol.length = 8 → InBounds (readTable ttf ol)) ∧
    (∀ n : Nat, 16 * n + 12 ≤ ttf.length → InBounds (parse.tables ttf n 0 Font.new)) ∧
    (∀ f : Font, InBounds f.parseHead ∧ InBounds f.parseMaxp ∧ InBounds f.parseKern ∧
      InBounds f.parseHhea) ∧
    (Parse ttf = .panic ↔
      ∃ f0 f1 f2, ReachesCheck ttf f0 ∧ f0.parseHead = .ret (f1, none) ∧
        f1.parseMaxp = .ret (f2, none) ∧ f2.parseCmap = .panic) := by
  refine ⟨?_, ?_, ?_, ?_⟩
  · intro ol hol hp
    obtain ⟨r, hr⟩ := readTable_ret ttf ol (by omega)
    rw [hr] at hp
    cases hp
  · intro n hn hp
    obtain ⟨r, hr⟩ := tables_ret ttf n 0 Font.new (by omega)
    have e0 : (((0 : Nat) : Int)) = (0 : Int) := rfl
    rw [e0] at hr
    rw [hr] at hp
    cases hp
  · intro f
    refine ⟨?_, ?_, ?_, ?_⟩
    · intro hp
      obtain ⟨r, hr⟩ := parseHead_ret f
      rw [hr] at hp
      cases hp
    · intro hp
      obtain ⟨r, hr⟩ := parseMaxp_ret f
      rw [hr] at hp
      cases hp
    · intro hp
      obtain ⟨r, hr⟩ := parseKern_ret f
      rw [hr] at hp
      cases hp
    · intro hp
      obtain ⟨r, hr⟩ := parseHhea_ret f
      rw [hr] at hp
      cases hp
  · have hP : Parse ttf = parseFuel (0 + 2) ttf 0 := rfl
    have hP1 : Parse ttf = parseFuel (1 + 1) ttf ((0 : Nat) : Int) := rfl
    constructor
    · intro h
      by_cases h12 : ttf.length < 12
      · rw [hP1, parseFuel_short 1 ttf _ (by omega)] at h
        cases h
      · by_cases hm : bigEndian32 ttf 0 = 0x00010000
        · rw [hP1] at h
          obtain ⟨f0, f1, f2, ⟨hd, ht⟩, h1, h2, h3⟩ :=
            (parseFuel_sfnt_panic_iff 1 ttf 0 (by omega) hm).1 h
          exact ⟨f0, f1, f2, ⟨0, Or.inl rfl, by omega, hm, hd, ht⟩, h1, h2, h3⟩
        · by_cases hc : bigEndian32 ttf 0 = 0x74746366
          · obtain ⟨hgo, hstop⟩ := parseFuel_ttc 0 ttf (by omega) hc
            by_cases hC : bigEndian32 ttf 4 = 0x00010000 ∧ 1 ≤ bigEndian32 ttf 8 ∧
                bigEndian32 ttf 8 ≤ (ttf.length - 12) / 4 ∧
                0 < bigEndian32 ttf 12 ∧ bigEndian32 ttf 12 ≤ ttf.length
            · rw [hP, hgo hC] at h
              obtain ⟨c1, c2, c3, c4, c5⟩ := hC
              by_cases hs : (ttf.length : Int) - ((bigEndian32 ttf 12 : Nat) : Int) < 12
              · rw [parseFuel_short 0 ttf _ hs] at h
                cases h
              · by_cases hm2 : bigEndian32 ttf (bigEndian32 ttf 12) = 0x00010000
                · obtain ⟨f0, f1, f2, ⟨hd, ht⟩, h1, h2, h3⟩ :=
                    (parseFuel_sfnt_panic_iff 0 ttf (bigEndian32 ttf 12) (by omega) hm2).1 h
                  exact ⟨f0, f1, f2,
                    ⟨bigEndian32 ttf 12, Or.inr ⟨hc, c1, c2, c3, rfl, c4⟩, by omega, hm2, hd, ht⟩,
                    h1, h2, h3⟩
                · obtain ⟨e, he⟩ := parseFuel_other_magic 0 ttf (bigEndian32 ttf 12) (by omega)
                    hm2 (Or.inr (by omega))
                  rw [he] at h
                  cases h
            · obtain ⟨e, he⟩ := hstop hC
              rw [hP, he] at h
              cases h
          · obtain ⟨e, he⟩ := parseFuel_other_magic 1 ttf 0 (by omega) hm (Or.inl hc)
            rw [hP1, he] at h
            cases h
    · rintro ⟨f0, f1, f2, ⟨o, hpath, ho, hm, hd, ht⟩, h1, h2, h3⟩
      rcases hpath with rfl | ⟨hc, c1, c2, c3, rfl, c4⟩
      · rw [hP1]
        exact (parseFuel_sfnt_panic_iff 1 ttf 0 ho hm).2 ⟨f0, f1, f2, ⟨hd, ht⟩, h1, h2, h3⟩
      · rw [hP, (parseFuel_ttc 0 ttf (by omega) hc).1 ⟨c1, c2, c3, c4, by omega⟩]
        exact (parseFuel_sfnt_panic_iff 0 ttf _ ho hm).2 ⟨f0, f1, f2, ⟨hd, ht⟩, h1, h2, h3⟩

theorem Parse_in_bounds_outside_parseCmap_witness :
    InBounds (readTable ttfPlain (be32 92 ++ be32 54)) ∧
    InBounds (parse.tables ttfPlain 5 0 Font.new) ∧
    (∃ f0 f1 f2, ReachesCheck ttfCmapOffsetAtEnd f0 ∧ f0.parseHead = .ret (f1, none) ∧
      f1.parseMaxp = .ret (f2, none) ∧ f2.parseCmap = .panic) :=
  ⟨(Parse_in_bounds_outside_parseCmap ttfPlain).1 (be32 92 ++ be32 54) (by decide),
   (Parse_in_bounds_outside_parseCmap ttfPlain).2.1 5 (by decide),
   (Parse_in_bounds_outside_parseCmap ttfCmapOffsetAtEnd).2.2.2.1 (by decide)⟩

/-! ## A returned Font is one on which nothing failed -/

/-- One round of the directory loop that ends without error: the loop goes on, and the
entry, if its tag is recognised, locates a range inside the buffer. -/
theorem tables_step_inv (ttf : List Byte) (k i : Nat) (f f' : Font)
    (hdir : 16 * (i + 1) + 12 ≤ ttf.length)
    (h : parse.tables ttf (k + 1) (i : Int) f = .ret (f', none)) :
    (∃ f1, parse.tables ttf k ((i + 1 : Nat) : Int) f1 = .ret (f', none)) ∧
    (entryTag ttf i ∈ recognizedTags →
      entryOffset ttf i + entryLength ttf i ≤ ttf.length) := by
  have ex : (16 * (i : Int) + 12) = ((12 + 16 * i : Nat) : Int) := by push_cast; ring
  have e4 : (((12 + 16 * i : Nat) : Int) + 4) = ((12 + 16 * i + 4 : Nat) : Int) := by
    push_cast; ring
  have e8 : (((12 + 16 * i : Nat) : Int) + 8) = ((12 + 16 * i + 8 : Nat) : Int) := by
    push_cast; ring
  have e16 : (((12 + 16 * i : Nat) : Int) + 16) = ((12 + 16 * i + 16 : Nat) : Int) := by
    push_cast; ring
  have e1 : ((i : Int) + 1) = ((i + 1 : Nat) : Int) := by push_cast; rfl
  rw [parse.tables] at h
  simp only [bind_def, pure_def, ex, e4, e8, e16, e1] at h
  have ht : slice ttf ((12 + 16 * i : Nat) : Int) ((12 + 16 * i + 4 : Nat) : Int)
      = .ret (entryTag ttf i) := by
    rw [slice_of_le ttf _ _ (by omega) (by omega), Nat.add_sub_cancel_left]
    rfl
  have hol : slice ttf ((12 + 16 * i + 8 : Nat) : Int) ((12 + 16 * i + 16 : Nat) : Int)
      = .ret ((ttf.drop (12 + 16 * i + 8)).take 8) := by
    rw [slice_of_le ttf _ _ (by omega) (by omega)]
    have e8' : 12 + 16 * i + 16 - (12 + 16 * i + 8) = 8 := by omega
    rw [e8']
  have hol8 : 8 ≤ ((ttf.drop (12 + 16 * i + 8)).take 8).length := by
    rw [List.length_take, List.length_drop]
    omega
  have hoff : bigEndian32 ((ttf.drop (12 + 16 * i + 8)).take 8) 0 = entryOffset ttf i :=
    bigEndian32_range ttf _ 8 0 (by omega)
  have hln : bigEndian32 ((ttf.drop (12 + 16 * i + 8)).take 8) 4 = entryLength ttf i := by
    rw [bigEndian32_range ttf _ 8 4 (by omega)]
    rfl
  obtain ⟨⟨b, e⟩, hr⟩ := readTable_ret ttf ((ttf.drop (12 + 16 * i + 8)).take 8) hol8
  have hfit : e = none → entryOffset ttf i + entryLength ttf i ≤ ttf.length := by
    intro he
    subst he
    rw [readTable_eq ttf _ hol8, hoff, hln] at hr
    by_contra hc
    rw [if_neg hc] at hr
    cases hr
  rw [ht, ret_bind] at h
  simp only [hol, ret_bind, hr] at h
  have hrec : ∀ g : Font,
      (match e with
        | some e => Exec.ret (g, some e)
        | none => parse.tables ttf k ((i + 1 : Nat) : Int) g) = .ret (f', none) →
      (∃ f1, parse.tables ttf k ((i + 1 : Nat) : Int) f1 = .ret (f', none)) ∧
      (entryTag ttf i ∈ recognizedTags →
        entryOffset ttf i + entryLength ttf i ≤ ttf.length) := by
    intro g hg
    cases e with
    | some e0 => cases hg
    | none => exact ⟨⟨g, hg⟩, fun _ => hfit rfl⟩
  by_cases h1 : entryTag ttf i = tag "cmap"
  · rw [if_pos h1] at h
    exact hrec _ h
  rw [if_neg h1] at h
  by_cases h2 : entryTag ttf i = tag "glyf"
  · rw [if_pos h2] at h
    exact hrec _ h
  rw [if_neg h2] at h
  by_cases h3 : entryTag ttf i = tag "head"
  · rw [if_pos h3] at h
    exact hrec _ h
  rw [if_neg h3] at h
  by_cases h4 : entryTag ttf i = tag "hhea"
  · rw [if_pos h4] at h
    exact hrec _ h
  rw [if_neg h4] at h
  by_cases h5 : entryTag ttf i = tag "hmtx"
  · rw [if_pos h5] at h
    exact hrec _ h
  rw [if_neg h5] at h
  by_cases h6 : entryTag ttf i = tag "kern"
  · rw [if_pos h6] at h
    exact hrec _ h
  rw [if_neg h6] at h
  by_cases h7 : entryTag ttf i = tag "loca"
  · rw [if_pos h7] at h
    exact hrec _ h
  rw [if_neg h7] at h
  by_cases h8 : entryTag ttf i = tag "maxp"
  · rw [if_pos h8] at h
    exact hrec _ h
  rw [if_neg h8] at h
  refine ⟨⟨f, h⟩, ?_⟩
  intro hmem
  unfold recognizedTags at hmem
  simp only [List.mem_cons, List.mem_singleton, List.not_mem_nil, or_false] at hmem
  rcases hmem with hm | hm | hm | hm | hm | hm | hm | hm
  · exact absurd hm h1
  · exact absurd hm h2
  · exact absurd hm h3
  · exact absurd hm h4
  · exact absurd hm h5
  · exact absurd hm h6
  · exact absurd hm h7
  · exact absurd hm h8

/-- A directory loop that ends without error has extracted every table it was asked
for: each entry with a recognised tag locates a range inside the buffer. -/
theorem tables_none_fits (ttf : List Byte) : ∀ (k i : Nat) (f f' : Font),
    16 * (i + k) + 12 ≤ ttf.length →
    parse.tables ttf k (i : Int) f = .ret (f', none) →
    ∀ j, i ≤ j → j < i + k → entryTag ttf j ∈ recognizedTags →
      entryOffset ttf j + entryLength ttf j ≤ ttf.length := by
  intro k
  induction k with
  | zero => intro i f f' _ _ j h1 h2; omega
  | succ k ih =>
    intro i f f' hdir h j h1 h2 hmem
    obtain ⟨⟨f1, hnext⟩, hhere⟩ := tables_step_inv ttf k i f f' (by omega) h
    by_cases hj : j = i
    · subst hj
      exact hhere hmem
    · exact ih (i + 1) f1 f' (by omega) hnext j (by omega) (by omega) hmem

/-- A Font that `parse` returns at offset `o`, on a buffer with the sfnt magic there,
comes out of the sub-parser stage on the Font left by an error-free directory loop. -/
theorem parseFuel_sfnt_some_inv (fuel : Nat) (ttf : List Byte) (o : Nat) (g : Font)
    (ho : o + 12 ≤ ttf.length) (hm : bigEndian32 ttf o = 0x00010000)
    (h : parseFuel (fuel + 1) ttf (o : Int) = .ret (some g, none)) :
    ∃ f0, (16 * bigEndian16 ttf (o + 4) + 12 ≤ ttf.length ∧
      parse.tables ttf (bigEndian16 ttf (o + 4)) 0 Font.new = .ret (f0, none)) ∧
      parse.check f0 = .ret (some g, none) := by
  rw [parseFuel_sfnt_eq fuel ttf o ho hm] at h
  have e0 : (((0 : Nat) : Int)) = (0 : Int) := rfl
  by_cases hd : ttf.length < 16 * bigEndian16 ttf (o + 4) + 12
  · rw [if_pos hd] at h
    cases h
  · rw [if_neg hd] at h
    obtain ⟨⟨f0, e⟩, ht⟩ := tables_ret ttf (bigEndian16 ttf (o + 4)) 0 Font.new (by omega)
    rw [ht, ret_bind] at h
    cases e with
    | some e => cases h
    | none =>
      simp only at h
      rw [e0] at ht
      exact ⟨f0, ⟨by omega, ht⟩, h⟩

/-- A Font that `Parse` returns comes out of the sub-parser stage on the Font with
which `Parse` arrives there. -/
theorem Parse_some_reaches (ttf : List Byte) (g : Font)
    (h : Parse ttf = .ret (some g, none)) :
    ∃ f0, ReachesCheck ttf f0 ∧ parse.check f0 = .ret (some g, none) := by
  have hP : Parse ttf = parseFuel (0 + 2) ttf 0 := rfl
  have hP1 : Parse ttf = parseFuel (1 + 1) ttf ((0 : Nat) : Int) := rfl
  by_cases h12 : ttf.length < 12
  · rw [hP1, parseFuel_short 1 ttf _ (by omega)] at h
    cases h
  · by_cases hm : bigEndian32 ttf 0 = 0x00010000
    · rw [hP1] at h
      obtain ⟨f0, ⟨hd, ht⟩, hc⟩ := parseFuel_sfnt_some_inv 1 ttf 0 g (by omega) hm h
      exact ⟨f0, ⟨0, Or.inl rfl, by omega, hm, hd, ht⟩, hc⟩
    · by_cases hc : bigEndian32 ttf 0 = 0x74746366
      · obtain ⟨hgo, hstop⟩ := parseFuel_ttc 0 ttf (by omega) hc
        by_cases hC : bigEndian32 ttf 4 = 0x00010000 ∧ 1 ≤ bigEndian32 ttf 8 ∧
            bigEndian32 ttf 8 ≤ (ttf.length - 12) / 4 ∧
            0 < bigEndian32 ttf 12 ∧ bigEndian32 ttf 12 ≤ ttf.length
        · rw [hP, hgo hC] at h
          obtain ⟨c1, c2, c3, c4, c5⟩ := hC
          by_cases hs : (ttf.length : Int) - ((bigEndian32 ttf 12 : Nat) : Int) < 12
          · rw [parseFuel_short 0 ttf _ hs] at h
            cases h
          · by_cases hm2 : bigEndian32 ttf (bigEndian32 ttf 12) = 0x00010000
            · obtain ⟨f0, ⟨hd, ht⟩, hk⟩ :=
                parseFuel_sfnt_some_inv 0 ttf (bigEndian32 ttf 12) g (by omega) hm2 h
              exact ⟨f0,
                ⟨bigEndian32 ttf 12, Or.inr ⟨hc, c1, c2, c3, rfl, c4⟩, by omega, hm2, hd, ht⟩,
                hk⟩
            · obtain ⟨e, he⟩ := parseFuel_other_magic 0 ttf (bigEndian32 ttf 12) (by omega)
                hm2 (Or.inr (by omega))
              rw [he] at h
              cases h
        · obtain ⟨e, he⟩ := hstop hC
          rw [hP, he] at h
          cases h
      · obtain ⟨e, he⟩ := parseFuel_other_magic 1 ttf 0 (by omega) hm (Or.inl hc)
        rw [hP1, he] at h
        cases h

/-- C5: whenever Parse returns, exactly one of the returned Font and error is non-nil:
the Font is nil if and only if the error is not. And a Font that Parse returns is never
one on which something failed: Parse has got through the header and the directory loop
without error, every directory entry with a recognised tag has located a range inside
the buffer (no table-range extraction failed), and parseHead, parseMaxp, parseCmap,
parseKern and parseHhea, run in this order each on the Font left by its predecessor,
have all returned without error, the last one leaving the returned Font. -/
theorem Parse_font_xor_error (ttf : List Byte) (font : Option Font) (err : Option Error)
    (h : Parse ttf = .ret (font, err)) :
    (font = none ↔ err ≠ none) ∧
    (∀ g, font = some g →
      ∃ n f0 f1 f2 f3 f4,
        ReachesCheck ttf f0 ∧
        (16 * n + 12 ≤ ttf.length ∧ parse.tables ttf n 0 Font.new = .ret (f0, none) ∧
          ∀ i, i < n → entryTag ttf i ∈ recognizedTags →
            entryOffset ttf i + entryLength ttf i ≤ ttf.length) ∧
        f0.parseHead = .ret (f1, none) ∧ f1.parseMaxp = .ret (f2, none) ∧
        f2.parseCmap = .ret (f3, none) ∧ f3.parseKern = .ret (f4, none) ∧
        f4.parseHhea = .ret (g, none)) := by
  have hx := parseFuel_exclusive 2 ttf 0 font err h
  refine ⟨hx, ?_⟩
  intro g hg
  subst hg
  have herr : err = none := by
    by_contra hne
    have := hx.2 hne
    cases this
  subst herr
  obtain ⟨f0, hreach, hcheck⟩ := Parse_some_reaches ttf g h
  obtain ⟨f1, f2, f3, f4, h1, h2, h3, h4, h5⟩ := check_some_inv f0 g hcheck
  have hreach' := hreach
  obtain ⟨o, -, -, -, hd, ht⟩ := hreach'
  have e0 : (((0 : Nat) : Int)) = (0 : Int) := rfl
  have hfits := tables_none_fits ttf (bigEndian16 ttf (o + 4)) 0 Font.new f0 (by omega)
    (by rw [e0]; exact ht)
  exact ⟨bigEndian16 ttf (o + 4), f0, f1, f2, f3, f4, hreach,
    ⟨hd, ht, fun i hi hmem => hfits i (Nat.zero_le _) (by omega) hmem⟩, h1, h2, h3, h4, h5⟩

theorem Parse_font_xor_error_witness :
    ((none : Option Font) = none ↔ some (Error.FormatError "bad head length: 0") ≠ none) ∧
    (∃ n f0 f1 f2 f3 f4,
      ReachesCheck ttfPlain f0 ∧
      (16 * n + 12 ≤ ttfPlain.length ∧ parse.tables ttfPlain n 0 Font.new = .ret (f0, none) ∧
        ∀ i, i < n → entryTag ttfPlain i ∈ recognizedTags →
          entryOffset ttfPlain i + entryLength ttfPlain i ≤ ttfPlain.length) ∧
      f0.parseHead = .ret (f1, none) ∧ f1.parseMaxp = .ret (f2, none) ∧
      f2.parseCmap = .ret (f3, none) ∧ f3.parseKern = .ret (f4, none) ∧
      f4.parseHhea = .ret (fontPlain, none)) :=
  ⟨(Parse_font_xor_error ttfNoTables none (some (.FormatError "bad head length: 0"))
      (by decide)).1,
   (Parse_font_xor_error ttfPlain (some fontPlain) none (by decide)).2 fontPlain rfl⟩

end truetype
